import Mathlib

/-!
# quick-compiler: the recursive-descent parser of `src/parser.c` and the driver `src/main.c`

A shallow embedding of the parser and of `main`.  The two globals of `parser.c`
(`iTk`, `consumed`) become the fields of `PState`; the read-only global token
array becomes a parameter `tk`.  `tkerr` ends the process, which is the result
`Res.fatal`.  The grammar rules are mutually recursive and contain loops, so
the rules that recurse take a fuel argument that bounds the call depth; running
out of it is the result `Res.timeout`.  Reading `tokens[iTk]` outside the
sequence is the result `Res.oob`.  The driver `main` takes the functions it
calls from the lexer and the utilities, which are outside the sources, as the
fields of `Env`.
-/

namespace QuickCompiler

/-! ## Tokens -/

/-- Modelled from the spec: the token category enumeration of `lexer.h`, which is
not among the sources; the names are the ones `parser.c` uses and the closed set
is the one listed in section 6 of the specification. -/
inductive Code where
  | VAR | ID | COLON | TYPE_INT | TYPE_REAL | TYPE_STR | SEMICOLON | FUNCTION
  | LPAR | RPAR | COMMA | END | IF | ELSE | WHILE | RETURN | AND | OR | ASSIGN
  | LESS | EQUAL | ADD | SUB | MUL | DIV | NOT | INT | REAL | STRING | FINISH
deriving DecidableEq, Repr

open Code

/-- Modelled from the spec: the `Token` record of `lexer.h`, which is not among the
sources.  The parser reads the fields `code` and `line` only; the payload of a
literal or identifier is never read by `parser.c` and is left out. -/
structure Token where
  code : Code
  line : Int
deriving DecidableEq, Repr

/-! ## Parser state and results -/

/-- The two globals of `parser.c`: `iTk`, the iterator in `tokens`, and `consumed`,
the pointer to the last consumed token (an index into `tokens`, `none` for the
null pointer). -/
structure PState where
  iTk : Nat
  consumed : Option Nat
deriving DecidableEq, Repr

/-- How a call ends: it returns `a` in state `s`; or `tkerr` printed
`error in line <line>: <msg>` and left the process with `EXIT_FAILURE`; or
`tokens[iTk]` was read outside the sequence; or the fuel ran out. -/
inductive Res (α : Type) where
  | ok (a : α) (s : PState)
  | fatal (line : Int) (msg : String)
  | oob
  | timeout
deriving DecidableEq, Repr

/-- A computation over the parser globals. -/
def Parser (α : Type) : Type := PState → Res α

/-- Sequencing: the second computation runs only when the first one returned. -/
def Parser.bind {α β : Type} (m : Parser α) (k : α → Parser β) : Parser β := fun s =>
  match m s with
  | .ok a s1 => k a s1
  | .fatal l e => .fatal l e
  | .oob => .oob
  | .timeout => .timeout

instance : Monad Parser where
  pure a := fun s => .ok a s
  bind := Parser.bind

/-- Fuel exhausted. -/
def outOfFuel {α : Type} : Parser α := fun _ => .timeout

/-- Reads the global `iTk` (`int start = iTk;`). -/
def getITk : Parser Nat := fun s => .ok s.iTk s

/-- Writes the global `iTk` (`iTk = start;`). -/
def setITk (i : Nat) : Parser Unit := fun s => .ok () { s with iTk := i }

/-- The C operator `a || b` on two calls: `b` runs only when `a` returned false. -/
def cOr (a b : Parser Bool) : Parser Bool := do
  if ← a then
    return true
  else
    b

/-! ## `tkerr` and `consume` -/

/-- The function `tkerr`: prints the line of the current token and the message, then
exits.  None of the calls in `parser.c` passes format arguments, so the message
is the format string. -/
def tkerr {α : Type} (tk : List Token) (fmt : String) : Parser α := fun s =>
  match tk[s.iTk]? with
  | some t => .fatal t.line fmt
  | none => .oob

/-- The function `consume`. -/
def consume (tk : List Token) (code : Code) : Parser Bool := fun s =>
  match tk[s.iTk]? with
  | some t =>
    if t.code = code then
      .ok true { iTk := s.iTk + 1, consumed := some s.iTk }
    else
      .ok false s
  | none => .oob

/-! ## Grammar rules without recursion -/

/-- The rule `baseType ::= TYPE_INT | TYPE_REAL | TYPE_STR`. -/
def baseType (tk : List Token) : Parser Bool := do
  if ← cOr (cOr (consume tk .TYPE_INT) (consume tk .TYPE_REAL)) (consume tk .TYPE_STR) then
    return true
  return false

/-- The rule `defVar ::= VAR ID COLON baseType SEMICOLON`. -/
def defVar (tk : List Token) : Parser Bool := do
  if ← consume tk .VAR then
    if ← consume tk .ID then
      if ← consume tk .COLON then
        if ← baseType tk then
          if ← consume tk .SEMICOLON then
            return true
          else tkerr tk "Missing ';' after variable declaration"
      else tkerr tk "Missing ':' in variable declaration"
    else tkerr tk "Missing identifier in variable declaration"
  return false

/-- The rule `funcParam ::= ID COLON baseType`. -/
def funcParam (tk : List Token) : Parser Bool := do
  if ← consume tk .ID then
    if ← consume tk .COLON then
      if ← baseType tk then
        return true
      else tkerr tk "Invalid base type in function parameter"
    else tkerr tk "Missing ':' in function parameter"
  return false

/-- The loop `while (consume(COMMA)) { if (!funcParam()) tkerr(...); }` of
`funcParams`. -/
def funcParams_while (tk : List Token) : Nat → Parser Unit
  | 0 => outOfFuel
  | n + 1 => do
    if ← consume tk .COMMA then
      if !(← funcParam tk) then
        tkerr tk "Invalid function parameter after ','"
      funcParams_while tk n

/-- The rule `funcParams ::= funcParam ( COMMA funcParam )*`. -/
def funcParams (tk : List Token) (fuel : Nat) : Parser Bool := do
  if ← funcParam tk then
    funcParams_while tk fuel
    return true
  return false

/-- The loop `while (defVar()) {}` of `defFunc`. -/
def defFunc_while (tk : List Token) : Nat → Parser Unit
  | 0 => outOfFuel
  | n + 1 => do
    if ← defVar tk then
      defFunc_while tk n

/-! ## The mutually recursive rules: statements and expressions -/

mutual

/-- The rule `block ::= instr+`. -/
def block (tk : List Token) : Nat → Parser Bool
  | 0 => outOfFuel
  | n + 1 => do
    if ← instr tk n then
      block_while tk n
      return true
    return false

/-- The loop `while (instr()) {}` of `block`. -/
def block_while (tk : List Token) : Nat → Parser Unit
  | 0 => outOfFuel
  | n + 1 => do
    if ← instr tk n then
      block_while tk n

/-- The rule `instr`, with the cursor saved in `start` on entry. -/
def instr (tk : List Token) : Nat → Parser Bool
  | 0 => outOfFuel
  | n + 1 => do
    let start ← getITk
    if ← expr tk n then
      if ← consume tk .SEMICOLON then
        return true
      setITk start
    if ← consume tk .IF then
      if ← consume tk .LPAR then
        if ← expr tk n then
          if ← consume tk .RPAR then
            if ← block tk n then
              if ← consume tk .ELSE then
                if !(← block tk n) then
                  tkerr tk "Expected block after 'else'"
              if ← consume tk .END then
                return true
              else tkerr tk "Missing 'end' after 'if' statement"
    else if ← consume tk .RETURN then
      if ← expr tk n then
        if ← consume tk .SEMICOLON then
          return true
        else tkerr tk "Missing ';' after return statement"
      else tkerr tk "Missing expression in return statement"
    else if ← consume tk .WHILE then
      if ← consume tk .LPAR then
        if ← expr tk n then
          if ← consume tk .RPAR then
            if ← block tk n then
              if ← consume tk .END then
                return true
              else tkerr tk "Missing 'end' after 'while' loop"
    return false

/-- The rule `expr ::= exprLogic`. -/
def expr (tk : List Token) : Nat → Parser Bool
  | 0 => outOfFuel
  | n + 1 => exprLogic tk n

/-- The rule `exprLogic ::= exprAssign ( ( AND | OR ) exprAssign )*`. -/
def exprLogic (tk : List Token) : Nat → Parser Bool
  | 0 => outOfFuel
  | n + 1 => do
    if ← exprAssign tk n then
      exprLogic_while tk n
      return true
    return false

/-- The loop of `exprLogic`. -/
def exprLogic_while (tk : List Token) : Nat → Parser Unit
  | 0 => outOfFuel
  | n + 1 => do
    if ← cOr (consume tk .AND) (consume tk .OR) then
      if !(← exprAssign tk n) then
        tkerr tk "Invalid expression after 'and/or'"
      exprLogic_while tk n

/-- The rule `exprAssign ::= ( ID ASSIGN )? exprComp`, with the cursor saved in
`start` on entry. -/
def exprAssign (tk : List Token) : Nat → Parser Bool
  | 0 => outOfFuel
  | n + 1 => do
    let start ← getITk
    if ← consume tk .ID then
      if ← consume tk .ASSIGN then
        if ← exprComp tk n then
          return true
        else tkerr tk "Invalid expression after '='"
      setITk start
    exprComp tk n

/-- The rule `exprComp ::= exprAdd ( ( LESS | EQUAL ) exprAdd )?`. -/
def exprComp (tk : List Token) : Nat → Parser Bool
  | 0 => outOfFuel
  | n + 1 => do
    if ← exprAdd tk n then
      if ← cOr (consume tk .LESS) (consume tk .EQUAL) then
        if !(← exprAdd tk n) then
          tkerr tk "Invalid expression after '<' or '='"
      return true
    return false

/-- The rule `exprAdd ::= exprMul ( ( ADD | SUB ) exprMul )*`. -/
def exprAdd (tk : List Token) : Nat → Parser Bool
  | 0 => outOfFuel
  | n + 1 => do
    if ← exprMul tk n then
      exprAdd_while tk n
      return true
    return false

/-- The loop of `exprAdd`. -/
def exprAdd_while (tk : List Token) : Nat → Parser Unit
  | 0 => outOfFuel
  | n + 1 => do
    if ← cOr (consume tk .ADD) (consume tk .SUB) then
      if !(← exprMul tk n) then
        tkerr tk "Invalid expression after '+' or '-'"
      exprAdd_while tk n

/-- The rule `exprMul ::= exprPrefix ( ( MUL | DIV ) exprPrefix )*`. -/
def exprMul (tk : List Token) : Nat → Parser Bool
  | 0 => outOfFuel
  | n + 1 => do
    if ← exprPrefix tk n then
      exprMul_while tk n
      return true
    return false

/-- The loop of `exprMul`. -/
def exprMul_while (tk : List Token) : Nat → Parser Unit
  | 0 => outOfFuel
  | n + 1 => do
    if ← cOr (consume tk .MUL) (consume tk .DIV) then
      if !(← exprPrefix tk n) then
        tkerr tk "Invalid expression after '*' or '/'"
      exprMul_while tk n

/-- The rule `exprPrefix ::= ( SUB | NOT )? factor`. -/
def exprPrefix (tk : List Token) : Nat → Parser Bool
  | 0 => outOfFuel
  | n + 1 => do
    if ← cOr (consume tk .SUB) (consume tk .NOT) then
      return (← factor tk n)
    return (← factor tk n)

/-- The rule `factor`. -/
def factor (tk : List Token) : Nat → Parser Bool
  | 0 => outOfFuel
  | n + 1 => do
    if ← cOr (cOr (consume tk .INT) (consume tk .REAL)) (consume tk .STRING) then
      return true
    if ← consume tk .LPAR then
      if ← expr tk n then
        if ← consume tk .RPAR then
          return true
        else tkerr tk "Missing ')' after expression"
    if ← consume tk .ID then
      if ← consume tk .LPAR then
        if ← expr tk n then
          factor_while tk n
        if ← consume tk .RPAR then
          return true
        else tkerr tk "Missing ')' after function arguments"
      return true
    return false

/-- The loop `while (consume(COMMA)) { if (!expr()) tkerr(...); }` of `factor`. -/
def factor_while (tk : List Token) : Nat → Parser Unit
  | 0 => outOfFuel
  | n + 1 => do
    if ← consume tk .COMMA then
      if !(← expr tk n) then
        tkerr tk "Invalid expression after ',' in function call"
      factor_while tk n

end

/-! ## Function definitions, the program and `parse` -/

/-- The rule
`defFunc ::= FUNCTION ID LPAR funcParams? RPAR COLON baseType defVar* block END`. -/
def defFunc (tk : List Token) (fuel : Nat) : Parser Bool := do
  if ← consume tk .FUNCTION then
    if ← consume tk .ID then
      if ← consume tk .LPAR then
        let _ ← funcParams tk fuel
        if ← consume tk .RPAR then
          if ← consume tk .COLON then
            if ← baseType tk then
              defFunc_while tk fuel
              if ← block tk fuel then
                if ← consume tk .END then
                  return true
                else tkerr tk "Missing 'end' after function definition"
          else tkerr tk "Missing ':' in function declaration"
        else tkerr tk "Missing ')' after function parameters"
      else tkerr tk "Missing '(' after function identifier"
    else tkerr tk "Missing function identifier"
  return false

/-- The loop `for (;;) { ... else break; }` of `program`. -/
def program_for (tk : List Token) : Nat → Parser Unit
  | 0 => outOfFuel
  | n + 1 => do
    if ← defVar tk then
      program_for tk n
    else if ← defFunc tk n then
      program_for tk n
    else if ← block tk n then
      program_for tk n
    else
      return ()

/-- The rule `program ::= ( defVar | defFunc | block )* FINISH`. -/
def program (tk : List Token) (fuel : Nat) : Parser Bool := do
  program_for tk fuel
  if ← consume tk .FINISH then
    return true
  else tkerr tk "syntax error"

/-- The function `parse`: `iTk = 0; program();`. -/
def parse (tk : List Token) (fuel : Nat) : Parser Unit := do
  setITk 0
  let _ ← program tk fuel
  return ()

/-- Tokens of the given categories, all on line `1`. -/
def onLine1 (cs : List Code) : List Token := cs.map (fun c => { code := c, line := 1 })

/-- The state of the globals when the process starts. -/
def PState.init : PState := { iTk := 0, consumed := none }

/-- The token sequence ends with an end marker: `last` is the index of its last
token and that token is `FINISH`. -/
def EndsWithFinish (tk : List Token) (last : Nat) : Prop :=
  tk.length = last + 1 ∧ ∃ t, tk[last]? = some t ∧ t.code = Code.FINISH

/-! ## The grammar of section 4.2 of the specification -/

/-- The nonterminals of the grammar of section 4.2.  `defVars` and `args` stand for
the repetitions `defVar*` and `expr ( ',' expr )*`, which the specification
writes in place. -/
inductive NT where
  | program | defVar | baseType | defFunc | defVars | funcParams | funcParam | block
  | instr | expr | exprLogic | exprAssign | exprComp | exprAdd | exprMul
  | exprPrefix | factor | args
deriving DecidableEq, Repr

/-- Follows the specification, not the code: `Derives N ts` says that the sequence
of token categories `ts` is derivable from the nonterminal `N` of the grammar
of section 4.2.  A repetition `( X )*` is unfolded one item at a time, and an
option `( X )?` is one production with `X` and one without. -/
inductive Derives : NT → List Code → Prop where
  | program_end : Derives .program [FINISH]
  | program_defVar {a b : List Code} :
      Derives .defVar a → Derives .program b → Derives .program (a ++ b)
  | program_defFunc {a b : List Code} :
      Derives .defFunc a → Derives .program b → Derives .program (a ++ b)
  | program_block {a b : List Code} :
      Derives .block a → Derives .program b → Derives .program (a ++ b)
  | defVar {t : List Code} :
      Derives .baseType t → Derives .defVar ([VAR, ID, COLON] ++ t ++ [SEMICOLON])
  | baseType_int : Derives .baseType [TYPE_INT]
  | baseType_real : Derives .baseType [TYPE_REAL]
  | baseType_str : Derives .baseType [TYPE_STR]
  | defFunc {t vs b : List Code} :
      Derives .baseType t → Derives .defVars vs → Derives .block b →
      Derives .defFunc ([FUNCTION, ID, LPAR, RPAR, COLON] ++ t ++ vs ++ b ++ [END])
  | defFunc_params {ps t vs b : List Code} :
      Derives .funcParams ps → Derives .baseType t → Derives .defVars vs →
      Derives .block b →
      Derives .defFunc ([FUNCTION, ID, LPAR] ++ ps ++ [RPAR, COLON] ++ t ++ vs ++ b ++ [END])
  | defVars_nil : Derives .defVars []
  | defVars_cons {a b : List Code} :
      Derives .defVar a → Derives .defVars b → Derives .defVars (a ++ b)
  | funcParams_one {a : List Code} : Derives .funcParam a → Derives .funcParams a
  | funcParams_more {a b : List Code} :
      Derives .funcParam a → Derives .funcParams b → Derives .funcParams (a ++ [COMMA] ++ b)
  | funcParam {t : List Code} : Derives .baseType t → Derives .funcParam ([ID, COLON] ++ t)
  | block_one {a : List Code} : Derives .instr a → Derives .block a
  | block_more {a b : List Code} :
      Derives .instr a → Derives .block b → Derives .block (a ++ b)
  | instr_empty : Derives .instr [SEMICOLON]
  | instr_expr {e : List Code} : Derives .expr e → Derives .instr (e ++ [SEMICOLON])
  | instr_if {e b : List Code} :
      Derives .expr e → Derives .block b →
      Derives .instr ([IF, LPAR] ++ e ++ [RPAR] ++ b ++ [END])
  | instr_if_else {e b c : List Code} :
      Derives .expr e → Derives .block b → Derives .block c →
      Derives .instr ([IF, LPAR] ++ e ++ [RPAR] ++ b ++ [ELSE] ++ c ++ [END])
  | instr_return {e : List Code} :
      Derives .expr e → Derives .instr ([RETURN] ++ e ++ [SEMICOLON])
  | instr_while {e b : List Code} :
      Derives .expr e → Derives .block b →
      Derives .instr ([WHILE, LPAR] ++ e ++ [RPAR] ++ b ++ [END])
  | expr {e : List Code} : Derives .exprLogic e → Derives .expr e
  | exprLogic_one {a : List Code} : Derives .exprAssign a → Derives .exprLogic a
  | exprLogic_and {a b : List Code} :
      Derives .exprAssign a → Derives .exprLogic b → Derives .exprLogic (a ++ [AND] ++ b)
  | exprLogic_or {a b : List Code} :
      Derives .exprAssign a → Derives .exprLogic b → Derives .exprLogic (a ++ [OR] ++ b)
  | exprAssign_comp {a : List Code} : Derives .exprComp a → Derives .exprAssign a
  | exprAssign_assign {a : List Code} :
      Derives .exprComp a → Derives .exprAssign ([ID, ASSIGN] ++ a)
  | exprComp_one {a : List Code} : Derives .exprAdd a → Derives .exprComp a
  | exprComp_less {a b : List Code} :
      Derives .exprAdd a → Derives .exprAdd b → Derives .exprComp (a ++ [LESS] ++ b)
  | exprComp_equal {a b : List Code} :
      Derives .exprAdd a → Derives .exprAdd b → Derives .exprComp (a ++ [EQUAL] ++ b)
  | exprAdd_one {a : List Code} : Derives .exprMul a → Derives .exprAdd a
  | exprAdd_add {a b : List Code} :
      Derives .exprMul a → Derives .exprAdd b → Derives .exprAdd (a ++ [ADD] ++ b)
  | exprAdd_sub {a b : List Code} :
      Derives .exprMul a → Derives .exprAdd b → Derives .exprAdd (a ++ [SUB] ++ b)
  | exprMul_one {a : List Code} : Derives .exprPrefix a → Derives .exprMul a
  | exprMul_mul {a b : List Code} :
      Derives .exprPrefix a → Derives .exprMul b → Derives .exprMul (a ++ [MUL] ++ b)
  | exprMul_div {a b : List Code} :
      Derives .exprPrefix a → Derives .exprMul b → Derives .exprMul (a ++ [DIV] ++ b)
  | exprPrefix_factor {a : List Code} : Derives .factor a → Derives .exprPrefix a
  | exprPrefix_sub {a : List Code} : Derives .factor a → Derives .exprPrefix ([SUB] ++ a)
  | exprPrefix_not {a : List Code} : Derives .factor a → Derives .exprPrefix ([NOT] ++ a)
  | factor_int : Derives .factor [INT]
  | factor_real : Derives .factor [REAL]
  | factor_string : Derives .factor [STRING]
  | factor_paren {e : List Code} : Derives .expr e → Derives .factor ([LPAR] ++ e ++ [RPAR])
  | factor_id : Derives .factor [ID]
  | factor_call0 : Derives .factor [ID, LPAR, RPAR]
  | factor_call {a : List Code} :
      Derives .args a → Derives .factor ([ID, LPAR] ++ a ++ [RPAR])
  | args_one {e : List Code} : Derives .expr e → Derives .args e
  | args_more {e a : List Code} :
      Derives .expr e → Derives .args a → Derives .args (e ++ [COMMA] ++ a)

/-- A construct that ends a statement or a declaration ends with `;` or `end`. -/
def EndsStatement (ts : List Code) : Prop :=
  ts.getLast? = some Code.SEMICOLON ∨ ts.getLast? = some Code.END

/-- What a derivation from `N` forces on the last token, for the nonterminals at
statement level; nothing for the others. -/
def LastToken : NT → List Code → Prop
  | .program, ts => ∃ body, ts = body ++ [Code.FINISH] ∧ (body = [] ∨ EndsStatement body)
  | .defVar, ts => EndsStatement ts
  | .defFunc, ts => EndsStatement ts
  | .block, ts => EndsStatement ts
  | .instr, ts => EndsStatement ts
  | _, _ => True

/-! ## Predicates used to state the properties of the rules -/

/-- Two states that agree on the cursor, and on `consumed` unless each still holds
the value it had at the start (`k` for the first state, `k'` for the second). -/
def Sim (k k' : Option Nat) (s s' : PState) : Prop :=
  s.iTk = s'.iTk ∧ (s.consumed = s'.consumed ∨ (s.consumed = k ∧ s'.consumed = k'))

/-- The first result is a timeout, or both runs ended the same way: the same return
value in states related by `Sim`, the same diagnostic, or both out of bounds. -/
def ResLe {α : Type} (k k' : Option Nat) : Res α → Res α → Prop
  | .timeout, _ => True
  | .ok a s, .ok a' s' => a = a' ∧ Sim k k' s s'
  | .fatal l e, .fatal l' e' => l = l' ∧ e = e'
  | .oob, .oob => True
  | _, _ => False

/-- The computation `m'` simulates `m` from related states, unless `m` times out. -/
structure Lock {α : Type} (k k' : Option Nat) (m m' : Parser α) : Prop where
  run : ∀ s s', Sim k k' s s' → ResLe k k' (m s) (m' s')

/-- Total correctness: from `s` the computation returns in a state that satisfies
`Q`, or ends with a diagnostic; it neither times out nor reads out of bounds. -/
def wp {α : Type} (m : Parser α) (Q : α → PState → Prop) (s : PState) : Prop :=
  match m s with
  | .ok a s1 => Q a s1
  | .fatal _ _ => True
  | .oob => False
  | .timeout => False

/-- The call depth a rule of rank `r` may need at cursor `c`: no chain of calls at
one cursor position is longer than the `12` ranks, and the cursor never passes
`last`. -/
def budget (last r c : Nat) : Nat := 12 * (last - c) + r

/-- A rule that returns a truth value, started with a cursor not past the end
marker and with fuel for its rank: it returns with the cursor advanced when it
returns true, not moved back when it returns false, and still not past the end
marker; or it ends with a diagnostic. -/
def RuleB (last r n : Nat) (m : Parser Bool) : Prop :=
  ∀ (Q : Bool → PState → Prop) (s : PState), s.iTk ≤ last → budget last r s.iTk ≤ n →
    (∀ s1, s.iTk < s1.iTk → s1.iTk ≤ last → Q true s1) →
    (∀ s1, s.iTk ≤ s1.iTk → s1.iTk ≤ last → Q false s1) → wp m Q s

/-- The same for a loop, which returns nothing. -/
def RuleU (last r n : Nat) (m : Parser Unit) : Prop :=
  ∀ (Q : Unit → PState → Prop) (s : PState), s.iTk ≤ last → budget last r s.iTk ≤ n →
    (∀ s1, s.iTk ≤ s1.iTk → s1.iTk ≤ last → Q () s1) → wp m Q s

/-- The result of a rule started in state `s` respects the cursor range: the rule
did not read outside the sequence, and when it returned, the cursor had not
moved back and was not past the end marker at index `last`. -/
def StaysInRange {α : Type} (last : Nat) (s : PState) : Res α → Prop
  | .ok _ s1 => s.iTk ≤ s1.iTk ∧ s1.iTk ≤ last
  | .fatal _ _ => True
  | .oob => False
  | .timeout => True

/-! ## Predicates and parts of rules used to state the later properties -/

/-- The token categories that begin an expression: no rule under `expr` consumes a
first token of another category. -/
def ExprStart (c : Code) : Prop :=
  c = ID ∨ c = INT ∨ c = REAL ∨ c = STRING ∨ c = LPAR ∨ c = SUB ∨ c = NOT

instance (c : Code) : Decidable (ExprStart c) := by
  unfold ExprStart; infer_instance

/-- The token categories that begin an instruction: those of an expression and the
three statement keywords. -/
def InstrStart (c : Code) : Prop :=
  ExprStart c ∨ c = IF ∨ c = RETURN ∨ c = WHILE

instance (c : Code) : Decidable (InstrStart c) := by
  unfold InstrStart; infer_instance

/-- The part of `instr` after the expression statement: the alternatives led by
`IF`, `RETURN` and `WHILE` and the final `return false` (lines 158 to 192 of
`parser.c`), with the fuel that `instr` passes to the rules it calls. -/
def instr_keywords (tk : List Token) (n : Nat) : Parser Bool := do
  if ← consume tk .IF then
    if ← consume tk .LPAR then
      if ← expr tk n then
        if ← consume tk .RPAR then
          if ← block tk n then
            if ← consume tk .ELSE then
              if !(← block tk n) then
                tkerr tk "Expected block after 'else'"
            if ← consume tk .END then
              return true
            else tkerr tk "Missing 'end' after 'if' statement"
  else if ← consume tk .RETURN then
    if ← expr tk n then
      if ← consume tk .SEMICOLON then
        return true
      else tkerr tk "Missing ';' after return statement"
    else tkerr tk "Missing expression in return statement"
  else if ← consume tk .WHILE then
    if ← consume tk .LPAR then
      if ← expr tk n then
        if ← consume tk .RPAR then
          if ← block tk n then
            if ← consume tk .END then
              return true
            else tkerr tk "Missing 'end' after 'while' loop"
  return false

/-- Two results are the same outcome: the same return value with the same final
cursor, or the same diagnostic, or both out of bounds, or both out of fuel. -/
def SameOutcome {α : Type} : Res α → Res α → Prop
  | .ok a s, .ok a' s' => a = a' ∧ s.iTk = s'.iTk
  | .fatal l e, .fatal l' e' => l = l' ∧ e = e'
  | .oob, .oob => True
  | .timeout, .timeout => True
  | _, _ => False

/-- The five tokens at index `c` are a variable declaration `VAR ID COLON t SEMICOLON`
with `t` one of the three base types. -/
def IsVarDecl (tk : List Token) (c : Nat) : Prop :=
  ∃ t0 t1 t2 t3 t4 : Token,
    tk[c]? = some t0 ∧ t0.code = VAR ∧
    tk[c + 1]? = some t1 ∧ t1.code = ID ∧
    tk[c + 2]? = some t2 ∧ t2.code = COLON ∧
    tk[c + 3]? = some t3 ∧ (t3.code = TYPE_INT ∨ t3.code = TYPE_REAL ∨ t3.code = TYPE_STR) ∧
    tk[c + 4]? = some t4 ∧ t4.code = SEMICOLON

/-! ## The driver `main.c` -/

/-- Modelled from the spec: the functions `loadFile` and `tokenize` that `main` calls
are declared in `utils.h` and `lexer.h`, which are not among the sources.  Each
either returns (a buffer, the token sequence) or ends the process with a
message, as `err` does; `loadFile` is given the path, `none` for a null
pointer. -/
structure Env where
  loadFile : Option String → Except String String
  tokenize : String → Except String (List Token)

/-- How `main` ends: it returns a status after showing the tokens, or the process
was ended with a message and `EXIT_FAILURE`. -/
inductive MainResult where
  | returned (status : Int) (shown : List Token)
  | aborted (msg : String)
deriving DecidableEq, Repr

/-- The macro `EXIT_SUCCESS` of `stdlib.h`. -/
def EXIT_SUCCESS : Int := 0

/-- The function `main` of `main.c`.  The function `err` is modelled from the spec
and from the comment on `tkerr` (`same as err, but also prints the line of the
current token`): it prints the message and ends the process with a non-zero
status.  `argv[1]` is `none` when the argument vector has no second entry. -/
def main (env : Env) (argc : Int) (argv : List String) : MainResult :=
  if argc < 1 then
    .aborted "You must provide a path"
  else
    match env.loadFile argv[1]? with
    | .error e => .aborted e
    | .ok buf =>
      match env.tokenize buf with
      | .error e => .aborted e
      | .ok tokens => .returned EXIT_SUCCESS tokens

/-! ## The grammar without the empty statement, and token sequences that match -/

/-- Follows the specification, not the code: the grammar of section 4.2 in which
every `expr? ';'` instruction has its expression, that is, `Derives` without the
production `instr ::= ';'`. -/
inductive DerivesNoEmpty : NT → List Code → Prop where
  | program_end : DerivesNoEmpty .program [FINISH]
  | program_defVar {a b : List Code} :
      DerivesNoEmpty .defVar a → DerivesNoEmpty .program b → DerivesNoEmpty .program (a ++ b)
  | program_defFunc {a b : List Code} :
      DerivesNoEmpty .defFunc a → DerivesNoEmpty .program b → DerivesNoEmpty .program (a ++ b)
  | program_block {a b : List Code} :
      DerivesNoEmpty .block a → DerivesNoEmpty .program b → DerivesNoEmpty .program (a ++ b)
  | defVar {t : List Code} :
      DerivesNoEmpty .baseType t → DerivesNoEmpty .defVar ([VAR, ID, COLON] ++ t ++ [SEMICOLON])
  | baseType_int : DerivesNoEmpty .baseType [TYPE_INT]
  | baseType_real : DerivesNoEmpty .baseType [TYPE_REAL]
  | baseType_str : DerivesNoEmpty .baseType [TYPE_STR]
  | defFunc {t vs b : List Code} :
      DerivesNoEmpty .baseType t → DerivesNoEmpty .defVars vs → DerivesNoEmpty .block b →
      DerivesNoEmpty .defFunc ([FUNCTION, ID, LPAR, RPAR, COLON] ++ t ++ vs ++ b ++ [END])
  | defFunc_params {ps t vs b : List Code} :
      DerivesNoEmpty .funcParams ps → DerivesNoEmpty .baseType t → DerivesNoEmpty .defVars vs →
      DerivesNoEmpty .block b →
      DerivesNoEmpty .defFunc ([FUNCTION, ID, LPAR] ++ ps ++ [RPAR, COLON] ++ t ++ vs ++ b ++ [END])
  | defVars_nil : DerivesNoEmpty .defVars []
  | defVars_cons {a b : List Code} :
      DerivesNoEmpty .defVar a → DerivesNoEmpty .defVars b → DerivesNoEmpty .defVars (a ++ b)
  | funcParams_one {a : List Code} : DerivesNoEmpty .funcParam a → DerivesNoEmpty .funcParams a
  | funcParams_more {a b : List Code} :
      DerivesNoEmpty .funcParam a → DerivesNoEmpty .funcParams b →
      DerivesNoEmpty .funcParams (a ++ [COMMA] ++ b)
  | funcParam {t : List Code} : DerivesNoEmpty .baseType t →
      DerivesNoEmpty .funcParam ([ID, COLON] ++ t)
  | block_one {a : List Code} : DerivesNoEmpty .instr a → DerivesNoEmpty .block a
  | block_more {a b : List Code} :
      DerivesNoEmpty .instr a → DerivesNoEmpty .block b → DerivesNoEmpty .block (a ++ b)
  | instr_expr {e : List Code} : DerivesNoEmpty .expr e → DerivesNoEmpty .instr (e ++ [SEMICOLON])
  | instr_if {e b : List Code} :
      DerivesNoEmpty .expr e → DerivesNoEmpty .block b →
      DerivesNoEmpty .instr ([IF, LPAR] ++ e ++ [RPAR] ++ b ++ [END])
  | instr_if_else {e b c : List Code} :
      DerivesNoEmpty .expr e → DerivesNoEmpty .block b → DerivesNoEmpty .block c →
      DerivesNoEmpty .instr ([IF, LPAR] ++ e ++ [RPAR] ++ b ++ [ELSE] ++ c ++ [END])
  | instr_return {e : List Code} :
      DerivesNoEmpty .expr e → DerivesNoEmpty .instr ([RETURN] ++ e ++ [SEMICOLON])
  | instr_while {e b : List Code} :
      DerivesNoEmpty .expr e → DerivesNoEmpty .block b →
      DerivesNoEmpty .instr ([WHILE, LPAR] ++ e ++ [RPAR] ++ b ++ [END])
  | expr {e : List Code} : DerivesNoEmpty .exprLogic e → DerivesNoEmpty .expr e
  | exprLogic_one {a : List Code} : DerivesNoEmpty .exprAssign a → DerivesNoEmpty .exprLogic a
  | exprLogic_and {a b : List Code} :
      DerivesNoEmpty .exprAssign a → DerivesNoEmpty .exprLogic b →
      DerivesNoEmpty .exprLogic (a ++ [AND] ++ b)
  | exprLogic_or {a b : List Code} :
      DerivesNoEmpty .exprAssign a → DerivesNoEmpty .exprLogic b →
      DerivesNoEmpty .exprLogic (a ++ [OR] ++ b)
  | exprAssign_comp {a : List Code} : DerivesNoEmpty .exprComp a → DerivesNoEmpty .exprAssign a
  | exprAssign_assign {a : List Code} :
      DerivesNoEmpty .exprComp a → DerivesNoEmpty .exprAssign ([ID, ASSIGN] ++ a)
  | exprComp_one {a : List Code} : DerivesNoEmpty .exprAdd a → DerivesNoEmpty .exprComp a
  | exprComp_less {a b : List Code} :
      DerivesNoEmpty .exprAdd a → DerivesNoEmpty .exprAdd b →
      DerivesNoEmpty .exprComp (a ++ [LESS] ++ b)
  | exprComp_equal {a b : List Code} :
      DerivesNoEmpty .exprAdd a → DerivesNoEmpty .exprAdd b →
      DerivesNoEmpty .exprComp (a ++ [EQUAL] ++ b)
  | exprAdd_one {a : List Code} : DerivesNoEmpty .exprMul a → DerivesNoEmpty .exprAdd a
  | exprAdd_add {a b : List Code} :
      DerivesNoEmpty .exprMul a → DerivesNoEmpty .exprAdd b →
      DerivesNoEmpty .exprAdd (a ++ [ADD] ++ b)
  | exprAdd_sub {a b : List Code} :
      DerivesNoEmpty .exprMul a → DerivesNoEmpty .exprAdd b →
      DerivesNoEmpty .exprAdd (a ++ [SUB] ++ b)
  | exprMul_one {a : List Code} : DerivesNoEmpty .exprPrefix a → DerivesNoEmpty .exprMul a
  | exprMul_mul {a b : List Code} :
      DerivesNoEmpty .exprPrefix a → DerivesNoEmpty .exprMul b →
      DerivesNoEmpty .exprMul (a ++ [MUL] ++ b)
  | exprMul_div {a b : List Code} :
      DerivesNoEmpty .exprPrefix a → DerivesNoEmpty .exprMul b →
      DerivesNoEmpty .exprMul (a ++ [DIV] ++ b)
  | exprPrefix_factor {a : List Code} : DerivesNoEmpty .factor a → DerivesNoEmpty .exprPrefix a
  | exprPrefix_sub {a : List Code} : DerivesNoEmpty .factor a →
      DerivesNoEmpty .exprPrefix ([SUB] ++ a)
  | exprPrefix_not {a : List Code} : DerivesNoEmpty .factor a →
      DerivesNoEmpty .exprPrefix ([NOT] ++ a)
  | factor_int : DerivesNoEmpty .factor [INT]
  | factor_real : DerivesNoEmpty .factor [REAL]
  | factor_string : DerivesNoEmpty .factor [STRING]
  | factor_paren {e : List Code} : DerivesNoEmpty .expr e →
      DerivesNoEmpty .factor ([LPAR] ++ e ++ [RPAR])
  | factor_id : DerivesNoEmpty .factor [ID]
  | factor_call0 : DerivesNoEmpty .factor [ID, LPAR, RPAR]
  | factor_call {a : List Code} :
      DerivesNoEmpty .args a → DerivesNoEmpty .factor ([ID, LPAR] ++ a ++ [RPAR])
  | args_one {e : List Code} : DerivesNoEmpty .expr e → DerivesNoEmpty .args e
  | args_more {e a : List Code} :
      DerivesNoEmpty .expr e → DerivesNoEmpty .args a → DerivesNoEmpty .args (e ++ [COMMA] ++ a)

/-- The token at index `c` exists and its category satisfies `P`. -/
def Next (tk : List Token) (c : Nat) (P : Code → Prop) : Prop :=
  ∃ t, tk[c]? = some t ∧ P t.code

/-- The categories of the tokens from index `c` up to index `c1`, excluded, are `ts`. -/
def Span (tk : List Token) : Nat → List Code → Nat → Prop
  | c, [], c1 => c1 = c
  | c, x :: xs, c1 => Next tk c (fun y => y = x) ∧ Span tk (c + 1) xs c1

/-- The rule `f`, run with enough fuel from cursor `c` and any `consumed`, returns `a`
with the cursor at `c1`. -/
def Acc {α : Type} (f : Nat → Parser α) (a : α) (c c1 : Nat) : Prop :=
  ∃ N, ∀ n, N ≤ n → ∀ k, ∃ k1,
    f n { iTk := c, consumed := k } = .ok a { iTk := c1, consumed := k1 }

/-- The categories that may follow an expression: `;`, `)` and `,`. -/
def FollowExpr (x : Code) : Prop := x = SEMICOLON ∨ x = RPAR ∨ x = COMMA

/-- The categories that may follow an `exprAssign` or an `exprComp`. -/
def FollowAssign (x : Code) : Prop := FollowExpr x ∨ x = AND ∨ x = OR

/-- The categories that may follow an `exprAdd`. -/
def FollowAdd (x : Code) : Prop := FollowAssign x ∨ x = LESS ∨ x = EQUAL

/-- The categories that may follow an `exprMul`. -/
def FollowMul (x : Code) : Prop := FollowAdd x ∨ x = ADD ∨ x = SUB

/-- The categories that may follow an `exprPrefix` or a `factor`. -/
def FollowFactor (x : Code) : Prop := FollowMul x ∨ x = MUL ∨ x = DIV

/-- The token categories that begin a `factor`. -/
def FactorStart (x : Code) : Prop :=
  x = INT ∨ x = REAL ∨ x = STRING ∨ x = LPAR ∨ x = ID

/-- What a derivation from `N` forces on its first tokens: it is not empty, it
begins with a category that begins the construct, and below `exprAssign` it does
not begin with `ID ASSIGN`. -/
def Shape : NT → List Code → Prop
  | .program, ts => ∃ x rest, ts = x :: rest
  | .defVar, ts => ∃ rest, ts = VAR :: rest
  | .baseType, ts => ∃ x, ts = [x]
  | .defFunc, ts => ∃ rest, ts = FUNCTION :: rest
  | .defVars, ts => ts = [] ∨ ∃ rest, ts = VAR :: rest
  | .funcParams, ts => ∃ rest, ts = ID :: rest
  | .funcParam, ts => ∃ rest, ts = ID :: rest
  | .block, ts => ∃ x rest, ts = x :: rest ∧ InstrStart x
  | .instr, ts => ∃ x rest, ts = x :: rest ∧ InstrStart x
  | .expr, ts => ∃ x rest, ts = x :: rest ∧ ExprStart x
  | .exprLogic, ts => ∃ x rest, ts = x :: rest ∧ ExprStart x
  | .exprAssign, ts => ∃ x rest, ts = x :: rest ∧ ExprStart x
  | .exprComp, ts => ∃ x rest, ts = x :: rest ∧ ExprStart x ∧ ∀ r, ts ≠ ID :: ASSIGN :: r
  | .exprAdd, ts => ∃ x rest, ts = x :: rest ∧ ExprStart x ∧ ∀ r, ts ≠ ID :: ASSIGN :: r
  | .exprMul, ts => ∃ x rest, ts = x :: rest ∧ ExprStart x ∧ ∀ r, ts ≠ ID :: ASSIGN :: r
  | .exprPrefix, ts => ∃ x rest, ts = x :: rest ∧ ExprStart x ∧ ∀ r, ts ≠ ID :: ASSIGN :: r
  | .factor, ts => ∃ x rest, ts = x :: rest ∧ FactorStart x ∧ ∀ r, ts ≠ ID :: ASSIGN :: r
  | .args, ts => ∃ x rest, ts = x :: rest ∧ ExprStart x

instance (x : Code) : Decidable (FollowExpr x) := by
  unfold FollowExpr; infer_instance

instance (x : Code) : Decidable (FollowAssign x) := by
  unfold FollowAssign; infer_instance

instance (x : Code) : Decidable (FollowAdd x) := by
  unfold FollowAdd; infer_instance

instance (x : Code) : Decidable (FollowMul x) := by
  unfold FollowMul; infer_instance

instance (x : Code) : Decidable (FollowFactor x) := by
  unfold FollowFactor; infer_instance

instance (x : Code) : Decidable (FactorStart x) := by
  unfold FactorStart; infer_instance

/-- What the parser does on the tokens from `c` to `c1` when their categories are
derived from `N`: the rule of `N` accepts them, given that the token at `c1` is
one that may follow; for a repetition, the loop of the rule accepts them; and a
block hands over to whatever the loop of `block` accepts after it. -/
def Goal (tk : List Token) : NT → Nat → Nat → Prop
  | .program, c, c1 => ∃ e, c1 = e + 1 ∧ Next tk e (fun y => y = FINISH) ∧
      Acc (program_for tk) () c e ∧
      ∃ cr, Acc (block_while tk) () c cr ∧ Acc (program_for tk) () cr e
  | .defVar, c, c1 => c1 = c + 5 ∧ IsVarDecl tk c
  | .baseType, c, c1 =>
      c1 = c + 1 ∧ Next tk c (fun y => y = TYPE_INT ∨ y = TYPE_REAL ∨ y = TYPE_STR)
  | .defFunc, c, c1 => Acc (defFunc tk) true c c1
  | .defVars, c, c1 => Next tk c1 (fun y => y ≠ VAR) → Acc (defFunc_while tk) () c c1
  | .funcParams, c, c1 => Next tk c1 (fun y => y ≠ COMMA) →
      Next tk c (fun y => y = ID) ∧ Next tk (c + 1) (fun y => y = COLON) ∧
      Next tk (c + 2) (fun y => y = TYPE_INT ∨ y = TYPE_REAL ∨ y = TYPE_STR) ∧
      Acc (funcParams_while tk) () (c + 3) c1
  | .funcParam, c, c1 => c1 = c + 3 ∧
      Next tk c (fun y => y = ID) ∧ Next tk (c + 1) (fun y => y = COLON) ∧
      Next tk (c + 2) (fun y => y = TYPE_INT ∨ y = TYPE_REAL ∨ y = TYPE_STR)
  | .block, c, c1 => ∀ cr, Acc (block_while tk) () c1 cr →
      Acc (block_while tk) () c cr ∧ Acc (block tk) true c cr
  | .instr, c, c1 => Acc (instr tk) true c c1
  | .expr, c, c1 => Next tk c1 FollowExpr → Acc (expr tk) true c c1
  | .exprLogic, c, c1 => Next tk c1 FollowExpr →
      ∃ m, Acc (exprAssign tk) true c m ∧ Acc (exprLogic_while tk) () m c1
  | .exprAssign, c, c1 => Next tk c1 FollowAssign → Acc (exprAssign tk) true c c1
  | .exprComp, c, c1 => Next tk c1 FollowAssign → Acc (exprComp tk) true c c1
  | .exprAdd, c, c1 => Next tk c1 FollowAdd →
      ∃ m, Acc (exprMul tk) true c m ∧ Acc (exprAdd_while tk) () m c1
  | .exprMul, c, c1 => Next tk c1 FollowMul →
      ∃ m, Acc ( exprPrefix tk) true c m ∧ Acc (exprMul_while tk) () m c1
  | .exprPrefix, c, c1 => Next tk c1 FollowFactor → Acc ( exprPrefix tk) true c c1
  | .factor, c, c1 => Next tk c1 FollowFactor → Acc (factor tk) true c c1
  | .args, c, c1 => Next tk c1 (fun y => y = RPAR) →
      ∃ m, Acc (expr tk) true c m ∧ Acc (factor_while tk) () m c1

/-! ## Example inputs -/

/-- The categories of `function f ( x : int ) : int return x ; end` and the end marker. -/
def functionExample : List Code :=
  [FUNCTION, ID, LPAR, ID, COLON, TYPE_INT, RPAR, COLON, TYPE_INT, RETURN, ID, SEMICOLON, END,
    FINISH]

/-- The categories of `if ( x ) x = 1 ; end` and the end marker. -/
def ifExample : List Code :=
  [IF, LPAR, ID, RPAR, ID, ASSIGN, INT, SEMICOLON, END, FINISH]

/-- The categories of `while ( x ) x = 1 ;` and the end marker. -/
def whileExample : List Code :=
  [WHILE, LPAR, ID, RPAR, ID, ASSIGN, INT, SEMICOLON, FINISH]

/-- The categories of `- if ( x ) x ; end` and the end marker. -/
def retryExample : List Code :=
  [SUB, IF, LPAR, ID, RPAR, ID, SEMICOLON, END, FINISH]

/-- A loader and a lexer that give the tokens of `var` for every path. -/
def exampleEnv : Env where
  loadFile := fun _ => .ok "var"
  tokenize := fun _ => .ok (onLine1 [VAR, FINISH])

set_option linter.unusedTactic false
set_option linter.unreachableTactic false
set_option maxRecDepth 8192

/-! ## Sequencing -/

@[simp] theorem pure_apply {α : Type} (a : α) (s : PState) :
    (pure a : Parser α) s = .ok a s := rfl

theorem bind_apply {α β : Type} (m : Parser α) (k : α → Parser β) (s : PState) :
    (m >>= k) s = match m s with
      | .ok a s1 => k a s1
      | .fatal l e => .fatal l e
      | .oob => .oob
      | .timeout => .timeout := rfl

/-! ## Simulation: more fuel and another initial `consumed` change nothing -/

theorem Sim.refl (k : Option Nat) (s : PState) : Sim k k s s := ⟨rfl, Or.inl rfl⟩

theorem Sim.eq {k : Option Nat} {s s' : PState} (h : Sim k k s s') : s = s' := by
  obtain ⟨h1, h2⟩ := h
  cases s; cases s'
  simp only [PState.mk.injEq] at *
  rcases h2 with h2 | ⟨h2, h3⟩
  · exact ⟨h1, h2⟩
  · exact ⟨h1, h2.trans h3.symm⟩

theorem Lock.bind {α β : Type} {k k' : Option Nat} {m m' : Parser α} {f f' : α → Parser β}
    (h : Lock k k' m m') (hf : ∀ a, Lock k k' (f a) (f' a)) :
    Lock k k' (m >>= f) (m' >>= f') := by
  refine ⟨fun s s' hs => ?_⟩
  have h1 := h.run s s' hs
  simp only [bind_apply]
  cases hm : m s <;> cases hm' : m' s' <;> simp only [hm, hm', ResLe] at h1 ⊢ <;>
    first
    | exact h1
    | (obtain ⟨rfl, h2⟩ := h1; exact (hf _).run _ _ h2)

theorem Lock.pure {α : Type} {k k' : Option Nat} (a : α) :
    Lock k k' (pure a : Parser α) (pure a) :=
  ⟨fun _ _ hs => ⟨rfl, hs⟩⟩

theorem Lock.ite {α : Type} {k k' : Option Nat} {c : Prop} [Decidable c]
    {t t' e e' : Parser α} (ht : Lock k k' t t') (he : Lock k k' e e') :
    Lock k k' (if c then t else e) (if c then t' else e') := by
  split
  · exact ht
  · exact he

theorem Lock.outOfFuel {α : Type} {k k' : Option Nat} (m : Parser α) :
    Lock k k' outOfFuel m :=
  ⟨fun _ _ _ => by simp [QuickCompiler.outOfFuel, ResLe]⟩

theorem Lock.consume {k k' : Option Nat} (tk : List Token) (c : Code) :
    Lock k k' (consume tk c) (consume tk c) := by
  refine ⟨fun s s' hs => ?_⟩
  obtain ⟨h1, h2⟩ := hs
  simp only [QuickCompiler.consume, ← h1]
  cases tk[s.iTk]? with
  | none => simp [ResLe]
  | some t =>
    by_cases hc : t.code = c
    · simp [hc, ResLe, Sim]
    · simp [hc, ResLe, Sim, h1, h2]

theorem Lock.tkerr {α : Type} {k k' : Option Nat} (tk : List Token) (e : String) :
    Lock k k' (tkerr tk e : Parser α) (tkerr tk e) := by
  refine ⟨fun s s' hs => ?_⟩
  simp only [QuickCompiler.tkerr, ← hs.1]
  cases tk[s.iTk]? <;> simp [ResLe]

theorem Lock.getITk {k k' : Option Nat} : Lock k k' getITk getITk :=
  ⟨fun _ _ hs => ⟨hs.1, hs⟩⟩

theorem Lock.setITk {k k' : Option Nat} (i : Nat) : Lock k k' (setITk i) (setITk i) :=
  ⟨fun _ _ hs => ⟨rfl, rfl, hs.2⟩⟩

theorem Lock.cOr {k k' : Option Nat} {a a' b b' : Parser Bool}
    (ha : Lock k k' a a') (hb : Lock k k' b b') : Lock k k' (cOr a b) (cOr a' b') := by
  unfold QuickCompiler.cOr
  exact Lock.bind ha (fun _ => Lock.ite (Lock.pure _) hb)

theorem baseType_lock (k k' : Option Nat) (tk : List Token) :
    Lock k k' (baseType tk) (baseType tk) := by
  unfold baseType
  repeat with_reducible (first
    | exact Lock.pure _ | exact Lock.consume _ _
    | apply Lock.cOr | apply Lock.ite | apply Lock.bind | intro _)

theorem defVar_lock (k k' : Option Nat) (tk : List Token) :
    Lock k k' (defVar tk) (defVar tk) := by
  unfold defVar
  repeat with_reducible (first
    | exact Lock.pure _ | exact Lock.consume _ _ | exact Lock.tkerr _ _
    | exact baseType_lock _ _ _
    | apply Lock.ite | apply Lock.bind | intro _)

theorem funcParam_lock (k k' : Option Nat) (tk : List Token) :
    Lock k k' (funcParam tk) (funcParam tk) := by
  unfold funcParam
  repeat with_reducible (first
    | exact Lock.pure _ | exact Lock.consume _ _ | exact Lock.tkerr _ _
    | exact baseType_lock _ _ _
    | apply Lock.ite | apply Lock.bind | intro _)

theorem funcParams_while_lock (k k' : Option Nat) (tk : List Token) :
    ∀ n m, n ≤ m → Lock k k' (funcParams_while tk n) (funcParams_while tk m) := by
  intro n
  induction n with
  | zero => intro m _; exact Lock.outOfFuel _
  | succ n ih =>
    intro m hm
    obtain ⟨m, rfl⟩ : ∃ m', m = m' + 1 := ⟨m - 1, by omega⟩
    have ih := ih m (by omega)
    unfold funcParams_while
    repeat with_reducible (first
      | assumption | exact Lock.pure _ | exact Lock.consume _ _ | exact Lock.tkerr _ _
      | exact funcParam_lock _ _ _
      | apply Lock.ite | apply Lock.bind | intro _)

theorem funcParams_lock (k k' : Option Nat) (tk : List Token) (n m : Nat) (h : n ≤ m) :
    Lock k k' (funcParams tk n) (funcParams tk m) := by
  have h1 := funcParams_while_lock k k' tk n m h
  unfold funcParams
  repeat with_reducible (first
    | assumption | exact Lock.pure _ | exact funcParam_lock _ _ _
    | apply Lock.ite | apply Lock.bind | intro _)

theorem defFunc_while_lock (k k' : Option Nat) (tk : List Token) :
    ∀ n m, n ≤ m → Lock k k' (defFunc_while tk n) (defFunc_while tk m) := by
  intro n
  induction n with
  | zero => intro m _; exact Lock.outOfFuel _
  | succ n ih =>
    intro m hm
    obtain ⟨m, rfl⟩ : ∃ m', m = m' + 1 := ⟨m - 1, by omega⟩
    have ih := ih m (by omega)
    unfold defFunc_while
    repeat with_reducible (first
      | assumption | exact Lock.pure _ | exact defVar_lock _ _ _
      | apply Lock.ite | apply Lock.bind | intro _)

/-- Every mutually recursive rule, run with more fuel and from a state that differs
at most in the initial value of `consumed`, ends the same way unless the run
with less fuel timed out. -/
theorem rules_lock (k k' : Option Nat) (tk : List Token) :
    ∀ n m, n ≤ m →
      Lock k k' (block tk n) (block tk m) ∧
      Lock k k' (block_while tk n) (block_while tk m) ∧
      Lock k k' (instr tk n) (instr tk m) ∧
      Lock k k' (expr tk n) (expr tk m) ∧
      Lock k k' (exprLogic tk n) (exprLogic tk m) ∧
      Lock k k' (exprLogic_while tk n) (exprLogic_while tk m) ∧
      Lock k k' (exprAssign tk n) (exprAssign tk m) ∧
      Lock k k' (exprComp tk n) (exprComp tk m) ∧
      Lock k k' (exprAdd tk n) (exprAdd tk m) ∧
      Lock k k' (exprAdd_while tk n) (exprAdd_while tk m) ∧
      Lock k k' (exprMul tk n) (exprMul tk m) ∧
      Lock k k' (exprMul_while tk n) (exprMul_while tk m) ∧
      Lock k k' ( exprPrefix tk n) ( exprPrefix tk m) ∧
      Lock k k' (factor tk n) (factor tk m) ∧
      Lock k k' (factor_while tk n) (factor_while tk m) := by
  intro n
  induction n with
  | zero =>
    intro m _
    refine ⟨?_, ?_, ?_, ?_, ?_, ?_, ?_, ?_, ?_, ?_, ?_, ?_, ?_, ?_, ?_⟩ <;>
      exact Lock.outOfFuel _
  | succ n ih =>
    intro m hm
    obtain ⟨m, rfl⟩ : ∃ m', m = m' + 1 := ⟨m - 1, by omega⟩
    obtain ⟨h1, h2, h3, h4, h5, h6, h7, h8, h9, h10, h11, h12, h13, h14, h15⟩ :=
      ih m (by omega)
    refine ⟨?_, ?_, ?_, ?_, ?_, ?_, ?_, ?_, ?_, ?_, ?_, ?_, ?_, ?_, ?_⟩
    · unfold block
      repeat with_reducible (first
        | assumption | exact Lock.pure _ | exact Lock.consume _ _ | exact Lock.tkerr _ _
        | exact Lock.getITk | exact Lock.setITk _
        | apply Lock.cOr | apply Lock.ite | apply Lock.bind | intro _)
    · unfold block_while
      repeat with_reducible (first
        | assumption | exact Lock.pure _ | exact Lock.consume _ _ | exact Lock.tkerr _ _
        | exact Lock.getITk | exact Lock.setITk _
        | apply Lock.cOr | apply Lock.ite | apply Lock.bind | intro _)
    · unfold instr
      repeat with_reducible (first
        | assumption | exact Lock.pure _ | exact Lock.consume _ _ | exact Lock.tkerr _ _
        | exact Lock.getITk | exact Lock.setITk _
        | apply Lock.cOr | apply Lock.ite | apply Lock.bind | intro _)
    · unfold expr
      repeat with_reducible (first
        | assumption | exact Lock.pure _ | exact Lock.consume _ _ | exact Lock.tkerr _ _
        | exact Lock.getITk | exact Lock.setITk _
        | apply Lock.cOr | apply Lock.ite | apply Lock.bind | intro _)
    · unfold exprLogic
      repeat with_reducible (first
        | assumption | exact Lock.pure _ | exact Lock.consume _ _ | exact Lock.tkerr _ _
        | exact Lock.getITk | exact Lock.setITk _
        | apply Lock.cOr | apply Lock.ite | apply Lock.bind | intro _)
    · unfold exprLogic_while
      repeat with_reducible (first
        | assumption | exact Lock.pure _ | exact Lock.consume _ _ | exact Lock.tkerr _ _
        | exact Lock.getITk | exact Lock.setITk _
        | apply Lock.cOr | apply Lock.ite | apply Lock.bind | intro _)
    · unfold exprAssign
      repeat with_reducible (first
        | assumption | exact Lock.pure _ | exact Lock.consume _ _ | exact Lock.tkerr _ _
        | exact Lock.getITk | exact Lock.setITk _
        | apply Lock.cOr | apply Lock.ite | apply Lock.bind | intro _)
    · unfold exprComp
      repeat with_reducible (first
        | assumption | exact Lock.pure _ | exact Lock.consume _ _ | exact Lock.tkerr _ _
        | exact Lock.getITk | exact Lock.setITk _
        | apply Lock.cOr | apply Lock.ite | apply Lock.bind | intro _)
    · unfold exprAdd
      repeat with_reducible (first
        | assumption | exact Lock.pure _ | exact Lock.consume _ _ | exact Lock.tkerr _ _
        | exact Lock.getITk | exact Lock.setITk _
        | apply Lock.cOr | apply Lock.ite | apply Lock.bind | intro _)
    · unfold exprAdd_while
      repeat with_reducible (first
        | assumption | exact Lock.pure _ | exact Lock.consume _ _ | exact Lock.tkerr _ _
        | exact Lock.getITk | exact Lock.setITk _
        | apply Lock.cOr | apply Lock.ite | apply Lock.bind | intro _)
    · unfold exprMul
      repeat with_reducible (first
        | assumption | exact Lock.pure _ | exact Lock.consume _ _ | exact Lock.tkerr _ _
        | exact Lock.getITk | exact Lock.setITk _
        | apply Lock.cOr | apply Lock.ite | apply Lock.bind | intro _)
    · unfold exprMul_while
      repeat with_reducible (first
        | assumption | exact Lock.pure _ | exact Lock.consume _ _ | exact Lock.tkerr _ _
        | exact Lock.getITk | exact Lock.setITk _
        | apply Lock.cOr | apply Lock.ite | apply Lock.bind | intro _)
    · unfold exprPrefix
      repeat with_reducible (first
        | assumption | exact Lock.pure _ | exact Lock.consume _ _ | exact Lock.tkerr _ _
        | exact Lock.getITk | exact Lock.setITk _
        | apply Lock.cOr | apply Lock.ite | apply Lock.bind | intro _)
    · unfold factor
      repeat with_reducible (first
        | assumption | exact Lock.pure _ | exact Lock.consume _ _ | exact Lock.tkerr _ _
        | exact Lock.getITk | exact Lock.setITk _
        | apply Lock.cOr | apply Lock.ite | apply Lock.bind | intro _)
    · unfold factor_while
      repeat with_reducible (first
        | assumption | exact Lock.pure _ | exact Lock.consume _ _ | exact Lock.tkerr _ _
        | exact Lock.getITk | exact Lock.setITk _
        | apply Lock.cOr | apply Lock.ite | apply Lock.bind | intro _)

theorem block_lock (k k' : Option Nat) (tk : List Token) (n m : Nat) (h : n ≤ m) :
    Lock k k' (block tk n) (block tk m) :=
  (rules_lock k k' tk n m h).1

theorem defFunc_lock (k k' : Option Nat) (tk : List Token) (n m : Nat) (h : n ≤ m) :
    Lock k k' (defFunc tk n) (defFunc tk m) := by
  have h1 := funcParams_lock k k' tk n m h
  have h2 := defFunc_while_lock k k' tk n m h
  have h3 := block_lock k k' tk n m h
  unfold defFunc
  repeat with_reducible (first
    | assumption | exact Lock.pure _ | exact Lock.consume _ _ | exact Lock.tkerr _ _
    | exact baseType_lock _ _ _
    | apply Lock.ite | apply Lock.bind | intro _)

theorem program_for_lock (k k' : Option Nat) (tk : List Token) :
    ∀ n m, n ≤ m → Lock k k' (program_for tk n) (program_for tk m) := by
  intro n
  induction n with
  | zero => intro m _; exact Lock.outOfFuel _
  | succ n ih =>
    intro m hm
    obtain ⟨m, rfl⟩ : ∃ m', m = m' + 1 := ⟨m - 1, by omega⟩
    have ih := ih m (by omega)
    have h1 := defFunc_lock k k' tk n m (by omega)
    have h2 := block_lock k k' tk n m (by omega)
    unfold program_for
    repeat with_reducible (first
      | assumption | exact Lock.pure _ | exact defVar_lock _ _ _
      | apply Lock.ite | apply Lock.bind | intro _)

theorem program_lock (k k' : Option Nat) (tk : List Token) (n m : Nat) (h : n ≤ m) :
    Lock k k' (program tk n) (program tk m) := by
  have h1 := program_for_lock k k' tk n m h
  unfold program
  repeat with_reducible (first
    | assumption | exact Lock.pure _ | exact Lock.consume _ _ | exact Lock.tkerr _ _
    | apply Lock.ite | apply Lock.bind | intro _)


/-! ## Total correctness of the rules on a sequence that ends with `FINISH` -/

theorem wp_bind {α β : Type} (m : Parser α) (k : α → Parser β) (Q : β → PState → Prop)
    (s : PState) : wp (m >>= k) Q s ↔ wp m (fun a s1 => wp (k a) Q s1) s := by
  simp only [wp, bind_apply]
  cases m s <;> simp

theorem wp_pure {α : Type} (a : α) (Q : α → PState → Prop) (s : PState) :
    wp (pure a) Q s ↔ Q a s := by
  simp [wp]

theorem wp_ite {α : Type} (c : Prop) [Decidable c] (t e : Parser α) (Q : α → PState → Prop)
    (s : PState) : wp (if c then t else e) Q s ↔ if c then wp t Q s else wp e Q s := by
  split <;> rfl

theorem wp_mono {α : Type} {m : Parser α} {Q Q' : α → PState → Prop} {s : PState}
    (h : ∀ a s1, Q a s1 → Q' a s1) (hwp : wp m Q s) : wp m Q' s := by
  unfold wp at *
  cases hm : m s <;> simp only [hm] at hwp ⊢
  exact h _ _ hwp

theorem wp_getITk (Q : Nat → PState → Prop) (s : PState) (h : Q s.iTk s) :
    wp getITk Q s := h

theorem wp_setITk (i : Nat) (Q : Unit → PState → Prop) (s : PState)
    (h : ∀ s1, s1.iTk = i → Q () s1) : wp (setITk i) Q s :=
  h _ rfl

theorem wp_tkerr {α : Type} {tk : List Token} {last : Nat} (hw : EndsWithFinish tk last)
    (e : String) (Q : α → PState → Prop) (s : PState) (hs : s.iTk ≤ last) :
    wp (tkerr tk e) Q s := by
  have hlt : s.iTk < tk.length := by have := hw.1; omega
  simp [wp, tkerr, List.getElem?_eq_getElem hlt]

theorem wp_consume {tk : List Token} {last : Nat} (hw : EndsWithFinish tk last)
    (c : Code) (Q : Bool → PState → Prop) (s : PState)
    (hs : s.iTk ≤ last)
    (ht : ∀ s1, s.iTk < s1.iTk → s1.iTk ≤ last → Q true s1)
    (hf : ∀ s1, s.iTk ≤ s1.iTk → s1.iTk ≤ last → Q false s1)
    (hc : c ≠ Code.FINISH) :
    wp (consume tk c) Q s := by
  obtain ⟨hlen, t, ht1, ht2⟩ := hw
  have hlt : s.iTk < tk.length := by omega
  simp only [wp, consume, List.getElem?_eq_getElem hlt]
  by_cases heq : tk[s.iTk].code = c
  · simp only [heq, ↓reduceIte]
    apply ht
    · simp
    · simp only
      by_contra hcon
      have h3 : s.iTk = last := by omega
      rw [List.getElem?_eq_getElem (by omega)] at ht1
      simp only [h3] at heq
      simp only [Option.some.injEq] at ht1
      rw [ht1, ht2] at heq
      exact hc heq.symm
  · simp only [heq, ↓reduceIte]
    exact hf _ (le_refl _) hs

theorem wp_cOr {tk : List Token} {last : Nat} (hw : EndsWithFinish tk last)
    (c1 c2 : Code) (Q : Bool → PState → Prop) (s : PState) (hs : s.iTk ≤ last)
    (ht : ∀ s1, s.iTk < s1.iTk → s1.iTk ≤ last → Q true s1)
    (hf : ∀ s1, s.iTk ≤ s1.iTk → s1.iTk ≤ last → Q false s1)
    (h1 : c1 ≠ Code.FINISH) (h2 : c2 ≠ Code.FINISH) :
    wp (cOr (consume tk c1) (consume tk c2)) Q s := by
  unfold cOr
  simp only [wp_bind, wp_pure, wp_ite]
  repeat' (first
    | intro s1 h1 h2
    | with_reducible apply wp_consume hw
    | simp only [↓reduceIte, Bool.false_eq_true]
    | (apply ht <;> omega)
    | (apply hf <;> omega)
    | assumption
    | omega)

theorem wp_cOr3 {tk : List Token} {last : Nat} (hw : EndsWithFinish tk last)
    (c1 c2 c3 : Code) (Q : Bool → PState → Prop) (s : PState) (hs : s.iTk ≤ last)
    (ht : ∀ s1, s.iTk < s1.iTk → s1.iTk ≤ last → Q true s1)
    (hf : ∀ s1, s.iTk ≤ s1.iTk → s1.iTk ≤ last → Q false s1)
    (h1 : c1 ≠ Code.FINISH) (h2 : c2 ≠ Code.FINISH) (h3 : c3 ≠ Code.FINISH) :
    wp (cOr (cOr (consume tk c1) (consume tk c2)) (consume tk c3)) Q s := by
  unfold cOr
  simp only [wp_bind, wp_pure, wp_ite]
  repeat' (first
    | intro s1 h1 h2
    | with_reducible apply wp_consume hw
    | simp only [↓reduceIte, Bool.false_eq_true]
    | (apply ht <;> omega)
    | (apply hf <;> omega)
    | assumption
    | omega)

theorem baseType_total {tk : List Token} {last : Nat} (hw : EndsWithFinish tk last)
    (Q : Bool → PState → Prop) (s : PState) (hs : s.iTk ≤ last)
    (ht : ∀ s1, s.iTk < s1.iTk → s1.iTk ≤ last → Q true s1)
    (hf : ∀ s1, s.iTk ≤ s1.iTk → s1.iTk ≤ last → Q false s1) :
    wp (baseType tk) Q s := by
  unfold baseType
  simp only [wp_bind, wp_pure, wp_ite]
  repeat' (first
    | intro s1 h1 h2
    | with_reducible apply wp_cOr3 hw
    | simp only [↓reduceIte, Bool.false_eq_true]
    | (apply ht <;> omega)
    | (apply hf <;> omega)
    | decide
    | omega)

theorem defVar_total {tk : List Token} {last : Nat} (hw : EndsWithFinish tk last)
    (Q : Bool → PState → Prop) (s : PState) (hs : s.iTk ≤ last)
    (ht : ∀ s1, s.iTk < s1.iTk → s1.iTk ≤ last → Q true s1)
    (hf : ∀ s1, s.iTk ≤ s1.iTk → s1.iTk ≤ last → Q false s1) :
    wp (defVar tk) Q s := by
  unfold defVar
  simp only [wp_bind, wp_pure, wp_ite]
  repeat' (first
    | intro s1 h1 h2
    | with_reducible apply wp_consume hw
    | with_reducible apply wp_tkerr hw
    | with_reducible apply baseType_total hw
    | simp only [↓reduceIte, Bool.false_eq_true]
    | (apply ht <;> omega)
    | (apply hf <;> omega)
    | decide
    | omega)

theorem funcParam_total {tk : List Token} {last : Nat} (hw : EndsWithFinish tk last)
    (Q : Bool → PState → Prop) (s : PState) (hs : s.iTk ≤ last)
    (ht : ∀ s1, s.iTk < s1.iTk → s1.iTk ≤ last → Q true s1)
    (hf : ∀ s1, s.iTk ≤ s1.iTk → s1.iTk ≤ last → Q false s1) :
    wp (funcParam tk) Q s := by
  unfold funcParam
  simp only [wp_bind, wp_pure, wp_ite]
  repeat' (first
    | intro s1 h1 h2
    | with_reducible apply wp_consume hw
    | with_reducible apply wp_tkerr hw
    | with_reducible apply baseType_total hw
    | simp only [↓reduceIte, Bool.false_eq_true]
    | (apply ht <;> omega)
    | (apply hf <;> omega)
    | decide
    | omega)

/-- On a sequence that ends with `FINISH`, every mutually recursive rule that is
started with the cursor not past the end marker and with fuel for its rank
returns or ends with a diagnostic; the cursor does not move back and does not
pass the end marker. -/
theorem rules_total {tk : List Token} {last : Nat} (hw : EndsWithFinish tk last) :
    ∀ n,
      RuleB last 10 n (block tk n) ∧
      RuleU last 10 n (block_while tk n) ∧
      RuleB last 9 n (instr tk n) ∧
      RuleB last 8 n (expr tk n) ∧
      RuleB last 7 n (exprLogic tk n) ∧
      RuleU last 1 n (exprLogic_while tk n) ∧
      RuleB last 6 n (exprAssign tk n) ∧
      RuleB last 5 n (exprComp tk n) ∧
      RuleB last 4 n (exprAdd tk n) ∧
      RuleU last 1 n (exprAdd_while tk n) ∧
      RuleB last 3 n (exprMul tk n) ∧
      RuleU last 1 n (exprMul_while tk n) ∧
      RuleB last 2 n ( exprPrefix tk n) ∧
      RuleB last 1 n (factor tk n) ∧
      RuleU last 1 n (factor_while tk n) := by
  intro n
  induction n with
  | zero =>
    simp only [RuleB, RuleU, budget]
    refine ⟨?_, ?_, ?_, ?_, ?_, ?_, ?_, ?_, ?_, ?_, ?_, ?_, ?_, ?_, ?_⟩ <;>
      (intros; omega)
  | succ n ih =>
    simp only [RuleB, RuleU, budget] at ih
    obtain ⟨ih_block, ih_block_while, ih_instr, ih_expr, ih_exprLogic, ih_exprLogic_while,
      ih_exprAssign, ih_exprComp, ih_exprAdd, ih_exprAdd_while, ih_exprMul,
      ih_exprMul_while, ih_exprPrefix, ih_factor, ih_factor_while⟩ := ih
    refine ⟨?_, ?_, ?_, ?_, ?_, ?_, ?_, ?_, ?_, ?_, ?_, ?_, ?_, ?_, ?_⟩
    · intro Q s hs hb ht hf
      simp only [budget] at hb
      unfold block
      try simp only [wp_bind, wp_pure, wp_ite]
      repeat' (first
        | with_reducible apply ih_block
        | with_reducible apply ih_block_while
        | with_reducible apply ih_instr
        | with_reducible apply ih_expr
        | with_reducible apply ih_exprLogic
        | with_reducible apply ih_exprLogic_while
        | with_reducible apply ih_exprAssign
        | with_reducible apply ih_exprComp
        | with_reducible apply ih_exprAdd
        | with_reducible apply ih_exprAdd_while
        | with_reducible apply ih_exprMul
        | with_reducible apply ih_exprMul_while
        | with_reducible apply ih_exprPrefix
        | with_reducible apply ih_factor
        | with_reducible apply ih_factor_while
        | intro s1 h1 h2
        | intro s1 h1
        | with_reducible apply wp_consume hw
        | with_reducible apply wp_cOr hw
        | with_reducible apply wp_cOr3 hw
        | with_reducible apply wp_tkerr hw
        | with_reducible apply wp_getITk
        | with_reducible apply wp_setITk
        | with_reducible apply baseType_total hw
        | with_reducible apply defVar_total hw
        | with_reducible apply funcParam_total hw
        | simp only [↓reduceIte, Bool.not_true, Bool.not_false, Bool.false_eq_true]
        | (apply ht <;> omega)
        | (apply hf <;> omega)
        | decide
        | omega)
    · intro Q s hs hb ht
      simp only [budget] at hb
      unfold block_while
      try simp only [wp_bind, wp_pure, wp_ite]
      repeat' (first
        | with_reducible apply ih_block
        | with_reducible apply ih_block_while
        | with_reducible apply ih_instr
        | with_reducible apply ih_expr
        | with_reducible apply ih_exprLogic
        | with_reducible apply ih_exprLogic_while
        | with_reducible apply ih_exprAssign
        | with_reducible apply ih_exprComp
        | with_reducible apply ih_exprAdd
        | with_reducible apply ih_exprAdd_while
        | with_reducible apply ih_exprMul
        | with_reducible apply ih_exprMul_while
        | with_reducible apply ih_exprPrefix
        | with_reducible apply ih_factor
        | with_reducible apply ih_factor_while
        | intro s1 h1 h2
        | intro s1 h1
        | with_reducible apply wp_consume hw
        | with_reducible apply wp_cOr hw
        | with_reducible apply wp_cOr3 hw
        | with_reducible apply wp_tkerr hw
        | with_reducible apply wp_getITk
        | with_reducible apply wp_setITk
        | with_reducible apply baseType_total hw
        | with_reducible apply defVar_total hw
        | with_reducible apply funcParam_total hw
        | simp only [↓reduceIte, Bool.not_true, Bool.not_false, Bool.false_eq_true]
        | (apply ht <;> omega)
        | (apply hf <;> omega)
        | decide
        | omega)
    · intro Q s hs hb ht hf
      simp only [budget] at hb
      unfold instr
      try simp only [wp_bind, wp_pure, wp_ite]
      repeat' (first
        | with_reducible apply ih_block
        | with_reducible apply ih_block_while
        | with_reducible apply ih_instr
        | with_reducible apply ih_expr
        | with_reducible apply ih_exprLogic
        | with_reducible apply ih_exprLogic_while
        | with_reducible apply ih_exprAssign
        | with_reducible apply ih_exprComp
        | with_reducible apply ih_exprAdd
        | with_reducible apply ih_exprAdd_while
        | with_reducible apply ih_exprMul
        | with_reducible apply ih_exprMul_while
        | with_reducible apply ih_exprPrefix
        | with_reducible apply ih_factor
        | with_reducible apply ih_factor_while
        | intro s1 h1 h2
        | intro s1 h1
        | with_reducible apply wp_consume hw
        | with_reducible apply wp_cOr hw
        | with_reducible apply wp_cOr3 hw
        | with_reducible apply wp_tkerr hw
        | with_reducible apply wp_getITk
        | with_reducible apply wp_setITk
        | with_reducible apply baseType_total hw
        | with_reducible apply defVar_total hw
        | with_reducible apply funcParam_total hw
        | simp only [↓reduceIte, Bool.not_true, Bool.not_false, Bool.false_eq_true]
        | (apply ht <;> omega)
        | (apply hf <;> omega)
        | decide
        | omega)
    · intro Q s hs hb ht hf
      simp only [budget] at hb
      unfold expr
      try simp only [wp_bind, wp_pure, wp_ite]
      repeat' (first
        | with_reducible apply ih_block
        | with_reducible apply ih_block_while
        | with_reducible apply ih_instr
        | with_reducible apply ih_expr
        | with_reducible apply ih_exprLogic
        | with_reducible apply ih_exprLogic_while
        | with_reducible apply ih_exprAssign
        | with_reducible apply ih_exprComp
        | with_reducible apply ih_exprAdd
        | with_reducible apply ih_exprAdd_while
        | with_reducible apply ih_exprMul
        | with_reducible apply ih_exprMul_while
        | with_reducible apply ih_exprPrefix
        | with_reducible apply ih_factor
        | with_reducible apply ih_factor_while
        | intro s1 h1 h2
        | intro s1 h1
        | with_reducible apply wp_consume hw
        | with_reducible apply wp_cOr hw
        | with_reducible apply wp_cOr3 hw
        | with_reducible apply wp_tkerr hw
        | with_reducible apply wp_getITk
        | with_reducible apply wp_setITk
        | with_reducible apply baseType_total hw
        | with_reducible apply defVar_total hw
        | with_reducible apply funcParam_total hw
        | simp only [↓reduceIte, Bool.not_true, Bool.not_false, Bool.false_eq_true]
        | (apply ht <;> omega)
        | (apply hf <;> omega)
        | decide
        | omega)
    · intro Q s hs hb ht hf
      simp only [budget] at hb
      unfold exprLogic
      try simp only [wp_bind, wp_pure, wp_ite]
      repeat' (first
        | with_reducible apply ih_block
        | with_reducible apply ih_block_while
        | with_reducible apply ih_instr
        | with_reducible apply ih_expr
        | with_reducible apply ih_exprLogic
        | with_reducible apply ih_exprLogic_while
        | with_reducible apply ih_exprAssign
        | with_reducible apply ih_exprComp
        | with_reducible apply ih_exprAdd
        | with_reducible apply ih_exprAdd_while
        | with_reducible apply ih_exprMul
        | with_reducible apply ih_exprMul_while
        | with_reducible apply ih_exprPrefix
        | with_reducible apply ih_factor
        | with_reducible apply ih_factor_while
        | intro s1 h1 h2
        | intro s1 h1
        | with_reducible apply wp_consume hw
        | with_reducible apply wp_cOr hw
        | with_reducible apply wp_cOr3 hw
        | with_reducible apply wp_tkerr hw
        | with_reducible apply wp_getITk
        | with_reducible apply wp_setITk
        | with_reducible apply baseType_total hw
        | with_reducible apply defVar_total hw
        | with_reducible apply funcParam_total hw
        | simp only [↓reduceIte, Bool.not_true, Bool.not_false, Bool.false_eq_true]
        | (apply ht <;> omega)
        | (apply hf <;> omega)
        | decide
        | omega)
    · intro Q s hs hb ht
      simp only [budget] at hb
      unfold exprLogic_while
      try simp only [wp_bind, wp_pure, wp_ite]
      repeat' (first
        | with_reducible apply ih_block
        | with_reducible apply ih_block_while
        | with_reducible apply ih_instr
        | with_reducible apply ih_expr
        | with_reducible apply ih_exprLogic
        | with_reducible apply ih_exprLogic_while
        | with_reducible apply ih_exprAssign
        | with_reducible apply ih_exprComp
        | with_reducible apply ih_exprAdd
        | with_reducible apply ih_exprAdd_while
        | with_reducible apply ih_exprMul
        | with_reducible apply ih_exprMul_while
        | with_reducible apply ih_exprPrefix
        | with_reducible apply ih_factor
        | with_reducible apply ih_factor_while
        | intro s1 h1 h2
        | intro s1 h1
        | with_reducible apply wp_consume hw
        | with_reducible apply wp_cOr hw
        | with_reducible apply wp_cOr3 hw
        | with_reducible apply wp_tkerr hw
        | with_reducible apply wp_getITk
        | with_reducible apply wp_setITk
        | with_reducible apply baseType_total hw
        | with_reducible apply defVar_total hw
        | with_reducible apply funcParam_total hw
        | simp only [↓reduceIte, Bool.not_true, Bool.not_false, Bool.false_eq_true]
        | (apply ht <;> omega)
        | (apply hf <;> omega)
        | decide
        | omega)
    · intro Q s hs hb ht hf
      simp only [budget] at hb
      unfold exprAssign
      try simp only [wp_bind, wp_pure, wp_ite]
      repeat' (first
        | with_reducible apply ih_block
        | with_reducible apply ih_block_while
        | with_reducible apply ih_instr
        | with_reducible apply ih_expr
        | with_reducible apply ih_exprLogic
        | with_reducible apply ih_exprLogic_while
        | with_reducible apply ih_exprAssign
        | with_reducible apply ih_exprComp
        | with_reducible apply ih_exprAdd
        | with_reducible apply ih_exprAdd_while
        | with_reducible apply ih_exprMul
        | with_reducible apply ih_exprMul_while
        | with_reducible apply ih_exprPrefix
        | with_reducible apply ih_factor
        | with_reducible apply ih_factor_while
        | intro s1 h1 h2
        | intro s1 h1
        | with_reducible apply wp_consume hw
        | with_reducible apply wp_cOr hw
        | with_reducible apply wp_cOr3 hw
        | with_reducible apply wp_tkerr hw
        | with_reducible apply wp_getITk
        | with_reducible apply wp_setITk
        | with_reducible apply baseType_total hw
        | with_reducible apply defVar_total hw
        | with_reducible apply funcParam_total hw
        | simp only [↓reduceIte, Bool.not_true, Bool.not_false, Bool.false_eq_true]
        | (apply ht <;> omega)
        | (apply hf <;> omega)
        | decide
        | omega)
    · intro Q s hs hb ht hf
      simp only [budget] at hb
      unfold exprComp
      try simp only [wp_bind, wp_pure, wp_ite]
      repeat' (first
        | with_reducible apply ih_block
        | with_reducible apply ih_block_while
        | with_reducible apply ih_instr
        | with_reducible apply ih_expr
        | with_reducible apply ih_exprLogic
        | with_reducible apply ih_exprLogic_while
        | with_reducible apply ih_exprAssign
        | with_reducible apply ih_exprComp
        | with_reducible apply ih_exprAdd
        | with_reducible apply ih_exprAdd_while
        | with_reducible apply ih_exprMul
        | with_reducible apply ih_exprMul_while
        | with_reducible apply ih_exprPrefix
        | with_reducible apply ih_factor
        | with_reducible apply ih_factor_while
        | intro s1 h1 h2
        | intro s1 h1
        | with_reducible apply wp_consume hw
        | with_reducible apply wp_cOr hw
        | with_reducible apply wp_cOr3 hw
        | with_reducible apply wp_tkerr hw
        | with_reducible apply wp_getITk
        | with_reducible apply wp_setITk
        | with_reducible apply baseType_total hw
        | with_reducible apply defVar_total hw
        | with_reducible apply funcParam_total hw
        | simp only [↓reduceIte, Bool.not_true, Bool.not_false, Bool.false_eq_true]
        | (apply ht <;> omega)
        | (apply hf <;> omega)
        | decide
        | omega)
    · intro Q s hs hb ht hf
      simp only [budget] at hb
      unfold exprAdd
      try simp only [wp_bind, wp_pure, wp_ite]
      repeat' (first
        | with_reducible apply ih_block
        | with_reducible apply ih_block_while
        | with_reducible apply ih_instr
        | with_reducible apply ih_expr
        | with_reducible apply ih_exprLogic
        | with_reducible apply ih_exprLogic_while
        | with_reducible apply ih_exprAssign
        | with_reducible apply ih_exprComp
        | with_reducible apply ih_exprAdd
        | with_reducible apply ih_exprAdd_while
        | with_reducible apply ih_exprMul
        | with_reducible apply ih_exprMul_while
        | with_reducible apply ih_exprPrefix
        | with_reducible apply ih_factor
        | with_reducible apply ih_factor_while
        | intro s1 h1 h2
        | intro s1 h1
        | with_reducible apply wp_consume hw
        | with_reducible apply wp_cOr hw
        | with_reducible apply wp_cOr3 hw
        | with_reducible apply wp_tkerr hw
        | with_reducible apply wp_getITk
        | with_reducible apply wp_setITk
        | with_reducible apply baseType_total hw
        | with_reducible apply defVar_total hw
        | with_reducible apply funcParam_total hw
        | simp only [↓reduceIte, Bool.not_true, Bool.not_false, Bool.false_eq_true]
        | (apply ht <;> omega)
        | (apply hf <;> omega)
        | decide
        | omega)
    · intro Q s hs hb ht
      simp only [budget] at hb
      unfold exprAdd_while
      try simp only [wp_bind, wp_pure, wp_ite]
      repeat' (first
        | with_reducible apply ih_block
        | with_reducible apply ih_block_while
        | with_reducible apply ih_instr
        | with_reducible apply ih_expr
        | with_reducible apply ih_exprLogic
        | with_reducible apply ih_exprLogic_while
        | with_reducible apply ih_exprAssign
        | with_reducible apply ih_exprComp
        | with_reducible apply ih_exprAdd
        | with_reducible apply ih_exprAdd_while
        | with_reducible apply ih_exprMul
        | with_reducible apply ih_exprMul_while
        | with_reducible apply ih_exprPrefix
        | with_reducible apply ih_factor
        | with_reducible apply ih_factor_while
        | intro s1 h1 h2
        | intro s1 h1
        | with_reducible apply wp_consume hw
        | with_reducible apply wp_cOr hw
        | with_reducible apply wp_cOr3 hw
        | with_reducible apply wp_tkerr hw
        | with_reducible apply wp_getITk
        | with_reducible apply wp_setITk
        | with_reducible apply baseType_total hw
        | with_reducible apply defVar_total hw
        | with_reducible apply funcParam_total hw
        | simp only [↓reduceIte, Bool.not_true, Bool.not_false, Bool.false_eq_true]
        | (apply ht <;> omega)
        | (apply hf <;> omega)
        | decide
        | omega)
    · intro Q s hs hb ht hf
      simp only [budget] at hb
      unfold exprMul
      try simp only [wp_bind, wp_pure, wp_ite]
      repeat' (first
        | with_reducible apply ih_block
        | with_reducible apply ih_block_while
        | with_reducible apply ih_instr
        | with_reducible apply ih_expr
        | with_reducible apply ih_exprLogic
        | with_reducible apply ih_exprLogic_while
        | with_reducible apply ih_exprAssign
        | with_reducible apply ih_exprComp
        | with_reducible apply ih_exprAdd
        | with_reducible apply ih_exprAdd_while
        | with_reducible apply ih_exprMul
        | with_reducible apply ih_exprMul_while
        | with_reducible apply ih_exprPrefix
        | with_reducible apply ih_factor
        | with_reducible apply ih_factor_while
        | intro s1 h1 h2
        | intro s1 h1
        | with_reducible apply wp_consume hw
        | with_reducible apply wp_cOr hw
        | with_reducible apply wp_cOr3 hw
        | with_reducible apply wp_tkerr hw
        | with_reducible apply wp_getITk
        | with_reducible apply wp_setITk
        | with_reducible apply baseType_total hw
        | with_reducible apply defVar_total hw
        | with_reducible apply funcParam_total hw
        | simp only [↓reduceIte, Bool.not_true, Bool.not_false, Bool.false_eq_true]
        | (apply ht <;> omega)
        | (apply hf <;> omega)
        | decide
        | omega)
    · intro Q s hs hb ht
      simp only [budget] at hb
      unfold exprMul_while
      try simp only [wp_bind, wp_pure, wp_ite]
      repeat' (first
        | with_reducible apply ih_block
        | with_reducible apply ih_block_while
        | with_reducible apply ih_instr
        | with_reducible apply ih_expr
        | with_reducible apply ih_exprLogic
        | with_reducible apply ih_exprLogic_while
        | with_reducible apply ih_exprAssign
        | with_reducible apply ih_exprComp
        | with_reducible apply ih_exprAdd
        | with_reducible apply ih_exprAdd_while
        | with_reducible apply ih_exprMul
        | with_reducible apply ih_exprMul_while
        | with_reducible apply ih_exprPrefix
        | with_reducible apply ih_factor
        | with_reducible apply ih_factor_while
        | intro s1 h1 h2
        | intro s1 h1
        | with_reducible apply wp_consume hw
        | with_reducible apply wp_cOr hw
        | with_reducible apply wp_cOr3 hw
        | with_reducible apply wp_tkerr hw
        | with_reducible apply wp_getITk
        | with_reducible apply wp_setITk
        | with_reducible apply baseType_total hw
        | with_reducible apply defVar_total hw
        | with_reducible apply funcParam_total hw
        | simp only [↓reduceIte, Bool.not_true, Bool.not_false, Bool.false_eq_true]
        | (apply ht <;> omega)
        | (apply hf <;> omega)
        | decide
        | omega)
    · intro Q s hs hb ht hf
      simp only [budget] at hb
      unfold exprPrefix
      try simp only [wp_bind, wp_pure, wp_ite]
      repeat' (first
        | with_reducible apply ih_block
        | with_reducible apply ih_block_while
        | with_reducible apply ih_instr
        | with_reducible apply ih_expr
        | with_reducible apply ih_exprLogic
        | with_reducible apply ih_exprLogic_while
        | with_reducible apply ih_exprAssign
        | with_reducible apply ih_exprComp
        | with_reducible apply ih_exprAdd
        | with_reducible apply ih_exprAdd_while
        | with_reducible apply ih_exprMul
        | with_reducible apply ih_exprMul_while
        | with_reducible apply ih_exprPrefix
        | with_reducible apply ih_factor
        | with_reducible apply ih_factor_while
        | intro s1 h1 h2
        | intro s1 h1
        | with_reducible apply wp_consume hw
        | with_reducible apply wp_cOr hw
        | with_reducible apply wp_cOr3 hw
        | with_reducible apply wp_tkerr hw
        | with_reducible apply wp_getITk
        | with_reducible apply wp_setITk
        | with_reducible apply baseType_total hw
        | with_reducible apply defVar_total hw
        | with_reducible apply funcParam_total hw
        | simp only [↓reduceIte, Bool.not_true, Bool.not_false, Bool.false_eq_true]
        | (apply ht <;> omega)
        | (apply hf <;> omega)
        | decide
        | omega)
    · intro Q s hs hb ht hf
      simp only [budget] at hb
      unfold factor
      try simp only [wp_bind, wp_pure, wp_ite]
      repeat' (first
        | with_reducible apply ih_block
        | with_reducible apply ih_block_while
        | with_reducible apply ih_instr
        | with_reducible apply ih_expr
        | with_reducible apply ih_exprLogic
        | with_reducible apply ih_exprLogic_while
        | with_reducible apply ih_exprAssign
        | with_reducible apply ih_exprComp
        | with_reducible apply ih_exprAdd
        | with_reducible apply ih_exprAdd_while
        | with_reducible apply ih_exprMul
        | with_reducible apply ih_exprMul_while
        | with_reducible apply ih_exprPrefix
        | with_reducible apply ih_factor
        | with_reducible apply ih_factor_while
        | intro s1 h1 h2
        | intro s1 h1
        | with_reducible apply wp_consume hw
        | with_reducible apply wp_cOr hw
        | with_reducible apply wp_cOr3 hw
        | with_reducible apply wp_tkerr hw
        | with_reducible apply wp_getITk
        | with_reducible apply wp_setITk
        | with_reducible apply baseType_total hw
        | with_reducible apply defVar_total hw
        | with_reducible apply funcParam_total hw
        | simp only [↓reduceIte, Bool.not_true, Bool.not_false, Bool.false_eq_true]
        | (apply ht <;> omega)
        | (apply hf <;> omega)
        | decide
        | omega)
    · intro Q s hs hb ht
      simp only [budget] at hb
      unfold factor_while
      try simp only [wp_bind, wp_pure, wp_ite]
      repeat' (first
        | with_reducible apply ih_block
        | with_reducible apply ih_block_while
        | with_reducible apply ih_instr
        | with_reducible apply ih_expr
        | with_reducible apply ih_exprLogic
        | with_reducible apply ih_exprLogic_while
        | with_reducible apply ih_exprAssign
        | with_reducible apply ih_exprComp
        | with_reducible apply ih_exprAdd
        | with_reducible apply ih_exprAdd_while
        | with_reducible apply ih_exprMul
        | with_reducible apply ih_exprMul_while
        | with_reducible apply ih_exprPrefix
        | with_reducible apply ih_factor
        | with_reducible apply ih_factor_while
        | intro s1 h1 h2
        | intro s1 h1
        | with_reducible apply wp_consume hw
        | with_reducible apply wp_cOr hw
        | with_reducible apply wp_cOr3 hw
        | with_reducible apply wp_tkerr hw
        | with_reducible apply wp_getITk
        | with_reducible apply wp_setITk
        | with_reducible apply baseType_total hw
        | with_reducible apply defVar_total hw
        | with_reducible apply funcParam_total hw
        | simp only [↓reduceIte, Bool.not_true, Bool.not_false, Bool.false_eq_true]
        | (apply ht <;> omega)
        | (apply hf <;> omega)
        | decide
        | omega)


theorem funcParams_while_total {tk : List Token} {last : Nat} (hw : EndsWithFinish tk last) :
    ∀ n, RuleU last 1 n (funcParams_while tk n) := by
  intro n
  induction n with
  | zero => simp only [RuleU, budget]; intros; omega
  | succ n ih =>
    simp only [RuleU, budget] at ih
    intro Q s hs hb ht
    simp only [budget] at hb
    unfold funcParams_while
    simp only [wp_bind, wp_pure, wp_ite]
    repeat' (first
      | with_reducible apply ih
      | intro s1 h1 h2
      | with_reducible apply wp_consume hw
      | with_reducible apply wp_tkerr hw
      | with_reducible apply funcParam_total hw
      | simp only [↓reduceIte, Bool.not_true, Bool.not_false, Bool.false_eq_true]
      | (apply ht <;> omega)
      | decide
      | omega)

theorem funcParams_total {tk : List Token} {last : Nat} (hw : EndsWithFinish tk last)
    (n : Nat) : RuleB last 1 n (funcParams tk n) := by
  have ih := funcParams_while_total hw n
  simp only [RuleU, budget] at ih
  intro Q s hs hb ht hf
  simp only [budget] at hb
  unfold funcParams
  simp only [wp_bind, wp_pure, wp_ite]
  repeat' (first
    | with_reducible apply ih
    | intro s1 h1 h2
    | with_reducible apply funcParam_total hw
    | simp only [↓reduceIte, Bool.not_true, Bool.not_false, Bool.false_eq_true]
    | (apply ht <;> omega)
    | (apply hf <;> omega)
    | omega)

theorem defFunc_while_total {tk : List Token} {last : Nat} (hw : EndsWithFinish tk last) :
    ∀ n, RuleU last 1 n (defFunc_while tk n) := by
  intro n
  induction n with
  | zero => simp only [RuleU, budget]; intros; omega
  | succ n ih =>
    simp only [RuleU, budget] at ih
    intro Q s hs hb ht
    simp only [budget] at hb
    unfold defFunc_while
    simp only [wp_bind, wp_pure, wp_ite]
    repeat' (first
      | with_reducible apply ih
      | intro s1 h1 h2
      | with_reducible apply defVar_total hw
      | simp only [↓reduceIte, Bool.not_true, Bool.not_false, Bool.false_eq_true]
      | (apply ht <;> omega)
      | omega)

theorem defFunc_total {tk : List Token} {last : Nat} (hw : EndsWithFinish tk last)
    (n : Nat) : RuleB last 1 n (defFunc tk n) := by
  have ih1 := funcParams_total hw n
  have ih2 := defFunc_while_total hw n
  have ih3 := (rules_total hw n).1
  simp only [RuleB, RuleU, budget] at ih1 ih2 ih3
  intro Q s hs hb ht hf
  simp only [budget] at hb
  unfold defFunc
  simp only [wp_bind, wp_pure, wp_ite]
  repeat' (first
    | with_reducible apply ih1
    | with_reducible apply ih2
    | with_reducible apply ih3
    | intro s1 h1 h2
    | with_reducible apply wp_consume hw
    | with_reducible apply wp_tkerr hw
    | with_reducible apply baseType_total hw
    | simp only [↓reduceIte, Bool.not_true, Bool.not_false, Bool.false_eq_true]
    | (apply ht <;> omega)
    | (apply hf <;> omega)
    | decide
    | omega)

theorem program_for_total {tk : List Token} {last : Nat} (hw : EndsWithFinish tk last) :
    ∀ n, RuleU last 12 n (program_for tk n) := by
  intro n
  induction n with
  | zero => simp only [RuleU, budget]; intros; omega
  | succ n ih =>
    have ih1 := defFunc_total hw n
    have ih2 := (rules_total hw n).1
    simp only [RuleB, RuleU, budget] at ih ih1 ih2
    intro Q s hs hb ht
    simp only [budget] at hb
    unfold program_for
    simp only [wp_bind, wp_pure, wp_ite]
    repeat' (first
      | with_reducible apply ih
      | with_reducible apply ih1
      | with_reducible apply ih2
      | intro s1 h1 h2
      | with_reducible apply defVar_total hw
      | simp only [↓reduceIte, Bool.not_true, Bool.not_false, Bool.false_eq_true]
      | (apply ht <;> omega)
      | omega)

/-- The call `consume(code)` at an in-bounds cursor, with the state it leaves. -/
theorem wp_consume_exact {tk : List Token} (c : Code) (Q : Bool → PState → Prop)
    (s : PState) (t : Token) (h : tk[s.iTk]? = some t)
    (ht : t.code = c → Q true { iTk := s.iTk + 1, consumed := some s.iTk })
    (hf : t.code ≠ c → Q false s) :
    wp (consume tk c) Q s := by
  simp only [wp, consume, h]
  by_cases heq : t.code = c
  · simp only [heq, ↓reduceIte]; exact ht heq
  · simp only [heq, ↓reduceIte]; exact hf heq

/-- With fuel for the whole sequence `program` returns true just after an end
marker, which it consumed last, or ends with a diagnostic. -/
theorem program_total {tk : List Token} {last : Nat} (hw : EndsWithFinish tk last)
    (n : Nat) (s : PState) (hs : s.iTk ≤ last) (hb : budget last 12 s.iTk ≤ n) :
    wp (program tk n)
      (fun a s1 => a = true ∧ ∃ i t, tk[i]? = some t ∧ t.code = Code.FINISH ∧
        s1 = { iTk := i + 1, consumed := some i }) s := by
  unfold program
  simp only [wp_bind, wp_pure, wp_ite]
  apply program_for_total hw n _ s hs hb
  intro s1 h1 h2
  have hlt : s1.iTk < tk.length := by have := hw.1; omega
  apply wp_consume_exact _ _ _ tk[s1.iTk] (List.getElem?_eq_getElem hlt)
  · intro hc
    simp only [↓reduceIte, true_and]
    exact ⟨s1.iTk, _, List.getElem?_eq_getElem hlt, hc, rfl⟩
  · intro _
    simp only [Bool.false_eq_true, ↓reduceIte]
    exact wp_tkerr hw _ _ _ h2

theorem parse_total {tk : List Token} {last : Nat} (hw : EndsWithFinish tk last)
    (n : Nat) (s : PState) (hb : 12 * tk.length ≤ n) :
    wp (parse tk n)
      (fun _ s1 => ∃ i t, tk[i]? = some t ∧ t.code = Code.FINISH ∧
        s1 = { iTk := i + 1, consumed := some i }) s := by
  unfold parse
  simp only [wp_bind, wp_pure]
  apply wp_setITk
  intro s1 h1
  have hlen := hw.1
  refine wp_mono ?_ (program_total hw n s1 (by omega) (by simp only [budget]; omega))
  intro a s2 h
  exact h.2


/-! ## Consequences: fuel and the initial globals do not matter -/

theorem Lock.eq_or_timeout {α : Type} {k : Option Nat} {m m' : Parser α}
    (h : Lock k k m m') (s : PState) : m s = .timeout ∨ m' s = m s := by
  have h1 := h.run s s (Sim.refl k s)
  cases hm : m s <;> cases hm' : m' s <;> simp only [hm, hm', ResLe] at h1 <;>
    first
    | exact Or.inl rfl
    | exact h1.elim
    | (obtain ⟨rfl, h2⟩ := h1; exact Or.inr (by rw [Sim.eq h2]))
    | (obtain ⟨rfl, rfl⟩ := h1; exact Or.inr rfl)
    | exact Or.inr rfl

/-- The last step of `program` makes the two runs agree on `consumed` as well. -/
theorem program_indep (k k' : Option Nat) (tk : List Token) (n m : Nat) (h : n ≤ m)
    (s s' : PState) (hs : Sim k k' s s') :
    program tk n s = .timeout ∨ program tk m s' = program tk n s := by
  have h1 := (program_for_lock k k' tk n m h).run s s' hs
  simp only [program, bind_apply]
  cases hm : program_for tk n s <;> cases hm' : program_for tk m s' <;>
    simp only [hm, hm', ResLe] at h1 <;>
    first
    | exact Or.inl rfl
    | exact h1.elim
    | (obtain ⟨rfl, rfl⟩ := h1; exact Or.inr rfl)
    | exact Or.inr rfl
    | skip
  rename_i a s1 a' s1'
  obtain ⟨_, h2, _⟩ := h1
  right
  simp only [consume, ← h2]
  cases ht : tk[s1.iTk]? with
  | none => rfl
  | some t =>
    by_cases hc : t.code = FINISH
    · simp only [hc, ↓reduceIte, pure_apply]
    · simp only [hc, ↓reduceIte, Bool.false_eq_true, tkerr, ← h2, ht]

theorem parse_indep (tk : List Token) (n m : Nat) (h : n ≤ m) (s s' : PState) :
    parse tk n s = .timeout ∨ parse tk m s' = parse tk n s := by
  have h1 := program_indep s.consumed s'.consumed tk n m h
    { s with iTk := 0 } { s' with iTk := 0 } ⟨rfl, Or.inr ⟨rfl, rfl⟩⟩
  simp only [parse, bind_apply, setITk]
  rcases h1 with h1 | h1
  · left; rw [h1]
  · right; rw [h1]

theorem parse_same_fuel (tk : List Token) (n : Nat) (s s' : PState) :
    parse tk n s = parse tk n s' := by
  rcases parse_indep tk n n (le_refl n) s s' with h1 | h1
  · rcases parse_indep tk n n (le_refl n) s' s with h2 | h2
    · rw [h1, h2]
    · rw [← h2, h1]
  · exact h1.symm


/-- What `parse` returns with some fuel it returns with any fuel that does not run
out, from any initial state of the globals. -/
theorem parse_any_fuel (tk : List Token) (n : Nat) (s0 : PState) (r : Res Unit)
    (h : parse tk n s0 = r) (hr : r ≠ .timeout) (fuel : Nat) (s : PState) :
    parse tk fuel s = .timeout ∨ parse tk fuel s = r := by
  rcases Nat.le_total fuel n with hle | hle
  · rcases parse_indep tk fuel n hle s s0 with h1 | h1
    · exact Or.inl h1
    · exact Or.inr (by rw [← h1, h])
  · rcases parse_indep tk n fuel hle s0 s with h1 | h1
    · exact absurd (h.symm.trans h1) hr
    · exact Or.inr (by rw [h1, h])

theorem program_never_false (tk : List Token) (n : Nat) (s s1 : PState) :
    program tk n s ≠ .ok false s1 := by
  simp only [program, bind_apply, consume, tkerr]
  cases program_for tk n s with
  | ok a s2 =>
    simp only
    cases ht : tk[s2.iTk]? with
    | none => simp
    | some t =>
      by_cases hc : t.code = FINISH
      · simp [hc]
      · simp [hc, tkerr, ht]
  | fatal l e => simp
  | oob => simp
  | timeout => simp


/-! ## Consequences: the cursor range -/

theorem stays_of_wp {α : Type} {last : Nat} {m : Parser α} {s : PState}
    (h : wp m (fun _ s1 => s.iTk ≤ s1.iTk ∧ s1.iTk ≤ last) s) : StaysInRange last s (m s) := by
  unfold wp at h
  cases hm : m s <;> simp only [hm, StaysInRange] at h ⊢
  exact h

/-- A rule with a fuel argument stays in range whatever the fuel: with too little
fuel it times out, with more it returns what it returns with enough. -/
theorem RuleB.stays {last r : Nat} (f : Nat → Parser Bool)
    (hl : ∀ n m, n ≤ m → Lock none none (f n) (f m)) (ht : ∀ n, RuleB last r n (f n))
    (n : Nat) (s : PState) (hs : s.iTk ≤ last) : StaysInRange last s (f n s) := by
  rcases (hl n (max n (budget last r s.iTk)) (le_max_left _ _)).eq_or_timeout s with h | h
  · simp only [h, StaysInRange]
  · rw [← h]
    apply stays_of_wp
    apply ht _ _ s hs (le_max_right _ _)
    · intro s1 h1 h2; exact ⟨by omega, h2⟩
    · intro s1 h1 h2; exact ⟨h1, h2⟩

theorem stays_of_total {last : Nat} {m : Parser Bool}
    (ht : ∀ (Q : Bool → PState → Prop) (s : PState), s.iTk ≤ last →
      (∀ s1, s.iTk < s1.iTk → s1.iTk ≤ last → Q true s1) →
      (∀ s1, s.iTk ≤ s1.iTk → s1.iTk ≤ last → Q false s1) → wp m Q s)
    (s : PState) (hs : s.iTk ≤ last) : StaysInRange last s (m s) := by
  apply stays_of_wp
  apply ht _ s hs
  · intro s1 h1 h2; exact ⟨by omega, h2⟩
  · intro s1 h1 h2; exact ⟨h1, h2⟩

theorem parse_accept_state {tk : List Token} {last : Nat} (hw : EndsWithFinish tk last)
    (honly : ∀ i t, tk[i]? = some t → t.code = FINISH → i = last)
    (fuel : Nat) (s : PState) :
    match parse tk fuel s with
    | .ok _ s1 => s1.iTk = tk.length ∧ s1.consumed = some last
    | .fatal _ _ => True
    | .oob => False
    | .timeout => True := by
  have hlen := hw.1
  rcases parse_indep tk fuel (max fuel (12 * tk.length)) (le_max_left _ _) s s with h | h
  · simp only [h]
  · rw [← h]
    have h1 := parse_total hw (max fuel (12 * tk.length)) s (le_max_right _ _)
    unfold wp at h1
    cases hp : parse tk (max fuel (12 * tk.length)) s <;> simp only [hp] at h1 ⊢
    obtain ⟨i, t, h2, h3, rfl⟩ := h1
    have hi := honly i t h2 h3
    exact ⟨by show i + 1 = tk.length; omega, by show some i = some last; rw [hi]⟩



/-! ## The grammar: what a derivation ends with -/

theorem EndsStatement.append_right {a b : List Code} (h : EndsStatement b) :
    EndsStatement (a ++ b) := by
  unfold EndsStatement at *
  rcases h with h | h <;> simp [List.getLast?_append, h]

theorem EndsStatement.semicolon (a : List Code) : EndsStatement (a ++ [SEMICOLON]) :=
  Or.inl (List.getLast?_concat a)

theorem EndsStatement.end_ (a : List Code) : EndsStatement (a ++ [END]) :=
  Or.inr (List.getLast?_concat a)

theorem LastToken.program_cons {a b : List Code} (ha : EndsStatement a)
    (hb : LastToken .program b) : LastToken .program (a ++ b) := by
  obtain ⟨body, rfl, h⟩ := hb
  refine ⟨a ++ body, by simp, Or.inr ?_⟩
  rcases h with rfl | h
  · simpa using ha
  · exact h.append_right

/-- Every derivation at statement level ends with `;` or `end`, and a program is
such constructs followed by the end marker. -/
theorem Derives.lastToken {N : NT} {ts : List Code} (h : Derives N ts) : LastToken N ts := by
  induction h with
  | program_end => exact ⟨[], rfl, Or.inl rfl⟩
  | program_defVar _ _ iha ihb => exact LastToken.program_cons iha ihb
  | program_defFunc _ _ iha ihb => exact LastToken.program_cons iha ihb
  | program_block _ _ iha ihb => exact LastToken.program_cons iha ihb
  | defVar _ _ => exact EndsStatement.semicolon _
  | defFunc _ _ _ _ _ _ => exact EndsStatement.end_ _
  | defFunc_params _ _ _ _ _ _ _ _ => exact EndsStatement.end_ _
  | block_one _ ih => exact ih
  | block_more _ _ _ ihb => exact EndsStatement.append_right ihb
  | instr_empty => exact Or.inl rfl
  | instr_expr _ _ => exact EndsStatement.semicolon _
  | instr_if _ _ _ _ => exact EndsStatement.end_ _
  | instr_if_else _ _ _ _ _ _ => exact EndsStatement.end_ _
  | instr_return _ _ => exact EndsStatement.semicolon _
  | instr_while _ _ _ _ => exact EndsStatement.end_ _
  | _ => trivial

theorem not_derives_of_last (body : List Code) (h1 : body ≠ []) (h2 : ¬ EndsStatement body) :
    ¬ Derives .program (body ++ [FINISH]) := by
  intro h
  obtain ⟨b, hb, h3⟩ := h.lastToken
  have : body = b := List.append_inj_left' hb rfl
  subst this
  rcases h3 with h3 | h3
  · exact h1 h3
  · exact h2 h3


/-! ## Single comparisons -/

/-- An operand token followed by a token that continues neither a call nor a sum
nor a product is, on its own, an `exprAdd`. -/
theorem exprAdd_operand (tk : List Token) (n c : Nat) (k : Option Nat) (t t' : Token)
    (h : tk[c]? = some t)
    (ht : t.code = ID ∨ t.code = INT ∨ t.code = REAL ∨ t.code = STRING)
    (h' : tk[c + 1]? = some t') (ht' : t'.code = LESS ∨ t'.code = EQUAL ∨ t'.code = SEMICOLON) :
    exprAdd tk (n + 4) { iTk := c, consumed := k } = .ok true { iTk := c + 1, consumed := some c } := by
  rcases ht with ht | ht | ht | ht <;> rcases ht' with ht' | ht' | ht' <;>
    simp only [exprAdd, exprAdd_while, exprMul, exprMul_while, exprPrefix, factor, cOr, bind_apply,
      consume, h, h', ht, ht', pure_apply, reduceCtorEq, ↓reduceIte, Bool.false_eq_true]

theorem exprComp_no_chain (a op1 b op2 c : Token) (rest : List Token)
    (ha : a.code = ID ∨ a.code = INT ∨ a.code = REAL ∨ a.code = STRING)
    (hb : b.code = ID ∨ b.code = INT ∨ b.code = REAL ∨ b.code = STRING)
    (h1 : op1.code = LESS ∨ op1.code = EQUAL) (h2 : op2.code = LESS ∨ op2.code = EQUAL)
    (n : Nat) (k : Option Nat) :
    exprComp (a :: op1 :: b :: op2 :: c :: rest) (n + 5) { iTk := 0, consumed := k } =
      .ok true { iTk := 3, consumed := some 2 } := by
  have e1 := exprAdd_operand (a :: op1 :: b :: op2 :: c :: rest) n 0 k a op1 rfl ha rfl
    (by rcases h1 with h | h <;> simp [h])
  have e2 := exprAdd_operand (a :: op1 :: b :: op2 :: c :: rest) n 2 (some 1) b op2 rfl hb rfl
    (by rcases h2 with h | h <;> simp [h])
  rcases h1 with h1 | h1 <;>
    simp only [exprComp, bind_apply, e1, cOr, consume, h1, e2, pure_apply, reduceCtorEq,
      ↓reduceIte, Bool.false_eq_true, zero_add, List.getElem?_cons_zero,
      List.getElem?_cons_succ, Nat.reduceAdd, Bool.not_true]

theorem exprLogic_no_chain (a op1 b op2 c : Token) (rest : List Token)
    (ha : a.code = ID ∨ a.code = INT ∨ a.code = REAL ∨ a.code = STRING)
    (hb : b.code = ID ∨ b.code = INT ∨ b.code = REAL ∨ b.code = STRING)
    (h1 : op1.code = LESS ∨ op1.code = EQUAL) (h2 : op2.code = LESS ∨ op2.code = EQUAL)
    (n : Nat) (k : Option Nat) :
    exprLogic (a :: op1 :: b :: op2 :: c :: rest) (n + 7) { iTk := 0, consumed := k } =
      .ok true { iTk := 3, consumed := some 2 } := by
  have e := fun k => exprComp_no_chain a op1 b op2 c rest ha hb h1 h2 n k
  rcases ha with ha | ha | ha | ha <;> rcases h1 with h1 | h1 <;> rcases h2 with h2 | h2 <;>
    simp only [exprLogic, exprLogic_while, exprAssign, cOr, bind_apply, consume, getITk, setITk,
      ha, h1, h2, e, pure_apply, reduceCtorEq,
      ↓reduceIte, Bool.false_eq_true, zero_add, List.getElem?_cons_zero,
      List.getElem?_cons_succ, Nat.reduceAdd, Bool.not_true]

theorem instr_no_chain (a op1 b op2 c : Token) (rest : List Token)
    (ha : a.code = ID ∨ a.code = INT ∨ a.code = REAL ∨ a.code = STRING)
    (hb : b.code = ID ∨ b.code = INT ∨ b.code = REAL ∨ b.code = STRING)
    (h1 : op1.code = LESS ∨ op1.code = EQUAL) (h2 : op2.code = LESS ∨ op2.code = EQUAL)
    (n : Nat) (k : Option Nat) :
    instr (a :: op1 :: b :: op2 :: c :: rest) (n + 9) { iTk := 0, consumed := k } =
      .ok false { iTk := 0, consumed := some 2 } := by
  have e := exprLogic_no_chain a op1 b op2 c rest ha hb h1 h2 n k
  rcases ha with ha | ha | ha | ha <;> rcases h2 with h2 | h2 <;>
    simp only [instr, expr, bind_apply, consume, getITk, setITk, ha, h2, e, pure_apply, reduceCtorEq,
      ↓reduceIte, Bool.false_eq_true, zero_add, List.getElem?_cons_zero,
      List.getElem?_cons_succ, Nat.reduceAdd, Bool.not_true]

theorem parse_no_chain (a op1 b op2 c semi fin : Token)
    (ha : a.code = ID ∨ a.code = INT ∨ a.code = REAL ∨ a.code = STRING)
    (hb : b.code = ID ∨ b.code = INT ∨ b.code = REAL ∨ b.code = STRING)
    (h1 : op1.code = LESS ∨ op1.code = EQUAL) (h2 : op2.code = LESS ∨ op2.code = EQUAL)
    (n : Nat) (s : PState) :
    parse [a, op1, b, op2, c, semi, fin] (n + 11) s = .fatal a.line "syntax error" := by
  have e := instr_no_chain a op1 b op2 c [semi, fin] ha hb h1 h2 n s.consumed
  rcases ha with ha | ha | ha | ha <;>
    simp only [parse, program, program_for, defVar, defFunc, block, bind_apply, consume, tkerr,
      setITk, ha, e, pure_apply, reduceCtorEq,
      ↓reduceIte, Bool.false_eq_true, zero_add, List.getElem?_cons_zero,
      List.getElem?_cons_succ, Nat.reduceAdd, Bool.not_true]


/-! ## Rules at a token that cannot begin them -/

theorem expr_fails_clean (tk : List Token) (n : Nat) (s : PState) (t : Token)
    (h : tk[s.iTk]? = some t) (hn : ¬ ExprStart t.code) :
    expr tk (n + 8) s = .ok false s := by
  simp only [ExprStart, not_or] at hn
  obtain ⟨h1, h2, h3, h4, h5, h6, h7⟩ := hn
  simp only [expr, exprLogic, exprAssign, exprComp, exprAdd, exprMul, exprPrefix, factor, cOr,
    bind_apply, consume, getITk, h, h1, h2, h3, h4, h5, h6, h7, pure_apply, ↓reduceIte,
    Bool.false_eq_true]

theorem expr_oob (tk : List Token) (n : Nat) (s : PState) (h : tk[s.iTk]? = none) :
    expr tk (n + 3) s = .oob := by
  simp only [expr, exprLogic, exprAssign, bind_apply, consume, getITk, h]

theorem instr_unfold (tk : List Token) (n : Nat) (s : PState) :
    instr tk (n + 1) s =
      match expr tk n s with
      | .ok true s1 =>
        (match consume tk SEMICOLON s1 with
          | .ok true s2 => .ok true s2
          | .ok false s2 => instr_keywords tk n { s2 with iTk := s.iTk }
          | .fatal l e => .fatal l e
          | .oob => .oob
          | .timeout => .timeout)
      | .ok false s1 => instr_keywords tk n s1
      | .fatal l e => .fatal l e
      | .oob => .oob
      | .timeout => .timeout := by
  rw [instr]
  simp only [bind_apply, getITk]
  cases expr tk n s with
  | ok a s1 =>
    cases a
    · rfl
    · simp only [↓reduceIte, bind_apply]
      cases consume tk SEMICOLON s1 with
      | ok b s2 =>
        cases b
        · rfl
        · rfl
      | fatal l e => rfl
      | oob => rfl
      | timeout => rfl
  | fatal l e => rfl
  | oob => rfl
  | timeout => rfl

theorem instr_keywords_fails (tk : List Token) (n : Nat) (s : PState) (t : Token)
    (h : tk[s.iTk]? = some t) (h1 : t.code ≠ IF) (h2 : t.code ≠ RETURN) (h3 : t.code ≠ WHILE) :
    instr_keywords tk n s = .ok false s := by
  simp only [instr_keywords, bind_apply, consume, h, h1, h2, h3, pure_apply, ↓reduceIte,
    Bool.false_eq_true]

theorem instr_fails_clean (tk : List Token) (n : Nat) (s : PState) (t : Token)
    (h : tk[s.iTk]? = some t) (hn : ¬ InstrStart t.code) :
    instr tk (n + 9) s = .ok false s := by
  simp only [InstrStart, not_or] at hn
  obtain ⟨h0, h1, h2, h3⟩ := hn
  rw [instr_unfold, expr_fails_clean tk n s t h h0]
  exact instr_keywords_fails tk _ s t h h1 h2 h3

theorem block_fails_clean (tk : List Token) (n : Nat) (s : PState) (t : Token)
    (h : tk[s.iTk]? = some t) (hn : ¬ InstrStart t.code) :
    block tk (n + 10) s = .ok false s := by
  simp only [block, bind_apply, instr_fails_clean tk n s t h hn, pure_apply,
    Bool.false_eq_true, ↓reduceIte]

theorem block_while_stops (tk : List Token) (n : Nat) (s : PState) (t : Token)
    (h : tk[s.iTk]? = some t) (hn : ¬ InstrStart t.code) :
    block_while tk (n + 10) s = .ok () s := by
  simp only [block_while, bind_apply, instr_fails_clean tk n s t h hn, pure_apply,
    Bool.false_eq_true, ↓reduceIte]

theorem defVar_fails_clean (tk : List Token) (s : PState) (t : Token)
    (h : tk[s.iTk]? = some t) (hn : t.code ≠ VAR) : defVar tk s = .ok false s := by
  simp only [defVar, bind_apply, consume, h, hn, pure_apply, ↓reduceIte, Bool.false_eq_true]

theorem defFunc_fails_clean (tk : List Token) (n : Nat) (s : PState) (t : Token)
    (h : tk[s.iTk]? = some t) (hn : t.code ≠ FUNCTION) : defFunc tk n s = .ok false s := by
  simp only [defFunc, bind_apply, consume, h, hn, pure_apply, ↓reduceIte, Bool.false_eq_true]

/-- A rule that returned did not run out of fuel, so it returns the same with more. -/
theorem expr_more_fuel (tk : List Token) (n m : Nat) (s : PState) (r : Res Bool)
    (h : expr tk n s = r) (hr : r ≠ .timeout) : expr tk (n + m) s = r := by
  rcases ((rules_lock none none tk n (n + m) (by omega)).2.2.2.1).eq_or_timeout s with h1 | h1
  · exact absurd (h.symm.trans h1) hr
  · rw [h1, h]

/-- An expression that was matched began with a token that begins expressions. -/
theorem expr_true_start (tk : List Token) (n : Nat) (s s1 : PState)
    (h : expr tk n s = .ok true s1) : ∃ t, tk[s.iTk]? = some t ∧ ExprStart t.code := by
  have h8 := expr_more_fuel tk n 8 s _ h (by simp)
  cases ht : tk[s.iTk]? with
  | none =>
    have := expr_oob tk (n + 5) s ht
    rw [show n + 5 + 3 = n + 8 from rfl, h8] at this
    simp at this
  | some t =>
    by_cases hs : ExprStart t.code
    · exact ⟨t, rfl, hs⟩
    · have := expr_fails_clean tk n s t ht hs
      rw [Nat.add_comm] at h8
      rw [Nat.add_comm n 8] at this
      rw [h8] at this
      simp at this

theorem bind_ne_ok_left {α β : Type} {m : Parser α} {k : α → Parser β} {s : PState}
    (h : ∀ a s1, m s ≠ .ok a s1) : ∀ b s2, (m >>= k) s ≠ .ok b s2 := by
  intro b s2
  simp only [bind_apply]
  cases hm : m s with
  | ok a s1 => exact absurd hm (h a s1)
  | fatal l e => simp
  | oob => simp
  | timeout => simp

theorem bind_ne_ok_right {α β : Type} {m : Parser α} {k : α → Parser β} {s : PState}
    (h : ∀ a s1 b s2, k a s1 ≠ .ok b s2) : ∀ b s2, (m >>= k) s ≠ .ok b s2 := by
  intro b s2
  simp only [bind_apply]
  cases hm : m s with
  | ok a s1 => exact h a s1 b s2
  | fatal l e => simp
  | oob => simp
  | timeout => simp

/-- With fuel `7` the chain of calls from `expr` does not reach the end of `factor`,
so `expr` does not return. -/
theorem expr_seven (tk : List Token) (s : PState) (b : Bool) (s1 : PState) :
    expr tk 7 s ≠ .ok b s1 := by
  have hf : ∀ (s : PState) (b : Bool) (s1 : PState), factor tk 0 s ≠ .ok b s1 := by
    intro s b s1; simp [factor, outOfFuel]
  have hp : ∀ (s : PState) (b : Bool) (s1 : PState), exprPrefix tk 1 s ≠ .ok b s1 := by
    intro s
    rw [exprPrefix]
    repeat' (first
      | exact hf _
      | exact bind_ne_ok_left (hf _)
      | (apply bind_ne_ok_right; intro _ _)
      | split)
  have hm : ∀ (s : PState) (b : Bool) (s1 : PState), exprMul tk 2 s ≠ .ok b s1 := by
    intro s; rw [exprMul]; exact bind_ne_ok_left (hp s)
  have ha : ∀ (s : PState) (b : Bool) (s1 : PState), exprAdd tk 3 s ≠ .ok b s1 := by
    intro s; rw [exprAdd]; exact bind_ne_ok_left (hm s)
  have hc : ∀ (s : PState) (b : Bool) (s1 : PState), exprComp tk 4 s ≠ .ok b s1 := by
    intro s; rw [exprComp]; exact bind_ne_ok_left (ha s)
  have hs : ∀ (s : PState) (b : Bool) (s1 : PState), exprAssign tk 5 s ≠ .ok b s1 := by
    intro s
    rw [exprAssign]
    repeat' (first
      | exact hc _
      | exact bind_ne_ok_left (hc _)
      | (apply bind_ne_ok_right; intro _ _)
      | split)
  have hl : ∀ (s : PState) (b : Bool) (s1 : PState), exprLogic tk 6 s ≠ .ok b s1 := by
    intro s; rw [exprLogic]; exact bind_ne_ok_left (hs s)
  rw [expr]
  exact hl s b s1

theorem expr_fuel_ge (tk : List Token) (n : Nat) (s s1 : PState) (b : Bool)
    (h : expr tk n s = .ok b s1) : 8 ≤ n := by
  by_contra hlt
  have h7 := expr_more_fuel tk n (7 - n) s _ h (by simp)
  rw [show n + (7 - n) = 7 by omega] at h7
  exact expr_seven tk s b s1 h7

theorem tkerr_bind {α β : Type} (tk : List Token) (e : String) (k : α → Parser β)
    (s : PState) : ((tkerr tk e : Parser α) >>= k) s = tkerr tk e s := by
  simp only [bind_apply, tkerr]
  cases tk[s.iTk]? <;> rfl

theorem sameOutcome_of_lock {α : Type} {k k' : Option Nat} {r r' : Res α}
    (h1 : ResLe k k' r r') (h2 : ResLe k' k r' r) : SameOutcome r r' := by
  cases r <;> cases r' <;> simp only [ResLe, SameOutcome] at * <;>
    first
    | exact ⟨h1.1, h1.2.1⟩
    | exact h1
    | exact h2
    | trivial

theorem exprAssign_assign (tk : List Token) (n c : Nat) (k : Option Nat) (t t' : Token)
    (h : tk[c]? = some t) (hc : t.code = ID) (h' : tk[c + 1]? = some t')
    (hc' : t'.code = ASSIGN) :
    exprAssign tk (n + 1) { iTk := c, consumed := k } =
      match exprComp tk n { iTk := c + 2, consumed := some (c + 1) } with
      | .ok true s => .ok true s
      | .ok false s => tkerr tk "Invalid expression after '='" s
      | .fatal l e => .fatal l e
      | .oob => .oob
      | .timeout => .timeout := by
  simp only [exprAssign, bind_apply, getITk, consume, h, hc, h', hc', ↓reduceIte]
  cases exprComp tk n { iTk := c + 1 + 1, consumed := some (c + 1) } with
  | ok a s1 =>
    cases a
    · simp only [Bool.false_eq_true, ↓reduceIte, tkerr_bind]
    · rfl
  | fatal l e => rfl
  | oob => rfl
  | timeout => rfl

theorem exprAssign_not_id (tk : List Token) (n : Nat) (s : PState) (t : Token)
    (h : tk[s.iTk]? = some t) (hc : t.code ≠ ID) :
    exprAssign tk (n + 1) s = exprComp tk n s := by
  simp only [exprAssign, bind_apply, getITk, consume, h, hc, ↓reduceIte]
  rfl

theorem exprAssign_id_other (tk : List Token) (n c : Nat) (k : Option Nat) (t t' : Token)
    (h : tk[c]? = some t) (hc : t.code = ID) (h' : tk[c + 1]? = some t')
    (hc' : t'.code ≠ ASSIGN) :
    exprAssign tk (n + 1) { iTk := c, consumed := k } =
      exprComp tk n { iTk := c, consumed := some c } := by
  simp only [exprAssign, bind_apply, getITk, consume, h, hc, h', hc', ↓reduceIte]
  rfl

theorem exprComp_sameOutcome (tk : List Token) (n c : Nat) (k k' : Option Nat) :
    SameOutcome (exprComp tk n { iTk := c, consumed := k })
      (exprComp tk n { iTk := c, consumed := k' }) :=
  sameOutcome_of_lock
    ((rules_lock k k' tk n n (le_refl n)).2.2.2.2.2.2.2.1.run _ _ ⟨rfl, Or.inr ⟨rfl, rfl⟩⟩)
    ((rules_lock k' k tk n n (le_refl n)).2.2.2.2.2.2.2.1.run _ _ ⟨rfl, Or.inr ⟨rfl, rfl⟩⟩)

theorem instr_while_missing_end (tk : List Token) (n c : Nat) (k : Option Nat)
    (t0 t1 t2 t3 : Token) (s1 s2 : PState)
    (h0 : tk[c]? = some t0) (c0 : t0.code = WHILE)
    (h1 : tk[c + 1]? = some t1) (c1 : t1.code = LPAR)
    (he : expr tk n { iTk := c + 2, consumed := some (c + 1) } = .ok true s1)
    (h2 : tk[s1.iTk]? = some t2) (c2 : t2.code = RPAR)
    (hb : block tk n { iTk := s1.iTk + 1, consumed := some s1.iTk } = .ok true s2)
    (h3 : tk[s2.iTk]? = some t3) (c3 : t3.code ≠ END) :
    instr tk (n + 1) { iTk := c, consumed := k } =
      .fatal t3.line "Missing 'end' after 'while' loop" := by
  obtain ⟨m, rfl⟩ : ∃ m, n = m + 8 := ⟨n - 8, by have := expr_fuel_ge tk n _ _ _ he; omega⟩
  have hx := expr_fails_clean tk m { iTk := c, consumed := k } t0 h0
    (by simp [ExprStart, c0])
  rw [instr_unfold, hx]
  simp only [instr_keywords, bind_apply, consume, h0, c0, h1, c1, he, h2, c2, hb, h3, c3,
    tkerr, pure_apply, ↓reduceIte, Bool.false_eq_true, reduceCtorEq]

/-- A literal or an identifier followed by a token that continues no expression is
an expression on its own. -/
theorem expr_single (tk : List Token) (n c : Nat) (k : Option Nat) (t t' : Token)
    (h : tk[c]? = some t)
    (ht : t.code = ID ∨ t.code = INT ∨ t.code = REAL ∨ t.code = STRING)
    (h' : tk[c + 1]? = some t')
    (ht' : t'.code = RPAR ∨ t'.code = SEMICOLON ∨ t'.code = COMMA) :
    expr tk (n + 8) { iTk := c, consumed := k } =
      .ok true { iTk := c + 1, consumed := some c } := by
  rcases ht with ht | ht | ht | ht <;> rcases ht' with ht' | ht' | ht' <;>
    simp only [expr, exprLogic, exprLogic_while, exprAssign, exprComp, exprAdd, exprAdd_while,
      exprMul, exprMul_while, exprPrefix, factor, cOr, bind_apply, consume, getITk, setITk,
      h, h', ht, ht', pure_apply, reduceCtorEq, ↓reduceIte, Bool.false_eq_true, Bool.not_true]

/-- The expression `ID = operand` followed by a token that continues no expression. -/
theorem expr_assign_single (tk : List Token) (n c : Nat) (k : Option Nat)
    (t0 t1 t2 t3 : Token)
    (h0 : tk[c]? = some t0) (c0 : t0.code = ID)
    (h1 : tk[c + 1]? = some t1) (c1 : t1.code = ASSIGN)
    (h2 : tk[c + 2]? = some t2)
    (c2 : t2.code = ID ∨ t2.code = INT ∨ t2.code = REAL ∨ t2.code = STRING)
    (h3 : tk[c + 3]? = some t3)
    (c3 : t3.code = RPAR ∨ t3.code = SEMICOLON ∨ t3.code = COMMA) :
    expr tk (n + 8) { iTk := c, consumed := k } =
      .ok true { iTk := c + 3, consumed := some (c + 2) } := by
  have h1' : tk[c + 1 + 1]? = some t2 := h2
  have h2' : tk[c + 1 + 1 + 1]? = some t3 := h3
  rcases c2 with c2 | c2 | c2 | c2 <;> rcases c3 with c3 | c3 | c3 <;>
    simp only [expr, exprLogic, exprLogic_while, exprAssign, exprComp, exprAdd, exprAdd_while,
      exprMul, exprMul_while, exprPrefix, factor, cOr, bind_apply, consume, getITk, setITk,
      h0, c0, h1, c1, h1', h2', c2, c3, pure_apply, reduceCtorEq, ↓reduceIte,
      Bool.false_eq_true, Bool.not_true]

theorem block_fatal (tk : List Token) (n : Nat) (s : PState) (l : Int) (e : String)
    (h : instr tk n s = .fatal l e) : block tk (n + 1) s = .fatal l e := by
  rw [block, bind_apply, h]

theorem program_for_block_fatal (tk : List Token) (n : Nat) (s : PState) (l : Int)
    (e : String) (h1 : defVar tk s = .ok false s) (h2 : defFunc tk n s = .ok false s)
    (h3 : block tk n s = .fatal l e) : program_for tk (n + 1) s = .fatal l e := by
  rw [program_for, bind_apply, h1]
  simp only [Bool.false_eq_true, ↓reduceIte, bind_apply, h2, h3]

theorem parse_fatal (tk : List Token) (n : Nat) (s : PState) (l : Int) (e : String)
    (h : program_for tk n { iTk := 0, consumed := s.consumed } = .fatal l e) :
    parse tk n s = .fatal l e := by
  simp only [parse, program, bind_apply, setITk, h]

theorem parse_while_missing_end (l0 l1 l2 l3 l4 l5 l6 l7 l8 : Int) (n : Nat) (s : PState) :
    parse [⟨WHILE, l0⟩, ⟨LPAR, l1⟩, ⟨ID, l2⟩, ⟨RPAR, l3⟩, ⟨ID, l4⟩, ⟨ASSIGN, l5⟩, ⟨INT, l6⟩,
      ⟨SEMICOLON, l7⟩, ⟨FINISH, l8⟩] (n + 14) s
      = .fatal l8 "Missing 'end' after 'while' loop" := by
  have e1 := expr_single
    [⟨WHILE, l0⟩, ⟨LPAR, l1⟩, ⟨ID, l2⟩, ⟨RPAR, l3⟩, ⟨ID, l4⟩, ⟨ASSIGN, l5⟩, ⟨INT, l6⟩,
      ⟨SEMICOLON, l7⟩, ⟨FINISH, l8⟩] (n + 3) 2 (some 1) ⟨ID, l2⟩ ⟨RPAR, l3⟩ rfl (Or.inl rfl) rfl
    (Or.inl rfl)
  have e2 := expr_assign_single
    [⟨WHILE, l0⟩, ⟨LPAR, l1⟩, ⟨ID, l2⟩, ⟨RPAR, l3⟩, ⟨ID, l4⟩, ⟨ASSIGN, l5⟩, ⟨INT, l6⟩,
      ⟨SEMICOLON, l7⟩, ⟨FINISH, l8⟩] (n + 1) 4 (some 3) ⟨ID, l4⟩ ⟨ASSIGN, l5⟩ ⟨INT, l6⟩
    ⟨SEMICOLON, l7⟩ rfl rfl rfl rfl rfl (Or.inr (Or.inl rfl)) rfl (Or.inr (Or.inl rfl))
  have e3 := instr_fails_clean
    [⟨WHILE, l0⟩, ⟨LPAR, l1⟩, ⟨ID, l2⟩, ⟨RPAR, l3⟩, ⟨ID, l4⟩, ⟨ASSIGN, l5⟩, ⟨INT, l6⟩,
      ⟨SEMICOLON, l7⟩, ⟨FINISH, l8⟩] n { iTk := 8, consumed := some 7 } ⟨FINISH, l8⟩ rfl
    (by simp [InstrStart, ExprStart])
  have hb : block [⟨WHILE, l0⟩, ⟨LPAR, l1⟩, ⟨ID, l2⟩, ⟨RPAR, l3⟩, ⟨ID, l4⟩, ⟨ASSIGN, l5⟩,
      ⟨INT, l6⟩, ⟨SEMICOLON, l7⟩, ⟨FINISH, l8⟩] (n + 11) { iTk := 4, consumed := some 3 }
      = .ok true { iTk := 8, consumed := some 7 } := by
    rw [block, bind_apply, instr_unfold, e2]
    simp only [block_while, bind_apply, consume, e3, pure_apply, reduceCtorEq, ↓reduceIte,
      Bool.false_eq_true, List.getElem?_cons_zero, List.getElem?_cons_succ, Nat.reduceAdd]
  have hi := instr_while_missing_end
    [⟨WHILE, l0⟩, ⟨LPAR, l1⟩, ⟨ID, l2⟩, ⟨RPAR, l3⟩, ⟨ID, l4⟩, ⟨ASSIGN, l5⟩, ⟨INT, l6⟩,
      ⟨SEMICOLON, l7⟩, ⟨FINISH, l8⟩] (n + 11) 0 s.consumed
    ⟨WHILE, l0⟩ ⟨LPAR, l1⟩ ⟨RPAR, l3⟩ ⟨FINISH, l8⟩
    { iTk := 3, consumed := some 2 } { iTk := 8, consumed := some 7 }
    rfl rfl rfl rfl e1 rfl rfl hb rfl (by simp)
  exact parse_fatal _ _ _ _ _
    (program_for_block_fatal _ _ _ _ _
      (defVar_fails_clean _ _ ⟨WHILE, l0⟩ rfl (by simp))
      (defFunc_fails_clean _ _ _ ⟨WHILE, l0⟩ rfl (by simp))
      (block_fatal _ _ _ _ _ hi))

/-! ## Declarations -/

theorem baseType_ok (tk : List Token) (s : PState) (t : Token) (h : tk[s.iTk]? = some t)
    (ht : t.code = TYPE_INT ∨ t.code = TYPE_REAL ∨ t.code = TYPE_STR) :
    baseType tk s = .ok true { iTk := s.iTk + 1, consumed := some s.iTk } := by
  rcases ht with ht | ht | ht <;>
    simp only [baseType, cOr, bind_apply, consume, h, ht, pure_apply, reduceCtorEq, ↓reduceIte,
      Bool.false_eq_true]

theorem defVar_ok (tk : List Token) (c : Nat) (k : Option Nat) (h : IsVarDecl tk c) :
    defVar tk { iTk := c, consumed := k } = .ok true { iTk := c + 5, consumed := some (c + 4) } := by
  obtain ⟨t0, t1, t2, t3, t4, h0, c0, h1, c1, h2, c2, h3, c3, h4, c4⟩ := h
  have hb := baseType_ok tk { iTk := c + 3, consumed := some (c + 2) } t3 h3 c3
  simp only [defVar, bind_apply, consume, h0, c0, h1, c1, h2, c2, hb, h4, c4, pure_apply,
    ↓reduceIte]

theorem program_for_stop (tk : List Token) (n : Nat) (s : PState)
    (h1 : defVar tk s = .ok false s) (h2 : defFunc tk n s = .ok false s)
    (h3 : block tk n s = .ok false s) : program_for tk (n + 1) s = .ok () s := by
  rw [program_for, bind_apply, h1]
  simp only [Bool.false_eq_true, ↓reduceIte, bind_apply, h2, h3, pure_apply]

theorem program_for_defVar (tk : List Token) (n : Nat) (s s1 : PState)
    (h1 : defVar tk s = .ok true s1) : program_for tk (n + 1) s = program_for tk n s1 := by
  rw [program_for, bind_apply, h1]
  simp only [↓reduceIte]

theorem program_for_at_finish (tk : List Token) (n : Nat) (s : PState) (t : Token)
    (h : tk[s.iTk]? = some t) (hc : t.code = FINISH) :
    program_for tk (n + 11) s = .ok () s :=
  program_for_stop tk (n + 10) s
    (defVar_fails_clean tk s t h (by simp [hc]))
    (defFunc_fails_clean tk _ s t h (by simp [hc]))
    (block_fails_clean tk n s t h (by simp [InstrStart, ExprStart, hc]))

theorem program_for_decls (tk : List Token) (fin : Token) (hc : fin.code = FINISH) :
    ∀ (n c : Nat) (k : Option Nat), (∀ i, i < n → IsVarDecl tk (c + 5 * i)) →
      tk[c + 5 * n]? = some fin → ∀ fuel,
      ∃ k', program_for tk (fuel + n + 11) { iTk := c, consumed := k }
        = .ok () { iTk := c + 5 * n, consumed := k' } := by
  intro n
  induction n with
  | zero =>
    intro c k _ hf fuel
    exact ⟨k, program_for_at_finish tk fuel _ fin hf hc⟩
  | succ n ih =>
    intro c k hd hf fuel
    have h0 : IsVarDecl tk c := by simpa using hd 0 (by omega)
    obtain ⟨k', hk⟩ := ih (c + 5) (some (c + 4))
      (fun i hi => by
        have := hd (i + 1) (by omega)
        rwa [show c + 5 * (i + 1) = c + 5 + 5 * i by ring] at this)
      (by rwa [show c + 5 + 5 * n = c + 5 * (n + 1) by ring]) fuel
    refine ⟨k', ?_⟩
    rw [show fuel + (n + 1) + 11 = fuel + n + 11 + 1 by ring,
      program_for_defVar tk _ _ _ (defVar_ok tk c k h0), hk,
      show c + 5 + 5 * n = c + 5 * (n + 1) by ring]

theorem parse_accept (tk : List Token) (n : Nat) (s s1 : PState) (t : Token)
    (h : program_for tk n { iTk := 0, consumed := s.consumed } = .ok () s1)
    (ht : tk[s1.iTk]? = some t) (hc : t.code = FINISH) :
    parse tk n s = .ok () { iTk := s1.iTk + 1, consumed := some s1.iTk } := by
  simp only [parse, program, bind_apply, setITk, h, consume, ht, hc, ↓reduceIte, pure_apply]

/-! ## Derivations: sub-grammar and first tokens -/

theorem DerivesNoEmpty.derives {N : NT} {ts : List Code} (h : DerivesNoEmpty N ts) :
    Derives N ts := by
  induction h with
  | program_end => exact Derives.program_end
  | program_defVar _ _ iha ihb => exact Derives.program_defVar iha ihb
  | program_defFunc _ _ iha ihb => exact Derives.program_defFunc iha ihb
  | program_block _ _ iha ihb => exact Derives.program_block iha ihb
  | defVar _ ih => exact Derives.defVar ih
  | baseType_int => exact Derives.baseType_int
  | baseType_real => exact Derives.baseType_real
  | baseType_str => exact Derives.baseType_str
  | defFunc _ _ _ ih1 ih2 ih3 => exact Derives.defFunc ih1 ih2 ih3
  | defFunc_params _ _ _ _ ih1 ih2 ih3 ih4 => exact Derives.defFunc_params ih1 ih2 ih3 ih4
  | defVars_nil => exact Derives.defVars_nil
  | defVars_cons _ _ iha ihb => exact Derives.defVars_cons iha ihb
  | funcParams_one _ ih => exact Derives.funcParams_one ih
  | funcParams_more _ _ iha ihb => exact Derives.funcParams_more iha ihb
  | funcParam _ ih => exact Derives.funcParam ih
  | block_one _ ih => exact Derives.block_one ih
  | block_more _ _ iha ihb => exact Derives.block_more iha ihb
  | instr_expr _ ih => exact Derives.instr_expr ih
  | instr_if _ _ ih1 ih2 => exact Derives.instr_if ih1 ih2
  | instr_if_else _ _ _ ih1 ih2 ih3 => exact Derives.instr_if_else ih1 ih2 ih3
  | instr_return _ ih => exact Derives.instr_return ih
  | instr_while _ _ ih1 ih2 => exact Derives.instr_while ih1 ih2
  | expr _ ih => exact Derives.expr ih
  | exprLogic_one _ ih => exact Derives.exprLogic_one ih
  | exprLogic_and _ _ iha ihb => exact Derives.exprLogic_and iha ihb
  | exprLogic_or _ _ iha ihb => exact Derives.exprLogic_or iha ihb
  | exprAssign_comp _ ih => exact Derives.exprAssign_comp ih
  | exprAssign_assign _ ih => exact Derives.exprAssign_assign ih
  | exprComp_one _ ih => exact Derives.exprComp_one ih
  | exprComp_less _ _ iha ihb => exact Derives.exprComp_less iha ihb
  | exprComp_equal _ _ iha ihb => exact Derives.exprComp_equal iha ihb
  | exprAdd_one _ ih => exact Derives.exprAdd_one ih
  | exprAdd_add _ _ iha ihb => exact Derives.exprAdd_add iha ihb
  | exprAdd_sub _ _ iha ihb => exact Derives.exprAdd_sub iha ihb
  | exprMul_one _ ih => exact Derives.exprMul_one ih
  | exprMul_mul _ _ iha ihb => exact Derives.exprMul_mul iha ihb
  | exprMul_div _ _ iha ihb => exact Derives.exprMul_div iha ihb
  | exprPrefix_factor _ ih => exact Derives.exprPrefix_factor ih
  | exprPrefix_sub _ ih => exact Derives.exprPrefix_sub ih
  | exprPrefix_not _ ih => exact Derives.exprPrefix_not ih
  | factor_int => exact Derives.factor_int
  | factor_real => exact Derives.factor_real
  | factor_string => exact Derives.factor_string
  | factor_paren _ ih => exact Derives.factor_paren ih
  | factor_id => exact Derives.factor_id
  | factor_call0 => exact Derives.factor_call0
  | factor_call _ ih => exact Derives.factor_call ih
  | args_one _ ih => exact Derives.args_one ih
  | args_more _ _ iha ihb => exact Derives.args_more iha ihb

theorem FactorStart.exprStart {x : Code} (h : FactorStart x) : ExprStart x := by
  unfold FactorStart at h
  unfold ExprStart
  tauto

/-- A sequence that begins like an operand and is continued by an operator still
does not begin with `ID ASSIGN`. -/
theorem no_assign_append {x op : Code} {rest b : List Code}
    (h : ∀ r, x :: rest ≠ ID :: ASSIGN :: r) (hop : op ≠ ASSIGN) :
    ∀ r, x :: rest ++ [op] ++ b ≠ ID :: ASSIGN :: r := by
  intro r he
  cases rest with
  | nil =>
    simp only [List.cons_append, List.nil_append, List.cons.injEq] at he
    exact hop he.2.1
  | cons y rest =>
    simp only [List.cons_append, List.cons.injEq] at he
    exact h (rest) (by rw [he.1, he.2.1])

theorem DerivesNoEmpty.shape {N : NT} {ts : List Code} (h : DerivesNoEmpty N ts) :
    Shape N ts := by
  induction h with
  | program_end => exact ⟨_, _, rfl⟩
  | program_defVar _ _ iha _ => obtain ⟨r, rfl⟩ := iha; exact ⟨_, _, rfl⟩
  | program_defFunc _ _ iha _ => obtain ⟨r, rfl⟩ := iha; exact ⟨_, _, rfl⟩
  | program_block _ _ iha _ => obtain ⟨x, r, rfl, _⟩ := iha; exact ⟨_, _, rfl⟩
  | defVar _ _ => exact ⟨_, rfl⟩
  | baseType_int => exact ⟨_, rfl⟩
  | baseType_real => exact ⟨_, rfl⟩
  | baseType_str => exact ⟨_, rfl⟩
  | defFunc _ _ _ _ _ _ => exact ⟨_, rfl⟩
  | defFunc_params _ _ _ _ _ _ _ _ => exact ⟨_, rfl⟩
  | defVars_nil => exact Or.inl rfl
  | defVars_cons _ _ iha _ => obtain ⟨r, rfl⟩ := iha; exact Or.inr ⟨_, rfl⟩
  | funcParams_one _ ih => exact ih
  | funcParams_more _ _ iha _ => obtain ⟨r, rfl⟩ := iha; exact ⟨_, rfl⟩
  | funcParam _ _ => exact ⟨_, rfl⟩
  | block_one _ ih => exact ih
  | block_more _ _ iha _ => obtain ⟨x, r, rfl, hx⟩ := iha; exact ⟨_, _, rfl, hx⟩
  | instr_expr _ ih => obtain ⟨x, r, rfl, hx⟩ := ih; exact ⟨_, _, rfl, Or.inl hx⟩
  | instr_if _ _ _ _ => exact ⟨_, _, rfl, by simp [InstrStart]⟩
  | instr_if_else _ _ _ _ _ _ => exact ⟨_, _, rfl, by simp [InstrStart]⟩
  | instr_return _ _ => exact ⟨_, _, rfl, by simp [InstrStart]⟩
  | instr_while _ _ _ _ => exact ⟨_, _, rfl, by simp [InstrStart]⟩
  | expr _ ih => exact ih
  | exprLogic_one _ ih => exact ih
  | exprLogic_and _ _ iha _ => obtain ⟨x, r, rfl, hx⟩ := iha; exact ⟨_, _, rfl, hx⟩
  | exprLogic_or _ _ iha _ => obtain ⟨x, r, rfl, hx⟩ := iha; exact ⟨_, _, rfl, hx⟩
  | exprAssign_comp _ ih => obtain ⟨x, r, rfl, hx, _⟩ := ih; exact ⟨_, _, rfl, hx⟩
  | exprAssign_assign _ _ => exact ⟨_, _, rfl, by simp [ExprStart]⟩
  | exprComp_one _ ih => exact ih
  | exprComp_less _ _ iha _ =>
    obtain ⟨x, r, rfl, hx, hn⟩ := iha
    exact ⟨_, _, rfl, hx, no_assign_append hn (by simp)⟩
  | exprComp_equal _ _ iha _ =>
    obtain ⟨x, r, rfl, hx, hn⟩ := iha
    exact ⟨_, _, rfl, hx, no_assign_append hn (by simp)⟩
  | exprAdd_one _ ih => exact ih
  | exprAdd_add _ _ iha _ =>
    obtain ⟨x, r, rfl, hx, hn⟩ := iha
    exact ⟨_, _, rfl, hx, no_assign_append hn (by simp)⟩
  | exprAdd_sub _ _ iha _ =>
    obtain ⟨x, r, rfl, hx, hn⟩ := iha
    exact ⟨_, _, rfl, hx, no_assign_append hn (by simp)⟩
  | exprMul_one _ ih => exact ih
  | exprMul_mul _ _ iha _ =>
    obtain ⟨x, r, rfl, hx, hn⟩ := iha
    exact ⟨_, _, rfl, hx, no_assign_append hn (by simp)⟩
  | exprMul_div _ _ iha _ =>
    obtain ⟨x, r, rfl, hx, hn⟩ := iha
    exact ⟨_, _, rfl, hx, no_assign_append hn (by simp)⟩
  | exprPrefix_factor _ ih => obtain ⟨x, r, rfl, hx, hn⟩ := ih; exact ⟨_, _, rfl, hx.exprStart, hn⟩
  | exprPrefix_sub _ _ => exact ⟨_, _, rfl, by simp [ExprStart], by simp⟩
  | exprPrefix_not _ _ => exact ⟨_, _, rfl, by simp [ExprStart], by simp⟩
  | factor_int => exact ⟨_, _, rfl, by simp [FactorStart], by simp⟩
  | factor_real => exact ⟨_, _, rfl, by simp [FactorStart], by simp⟩
  | factor_string => exact ⟨_, _, rfl, by simp [FactorStart], by simp⟩
  | factor_paren _ _ => exact ⟨_, _, rfl, by simp [FactorStart], by simp⟩
  | factor_id => exact ⟨_, _, rfl, by simp [FactorStart], by simp⟩
  | factor_call0 => exact ⟨_, _, rfl, by simp [FactorStart], by simp⟩
  | factor_call _ _ => exact ⟨_, _, rfl, by simp [FactorStart], by simp⟩
  | args_one _ ih => exact ih
  | args_more _ _ iha _ => obtain ⟨x, r, rfl, hx⟩ := iha; exact ⟨_, _, rfl, hx⟩

/-! ## Matching a sequence of categories -/

theorem span_append (tk : List Token) (a b : List Code) :
    ∀ c c1, Span tk c (a ++ b) c1 ↔ ∃ m, Span tk c a m ∧ Span tk m b c1 := by
  induction a with
  | nil => intro c c1; simp [Span]
  | cons x a ih =>
    intro c c1
    show Next tk c (fun y => y = x) ∧ Span tk (c + 1) (a ++ b) c1 ↔
      ∃ m, (Next tk c (fun y => y = x) ∧ Span tk (c + 1) a m) ∧ Span tk m b c1
    rw [ih]
    constructor
    · rintro ⟨h, m, h1, h2⟩; exact ⟨m, ⟨h, h1⟩, h2⟩
    · rintro ⟨m, ⟨h, h1⟩, h2⟩; exact ⟨h, m, h1, h2⟩

theorem span_length (tk : List Token) (ts : List Code) :
    ∀ c c1, Span tk c ts c1 → c1 = c + ts.length := by
  induction ts with
  | nil => intro c c1 h; exact h
  | cons x ts ih =>
    intro c c1 h
    have := ih _ _ h.2
    simp only [List.length_cons]
    omega

theorem span_map (l : List Token) :
    ∀ pre : List Token,
      Span (pre ++ l) pre.length (l.map Token.code) (pre.length + l.length) := by
  induction l with
  | nil => intro pre; rfl
  | cons t l ih =>
    intro pre
    refine ⟨⟨t, ?_, rfl⟩, ?_⟩
    · rw [List.getElem?_append_right (le_refl _)]
      simp
    · have := ih (pre ++ [t])
      simp only [List.append_assoc, List.singleton_append, List.length_append,
        List.length_singleton] at this
      rw [List.length_cons, show pre.length + (l.length + 1) = pre.length + 1 + l.length by omega]
      exact this

/-! ## Acceptance, rule by rule -/

theorem acc_factor_literal {tk : List Token} {c : Nat}
    (h : Next tk c (fun y => y = INT ∨ y = REAL ∨ y = STRING)) :
    Acc (factor tk) true c (c + 1) := by
  obtain ⟨t, ht, hc⟩ := h
  refine ⟨1, fun n hn k => ⟨some c, ?_⟩⟩
  obtain ⟨m, rfl⟩ : ∃ m, n = m + 1 := ⟨n - 1, by omega⟩
  rcases hc with hc | hc | hc <;>
    simp only [factor, cOr, bind_apply, consume, ht, hc, pure_apply, ↓reduceIte,
      Bool.false_eq_true, reduceCtorEq]

theorem acc_factor_paren {tk : List Token} {c c1 : Nat}
    (h0 : Next tk c (fun y => y = LPAR)) (he : Acc (expr tk) true (c + 1) c1)
    (h1 : Next tk c1 (fun y => y = RPAR)) : Acc (factor tk) true c (c1 + 1) := by
  obtain ⟨t0, ht0, hc0⟩ := h0
  obtain ⟨t1, ht1, hc1⟩ := h1
  obtain ⟨N, he⟩ := he
  refine ⟨N + 1, fun n hn k => ⟨some c1, ?_⟩⟩
  obtain ⟨m, rfl⟩ : ∃ m, n = m + 1 := ⟨n - 1, by omega⟩
  obtain ⟨k1, e1⟩ := he m (by omega) (some c)
  simp only [factor, cOr, bind_apply, consume, ht0, hc0, e1, ht1, hc1, pure_apply, ↓reduceIte,
    Bool.false_eq_true, reduceCtorEq]

theorem acc_factor_id {tk : List Token} {c : Nat}
    (h0 : Next tk c (fun y => y = ID)) (h1 : Next tk (c + 1) (fun y => y ≠ LPAR)) :
    Acc (factor tk) true c (c + 1) := by
  obtain ⟨t0, ht0, hc0⟩ := h0
  obtain ⟨t1, ht1, hc1⟩ := h1
  refine ⟨1, fun n hn k => ⟨some c, ?_⟩⟩
  obtain ⟨m, rfl⟩ : ∃ m, n = m + 1 := ⟨n - 1, by omega⟩
  simp only [factor, cOr, bind_apply, consume, ht0, hc0, ht1, hc1, pure_apply, ↓reduceIte,
    Bool.false_eq_true, reduceCtorEq]

theorem acc_factor_call0 {tk : List Token} {c : Nat}
    (h0 : Next tk c (fun y => y = ID)) (h1 : Next tk (c + 1) (fun y => y = LPAR))
    (h2 : Next tk (c + 2) (fun y => y = RPAR)) : Acc (factor tk) true c (c + 3) := by
  obtain ⟨t0, ht0, hc0⟩ := h0
  obtain ⟨t1, ht1, hc1⟩ := h1
  obtain ⟨t2, ht2, hc2⟩ := h2
  refine ⟨9, fun n hn k => ⟨some (c + 2), ?_⟩⟩
  obtain ⟨m, rfl⟩ : ∃ m, n = m + 8 + 1 := ⟨n - 9, by omega⟩
  have e := expr_fails_clean tk m { iTk := c + 2, consumed := some (c + 1) } t2 ht2
    (by simp [ExprStart, hc2])
  simp only [factor, cOr, bind_apply, consume, ht0, hc0, ht1, hc1, ht2, hc2, e, pure_apply,
    ↓reduceIte, Bool.false_eq_true, reduceCtorEq, Nat.add_assoc, Nat.reduceAdd]

theorem acc_factor_call {tk : List Token} {c c1 c2 : Nat}
    (h0 : Next tk c (fun y => y = ID)) (h1 : Next tk (c + 1) (fun y => y = LPAR))
    (he : Acc (expr tk) true (c + 2) c1) (hw : Acc (factor_while tk) () c1 c2)
    (h2 : Next tk c2 (fun y => y = RPAR)) : Acc (factor tk) true c (c2 + 1) := by
  obtain ⟨t0, ht0, hc0⟩ := h0
  obtain ⟨t1, ht1, hc1⟩ := h1
  obtain ⟨t2, ht2, hc2⟩ := h2
  obtain ⟨N1, he⟩ := he
  obtain ⟨N2, hw⟩ := hw
  refine ⟨N1 + N2 + 1, fun n hn k => ⟨some c2, ?_⟩⟩
  obtain ⟨m, rfl⟩ : ∃ m, n = m + 1 := ⟨n - 1, by omega⟩
  obtain ⟨k1, e1⟩ := he m (by omega) (some (c + 1))
  obtain ⟨k2, e2⟩ := hw m (by omega) k1
  simp only [factor, cOr, bind_apply, consume, ht0, hc0, ht1, hc1, ht2, hc2, e1, e2, pure_apply,
    ↓reduceIte, Bool.false_eq_true, reduceCtorEq, Nat.add_assoc, Nat.reduceAdd]

theorem acc_factor_while_stop {tk : List Token} {c : Nat}
    (h : Next tk c (fun y => y ≠ COMMA)) : Acc (factor_while tk) () c c := by
  obtain ⟨t, ht, hc⟩ := h
  refine ⟨1, fun n hn k => ⟨k, ?_⟩⟩
  obtain ⟨m, rfl⟩ : ∃ m, n = m + 1 := ⟨n - 1, by omega⟩
  simp only [factor_while, bind_apply, consume, ht, hc, pure_apply, ↓reduceIte,
    Bool.false_eq_true]

theorem acc_factor_while_step {tk : List Token} {c c1 c2 : Nat}
    (h : Next tk c (fun y => y = COMMA)) (he : Acc (expr tk) true (c + 1) c1)
    (hw : Acc (factor_while tk) () c1 c2) : Acc (factor_while tk) () c c2 := by
  obtain ⟨t, ht, hc⟩ := h
  obtain ⟨N1, he⟩ := he
  obtain ⟨N2, hw⟩ := hw
  refine ⟨N1 + N2 + 1, fun n hn k => ?_⟩
  obtain ⟨m, rfl⟩ : ∃ m, n = m + 1 := ⟨n - 1, by omega⟩
  obtain ⟨k1, e1⟩ := he m (by omega) (some c)
  obtain ⟨k2, e2⟩ := hw m (by omega) k1
  refine ⟨k2, ?_⟩
  simp only [factor_while, bind_apply, consume, ht, hc, e1, e2, pure_apply, ↓reduceIte,
    Bool.false_eq_true, Bool.not_true]

theorem acc_exprPrefix_factor {tk : List Token} {c c1 : Nat}
    (h : Next tk c (fun y => y ≠ SUB ∧ y ≠ NOT)) (hf : Acc (factor tk) true c c1) :
    Acc ( exprPrefix tk) true c c1 := by
  obtain ⟨t, ht, hc1, hc2⟩ := h
  obtain ⟨N, hf⟩ := hf
  refine ⟨N + 1, fun n hn k => ?_⟩
  obtain ⟨m, rfl⟩ : ∃ m, n = m + 1 := ⟨n - 1, by omega⟩
  obtain ⟨k1, e1⟩ := hf m (by omega) k
  refine ⟨k1, ?_⟩
  simp only [exprPrefix, cOr, bind_apply, consume, ht, hc1, hc2, e1, pure_apply, ↓reduceIte,
    Bool.false_eq_true]

theorem acc_exprPrefix_op {tk : List Token} {c c1 : Nat}
    (h : Next tk c (fun y => y = SUB ∨ y = NOT)) (hf : Acc (factor tk) true (c + 1) c1) :
    Acc ( exprPrefix tk) true c c1 := by
  obtain ⟨t, ht, hc⟩ := h
  obtain ⟨N, hf⟩ := hf
  refine ⟨N + 1, fun n hn k => ?_⟩
  obtain ⟨m, rfl⟩ : ∃ m, n = m + 1 := ⟨n - 1, by omega⟩
  obtain ⟨k1, e1⟩ := hf m (by omega) (some c)
  refine ⟨k1, ?_⟩
  rcases hc with hc | hc <;>
    simp only [exprPrefix, cOr, bind_apply, consume, ht, hc, e1, pure_apply, ↓reduceIte,
      Bool.false_eq_true, reduceCtorEq]


theorem acc_exprMul_while_stop {tk : List Token} {c : Nat}
    (h : Next tk c (fun y => y ≠ MUL ∧ y ≠ DIV)) : Acc (exprMul_while tk) () c c := by
  obtain ⟨t, ht, hc1, hc2⟩ := h
  refine ⟨1, fun n hn k => ⟨k, ?_⟩⟩
  obtain ⟨m, rfl⟩ : ∃ m, n = m + 1 := ⟨n - 1, by omega⟩
  simp only [exprMul_while, cOr, bind_apply, consume, ht, hc1, hc2, pure_apply, ↓reduceIte,
    Bool.false_eq_true]

theorem acc_exprMul_while_step {tk : List Token} {c c1 c2 : Nat}
    (h : Next tk c (fun y => y = MUL ∨ y = DIV)) (he : Acc ( exprPrefix tk) true (c + 1) c1)
    (hw : Acc (exprMul_while tk) () c1 c2) : Acc (exprMul_while tk) () c c2 := by
  obtain ⟨t, ht, hc⟩ := h
  obtain ⟨N1, he⟩ := he
  obtain ⟨N2, hw⟩ := hw
  refine ⟨N1 + N2 + 1, fun n hn k => ?_⟩
  obtain ⟨m, rfl⟩ : ∃ m, n = m + 1 := ⟨n - 1, by omega⟩
  obtain ⟨k1, e1⟩ := he m (by omega) (some c)
  obtain ⟨k2, e2⟩ := hw m (by omega) k1
  refine ⟨k2, ?_⟩
  rcases hc with hc | hc <;>
    simp only [exprMul_while, cOr, bind_apply, consume, ht, hc, e1, e2, pure_apply, ↓reduceIte,
      Bool.false_eq_true, Bool.not_true, reduceCtorEq]

theorem acc_exprMul {tk : List Token} {c c1 c2 : Nat}
    (he : Acc ( exprPrefix tk) true c c1) (hw : Acc (exprMul_while tk) () c1 c2) :
    Acc (exprMul tk) true c c2 := by
  obtain ⟨N1, he⟩ := he
  obtain ⟨N2, hw⟩ := hw
  refine ⟨N1 + N2 + 1, fun n hn k => ?_⟩
  obtain ⟨m, rfl⟩ : ∃ m, n = m + 1 := ⟨n - 1, by omega⟩
  obtain ⟨k1, e1⟩ := he m (by omega) k
  obtain ⟨k2, e2⟩ := hw m (by omega) k1
  refine ⟨k2, ?_⟩
  simp only [exprMul, bind_apply, e1, e2, pure_apply, ↓reduceIte]

theorem acc_exprAdd_while_stop {tk : List Token} {c : Nat}
    (h : Next tk c (fun y => y ≠ ADD ∧ y ≠ SUB)) : Acc (exprAdd_while tk) () c c := by
  obtain ⟨t, ht, hc1, hc2⟩ := h
  refine ⟨1, fun n hn k => ⟨k, ?_⟩⟩
  obtain ⟨m, rfl⟩ : ∃ m, n = m + 1 := ⟨n - 1, by omega⟩
  simp only [exprAdd_while, cOr, bind_apply, consume, ht, hc1, hc2, pure_apply, ↓reduceIte,
    Bool.false_eq_true]

theorem acc_exprAdd_while_step {tk : List Token} {c c1 c2 : Nat}
    (h : Next tk c (fun y => y = ADD ∨ y = SUB)) (he : Acc (exprMul tk) true (c + 1) c1)
    (hw : Acc (exprAdd_while tk) () c1 c2) : Acc (exprAdd_while tk) () c c2 := by
  obtain ⟨t, ht, hc⟩ := h
  obtain ⟨N1, he⟩ := he
  obtain ⟨N2, hw⟩ := hw
  refine ⟨N1 + N2 + 1, fun n hn k => ?_⟩
  obtain ⟨m, rfl⟩ : ∃ m, n = m + 1 := ⟨n - 1, by omega⟩
  obtain ⟨k1, e1⟩ := he m (by omega) (some c)
  obtain ⟨k2, e2⟩ := hw m (by omega) k1
  refine ⟨k2, ?_⟩
  rcases hc with hc | hc <;>
    simp only [exprAdd_while, cOr, bind_apply, consume, ht, hc, e1, e2, pure_apply, ↓reduceIte,
      Bool.false_eq_true, Bool.not_true, reduceCtorEq]

theorem acc_exprAdd {tk : List Token} {c c1 c2 : Nat}
    (he : Acc (exprMul tk) true c c1) (hw : Acc (exprAdd_while tk) () c1 c2) :
    Acc (exprAdd tk) true c c2 := by
  obtain ⟨N1, he⟩ := he
  obtain ⟨N2, hw⟩ := hw
  refine ⟨N1 + N2 + 1, fun n hn k => ?_⟩
  obtain ⟨m, rfl⟩ : ∃ m, n = m + 1 := ⟨n - 1, by omega⟩
  obtain ⟨k1, e1⟩ := he m (by omega) k
  obtain ⟨k2, e2⟩ := hw m (by omega) k1
  refine ⟨k2, ?_⟩
  simp only [exprAdd, bind_apply, e1, e2, pure_apply, ↓reduceIte]

theorem acc_exprLogic_while_stop {tk : List Token} {c : Nat}
    (h : Next tk c (fun y => y ≠ AND ∧ y ≠ OR)) : Acc (exprLogic_while tk) () c c := by
  obtain ⟨t, ht, hc1, hc2⟩ := h
  refine ⟨1, fun n hn k => ⟨k, ?_⟩⟩
  obtain ⟨m, rfl⟩ : ∃ m, n = m + 1 := ⟨n - 1, by omega⟩
  simp only [exprLogic_while, cOr, bind_apply, consume, ht, hc1, hc2, pure_apply, ↓reduceIte,
    Bool.false_eq_true]

theorem acc_exprLogic_while_step {tk : List Token} {c c1 c2 : Nat}
    (h : Next tk c (fun y => y = AND ∨ y = OR)) (he : Acc (exprAssign tk) true (c + 1) c1)
    (hw : Acc (exprLogic_while tk) () c1 c2) : Acc (exprLogic_while tk) () c c2 := by
  obtain ⟨t, ht, hc⟩ := h
  obtain ⟨N1, he⟩ := he
  obtain ⟨N2, hw⟩ := hw
  refine ⟨N1 + N2 + 1, fun n hn k => ?_⟩
  obtain ⟨m, rfl⟩ : ∃ m, n = m + 1 := ⟨n - 1, by omega⟩
  obtain ⟨k1, e1⟩ := he m (by omega) (some c)
  obtain ⟨k2, e2⟩ := hw m (by omega) k1
  refine ⟨k2, ?_⟩
  rcases hc with hc | hc <;>
    simp only [exprLogic_while, cOr, bind_apply, consume, ht, hc, e1, e2, pure_apply, ↓reduceIte,
      Bool.false_eq_true, Bool.not_true, reduceCtorEq]

theorem acc_exprLogic {tk : List Token} {c c1 c2 : Nat}
    (he : Acc (exprAssign tk) true c c1) (hw : Acc (exprLogic_while tk) () c1 c2) :
    Acc (exprLogic tk) true c c2 := by
  obtain ⟨N1, he⟩ := he
  obtain ⟨N2, hw⟩ := hw
  refine ⟨N1 + N2 + 1, fun n hn k => ?_⟩
  obtain ⟨m, rfl⟩ : ∃ m, n = m + 1 := ⟨n - 1, by omega⟩
  obtain ⟨k1, e1⟩ := he m (by omega) k
  obtain ⟨k2, e2⟩ := hw m (by omega) k1
  refine ⟨k2, ?_⟩
  simp only [exprLogic, bind_apply, e1, e2, pure_apply, ↓reduceIte]

theorem acc_exprComp_one {tk : List Token} {c c1 : Nat}
    (he : Acc (exprAdd tk) true c c1) (h : Next tk c1 (fun y => y ≠ LESS ∧ y ≠ EQUAL)) :
    Acc (exprComp tk) true c c1 := by
  obtain ⟨t, ht, hc1, hc2⟩ := h
  obtain ⟨N, he⟩ := he
  refine ⟨N + 1, fun n hn k => ?_⟩
  obtain ⟨m, rfl⟩ : ∃ m, n = m + 1 := ⟨n - 1, by omega⟩
  obtain ⟨k1, e1⟩ := he m (by omega) k
  refine ⟨k1, ?_⟩
  simp only [exprComp, cOr, bind_apply, consume, e1, ht, hc1, hc2, pure_apply, ↓reduceIte,
    Bool.false_eq_true]

theorem acc_exprComp_op {tk : List Token} {c c1 c2 : Nat}
    (he : Acc (exprAdd tk) true c c1) (h : Next tk c1 (fun y => y = LESS ∨ y = EQUAL))
    (he2 : Acc (exprAdd tk) true (c1 + 1) c2) : Acc (exprComp tk) true c c2 := by
  obtain ⟨t, ht, hc⟩ := h
  obtain ⟨N1, he⟩ := he
  obtain ⟨N2, he2⟩ := he2
  refine ⟨N1 + N2 + 1, fun n hn k => ?_⟩
  obtain ⟨m, rfl⟩ : ∃ m, n = m + 1 := ⟨n - 1, by omega⟩
  obtain ⟨k1, e1⟩ := he m (by omega) k
  obtain ⟨k2, e2⟩ := he2 m (by omega) (some c1)
  refine ⟨k2, ?_⟩
  rcases hc with hc | hc <;>
    simp only [exprComp, cOr, bind_apply, consume, e1, ht, hc, e2, pure_apply, ↓reduceIte,
      Bool.false_eq_true, Bool.not_true, reduceCtorEq]

theorem acc_exprAssign_plain {tk : List Token} {c c1 : Nat}
    (h : Next tk c (fun y => y ≠ ID)) (he : Acc (exprComp tk) true c c1) :
    Acc (exprAssign tk) true c c1 := by
  obtain ⟨t, ht, hc⟩ := h
  obtain ⟨N, he⟩ := he
  refine ⟨N + 1, fun n hn k => ?_⟩
  obtain ⟨m, rfl⟩ : ∃ m, n = m + 1 := ⟨n - 1, by omega⟩
  obtain ⟨k1, e1⟩ := he m (by omega) k
  exact ⟨k1, by rw [exprAssign_not_id tk m _ t ht hc, e1]⟩

theorem acc_exprAssign_id {tk : List Token} {c c1 : Nat}
    (h : Next tk c (fun y => y = ID)) (h1 : Next tk (c + 1) (fun y => y ≠ ASSIGN))
    (he : Acc (exprComp tk) true c c1) : Acc (exprAssign tk) true c c1 := by
  obtain ⟨t, ht, hc⟩ := h
  obtain ⟨t1, ht1, hc1⟩ := h1
  obtain ⟨N, he⟩ := he
  refine ⟨N + 1, fun n hn k => ?_⟩
  obtain ⟨m, rfl⟩ : ∃ m, n = m + 1 := ⟨n - 1, by omega⟩
  obtain ⟨k1, e1⟩ := he m (by omega) (some c)
  exact ⟨k1, by rw [exprAssign_id_other tk m c k t t1 ht hc ht1 hc1, e1]⟩

theorem acc_exprAssign_assign {tk : List Token} {c c1 : Nat}
    (h : Next tk c (fun y => y = ID)) (h1 : Next tk (c + 1) (fun y => y = ASSIGN))
    (he : Acc (exprComp tk) true (c + 2) c1) : Acc (exprAssign tk) true c c1 := by
  obtain ⟨t, ht, hc⟩ := h
  obtain ⟨t1, ht1, hc1⟩ := h1
  obtain ⟨N, he⟩ := he
  refine ⟨N + 1, fun n hn k => ?_⟩
  obtain ⟨m, rfl⟩ : ∃ m, n = m + 1 := ⟨n - 1, by omega⟩
  obtain ⟨k1, e1⟩ := he m (by omega) (some (c + 1))
  exact ⟨k1, by rw [exprAssign_assign tk m c k t t1 ht hc ht1 hc1, e1]⟩

theorem acc_expr {tk : List Token} {c c1 : Nat} (he : Acc (exprLogic tk) true c c1) :
    Acc (expr tk) true c c1 := by
  obtain ⟨N, he⟩ := he
  refine ⟨N + 1, fun n hn k => ?_⟩
  obtain ⟨m, rfl⟩ : ∃ m, n = m + 1 := ⟨n - 1, by omega⟩
  obtain ⟨k1, e1⟩ := he m (by omega) k
  exact ⟨k1, by rw [expr, e1]⟩

/-! ### Instructions and blocks -/

theorem acc_instr_expr {tk : List Token} {c c1 : Nat}
    (he : Acc (expr tk) true c c1) (h : Next tk c1 (fun y => y = SEMICOLON)) :
    Acc (instr tk) true c (c1 + 1) := by
  obtain ⟨t, ht, hc⟩ := h
  obtain ⟨N, he⟩ := he
  refine ⟨N + 1, fun n hn k => ⟨some c1, ?_⟩⟩
  obtain ⟨m, rfl⟩ : ∃ m, n = m + 1 := ⟨n - 1, by omega⟩
  obtain ⟨k1, e1⟩ := he m (by omega) k
  rw [instr_unfold, e1]
  simp only [consume, ht, hc, ↓reduceIte]

theorem acc_instr_return {tk : List Token} {c c1 : Nat}
    (h0 : Next tk c (fun y => y = RETURN)) (he : Acc (expr tk) true (c + 1) c1)
    (h : Next tk c1 (fun y => y = SEMICOLON)) : Acc (instr tk) true c (c1 + 1) := by
  obtain ⟨t0, ht0, hc0⟩ := h0
  obtain ⟨t, ht, hc⟩ := h
  obtain ⟨N, he⟩ := he
  refine ⟨N + 9, fun n hn k => ⟨some c1, ?_⟩⟩
  obtain ⟨m, rfl⟩ : ∃ m, n = m + 8 + 1 := ⟨n - 9, by omega⟩
  obtain ⟨k1, e1⟩ := he (m + 8) (by omega) (some c)
  rw [instr_unfold, expr_fails_clean tk m _ t0 ht0 (by simp [ExprStart, hc0])]
  simp only [instr_keywords, bind_apply, consume, ht0, hc0, e1, ht, hc, pure_apply, ↓reduceIte,
    Bool.false_eq_true, reduceCtorEq]

theorem acc_instr_while {tk : List Token} {c c1 c2 : Nat}
    (h0 : Next tk c (fun y => y = WHILE)) (h1 : Next tk (c + 1) (fun y => y = LPAR))
    (he : Acc (expr tk) true (c + 2) c1) (h2 : Next tk c1 (fun y => y = RPAR))
    (hb : Acc (block tk) true (c1 + 1) c2) (h3 : Next tk c2 (fun y => y = END)) :
    Acc (instr tk) true c (c2 + 1) := by
  obtain ⟨t0, ht0, hc0⟩ := h0
  obtain ⟨t1, ht1, hc1⟩ := h1
  obtain ⟨t2, ht2, hc2⟩ := h2
  obtain ⟨t3, ht3, hc3⟩ := h3
  obtain ⟨N1, he⟩ := he
  obtain ⟨N2, hb⟩ := hb
  refine ⟨N1 + N2 + 9, fun n hn k => ⟨some c2, ?_⟩⟩
  obtain ⟨m, rfl⟩ : ∃ m, n = m + 8 + 1 := ⟨n - 9, by omega⟩
  obtain ⟨k1, e1⟩ := he (m + 8) (by omega) (some (c + 1))
  obtain ⟨k2, e2⟩ := hb (m + 8) (by omega) (some c1)
  rw [instr_unfold, expr_fails_clean tk m _ t0 ht0 (by simp [ExprStart, hc0])]
  simp only [instr_keywords, bind_apply, consume, ht0, hc0, ht1, hc1, e1, ht2, hc2, e2, ht3, hc3,
    pure_apply, ↓reduceIte, Bool.false_eq_true, reduceCtorEq, Nat.add_assoc, Nat.reduceAdd]

theorem acc_instr_if {tk : List Token} {c c1 c2 : Nat}
    (h0 : Next tk c (fun y => y = IF)) (h1 : Next tk (c + 1) (fun y => y = LPAR))
    (he : Acc (expr tk) true (c + 2) c1) (h2 : Next tk c1 (fun y => y = RPAR))
    (hb : Acc (block tk) true (c1 + 1) c2) (h3 : Next tk c2 (fun y => y = END)) :
    Acc (instr tk) true c (c2 + 1) := by
  obtain ⟨t0, ht0, hc0⟩ := h0
  obtain ⟨t1, ht1, hc1⟩ := h1
  obtain ⟨t2, ht2, hc2⟩ := h2
  obtain ⟨t3, ht3, hc3⟩ := h3
  obtain ⟨N1, he⟩ := he
  obtain ⟨N2, hb⟩ := hb
  refine ⟨N1 + N2 + 9, fun n hn k => ⟨some c2, ?_⟩⟩
  obtain ⟨m, rfl⟩ : ∃ m, n = m + 8 + 1 := ⟨n - 9, by omega⟩
  obtain ⟨k1, e1⟩ := he (m + 8) (by omega) (some (c + 1))
  obtain ⟨k2, e2⟩ := hb (m + 8) (by omega) (some c1)
  rw [instr_unfold, expr_fails_clean tk m _ t0 ht0 (by simp [ExprStart, hc0])]
  simp only [instr_keywords, bind_apply, consume, ht0, hc0, ht1, hc1, e1, ht2, hc2, e2, ht3, hc3,
    pure_apply, ↓reduceIte, Bool.false_eq_true, reduceCtorEq, Nat.add_assoc, Nat.reduceAdd]

theorem acc_instr_if_else {tk : List Token} {c c1 c2 c3 : Nat}
    (h0 : Next tk c (fun y => y = IF)) (h1 : Next tk (c + 1) (fun y => y = LPAR))
    (he : Acc (expr tk) true (c + 2) c1) (h2 : Next tk c1 (fun y => y = RPAR))
    (hb : Acc (block tk) true (c1 + 1) c2) (h3 : Next tk c2 (fun y => y = ELSE))
    (hb2 : Acc (block tk) true (c2 + 1) c3) (h4 : Next tk c3 (fun y => y = END)) :
    Acc (instr tk) true c (c3 + 1) := by
  obtain ⟨t0, ht0, hc0⟩ := h0
  obtain ⟨t1, ht1, hc1⟩ := h1
  obtain ⟨t2, ht2, hc2⟩ := h2
  obtain ⟨t3, ht3, hc3⟩ := h3
  obtain ⟨t4, ht4, hc4⟩ := h4
  obtain ⟨N1, he⟩ := he
  obtain ⟨N2, hb⟩ := hb
  obtain ⟨N3, hb2⟩ := hb2
  refine ⟨N1 + N2 + N3 + 9, fun n hn k => ⟨some c3, ?_⟩⟩
  obtain ⟨m, rfl⟩ : ∃ m, n = m + 8 + 1 := ⟨n - 9, by omega⟩
  obtain ⟨k1, e1⟩ := he (m + 8) (by omega) (some (c + 1))
  obtain ⟨k2, e2⟩ := hb (m + 8) (by omega) (some c1)
  obtain ⟨k3, e3⟩ := hb2 (m + 8) (by omega) (some c2)
  rw [instr_unfold, expr_fails_clean tk m _ t0 ht0 (by simp [ExprStart, hc0])]
  simp only [instr_keywords, bind_apply, consume, ht0, hc0, ht1, hc1, e1, ht2, hc2, e2, ht3, hc3,
    e3, ht4, hc4, pure_apply, ↓reduceIte, Bool.false_eq_true, Bool.not_true, reduceCtorEq,
    Nat.add_assoc, Nat.reduceAdd]

theorem acc_block_while_stop {tk : List Token} {c : Nat}
    (h : Next tk c (fun y => ¬ InstrStart y)) : Acc (block_while tk) () c c := by
  obtain ⟨t, ht, hc⟩ := h
  refine ⟨10, fun n hn k => ⟨k, ?_⟩⟩
  obtain ⟨m, rfl⟩ : ∃ m, n = m + 10 := ⟨n - 10, by omega⟩
  exact block_while_stops tk m _ t ht hc

theorem acc_block_while_step {tk : List Token} {c c1 c2 : Nat}
    (hi : Acc (instr tk) true c c1) (hw : Acc (block_while tk) () c1 c2) :
    Acc (block_while tk) () c c2 := by
  obtain ⟨N1, hi⟩ := hi
  obtain ⟨N2, hw⟩ := hw
  refine ⟨N1 + N2 + 1, fun n hn k => ?_⟩
  obtain ⟨m, rfl⟩ : ∃ m, n = m + 1 := ⟨n - 1, by omega⟩
  obtain ⟨k1, e1⟩ := hi m (by omega) k
  obtain ⟨k2, e2⟩ := hw m (by omega) k1
  refine ⟨k2, ?_⟩
  simp only [block_while, bind_apply, e1, e2, ↓reduceIte]

theorem acc_block {tk : List Token} {c c1 c2 : Nat}
    (hi : Acc (instr tk) true c c1) (hw : Acc (block_while tk) () c1 c2) :
    Acc (block tk) true c c2 := by
  obtain ⟨N1, hi⟩ := hi
  obtain ⟨N2, hw⟩ := hw
  refine ⟨N1 + N2 + 1, fun n hn k => ?_⟩
  obtain ⟨m, rfl⟩ : ∃ m, n = m + 1 := ⟨n - 1, by omega⟩
  obtain ⟨k1, e1⟩ := hi m (by omega) k
  obtain ⟨k2, e2⟩ := hw m (by omega) k1
  refine ⟨k2, ?_⟩
  simp only [block, bind_apply, e1, e2, pure_apply, ↓reduceIte]

/-! ### Declarations, functions and the program -/

theorem funcParam_ok (tk : List Token) (c : Nat) (k : Option Nat)
    (h0 : Next tk c (fun y => y = ID)) (h1 : Next tk (c + 1) (fun y => y = COLON))
    (h2 : Next tk (c + 2) (fun y => y = TYPE_INT ∨ y = TYPE_REAL ∨ y = TYPE_STR)) :
    funcParam tk { iTk := c, consumed := k }
      = .ok true { iTk := c + 3, consumed := some (c + 2) } := by
  obtain ⟨t0, ht0, hc0⟩ := h0
  obtain ⟨t1, ht1, hc1⟩ := h1
  obtain ⟨t2, ht2, hc2⟩ := h2
  have hb := baseType_ok tk { iTk := c + 2, consumed := some (c + 1) } t2 ht2 hc2
  simp only [funcParam, bind_apply, consume, ht0, hc0, ht1, hc1, hb, pure_apply, ↓reduceIte,
    Nat.add_assoc, Nat.reduceAdd]

theorem funcParam_fails_clean (tk : List Token) (s : PState) (t : Token)
    (h : tk[s.iTk]? = some t) (hn : t.code ≠ ID) : funcParam tk s = .ok false s := by
  simp only [funcParam, bind_apply, consume, h, hn, pure_apply, ↓reduceIte, Bool.false_eq_true]

theorem acc_funcParams_while_stop {tk : List Token} {c : Nat}
    (h : Next tk c (fun y => y ≠ COMMA)) : Acc (funcParams_while tk) () c c := by
  obtain ⟨t, ht, hc⟩ := h
  refine ⟨1, fun n hn k => ⟨k, ?_⟩⟩
  obtain ⟨m, rfl⟩ : ∃ m, n = m + 1 := ⟨n - 1, by omega⟩
  simp only [funcParams_while, bind_apply, consume, ht, hc, pure_apply, ↓reduceIte,
    Bool.false_eq_true]

theorem acc_funcParams_while_step {tk : List Token} {c c2 : Nat}
    (h : Next tk c (fun y => y = COMMA))
    (h0 : Next tk (c + 1) (fun y => y = ID)) (h1 : Next tk (c + 2) (fun y => y = COLON))
    (h2 : Next tk (c + 3) (fun y => y = TYPE_INT ∨ y = TYPE_REAL ∨ y = TYPE_STR))
    (hw : Acc (funcParams_while tk) () (c + 4) c2) : Acc (funcParams_while tk) () c c2 := by
  obtain ⟨t, ht, hc⟩ := h
  obtain ⟨N2, hw⟩ := hw
  refine ⟨N2 + 1, fun n hn k => ?_⟩
  obtain ⟨m, rfl⟩ : ∃ m, n = m + 1 := ⟨n - 1, by omega⟩
  have e1 := funcParam_ok tk (c + 1) (some c) h0 h1 h2
  obtain ⟨k2, e2⟩ := hw m (by omega) (some (c + 1 + 2))
  refine ⟨k2, ?_⟩
  simp only [Nat.add_assoc, Nat.reduceAdd] at e1 e2
  simp only [funcParams_while, bind_apply, consume, ht, hc, e1, e2, pure_apply, ↓reduceIte,
    Bool.false_eq_true, Bool.not_true]

theorem acc_funcParams {tk : List Token} {c c2 : Nat}
    (h0 : Next tk c (fun y => y = ID)) (h1 : Next tk (c + 1) (fun y => y = COLON))
    (h2 : Next tk (c + 2) (fun y => y = TYPE_INT ∨ y = TYPE_REAL ∨ y = TYPE_STR))
    (hw : Acc (funcParams_while tk) () (c + 3) c2) : Acc (funcParams tk) true c c2 := by
  obtain ⟨N2, hw⟩ := hw
  refine ⟨N2, fun n hn k => ?_⟩
  have e1 := funcParam_ok tk c k h0 h1 h2
  obtain ⟨k2, e2⟩ := hw n hn (some (c + 2))
  refine ⟨k2, ?_⟩
  simp only [funcParams, bind_apply, e1, e2, pure_apply, ↓reduceIte]

theorem acc_defFunc_while_stop {tk : List Token} {c : Nat}
    (h : Next tk c (fun y => y ≠ VAR)) : Acc (defFunc_while tk) () c c := by
  obtain ⟨t, ht, hc⟩ := h
  refine ⟨1, fun n hn k => ⟨k, ?_⟩⟩
  obtain ⟨m, rfl⟩ : ∃ m, n = m + 1 := ⟨n - 1, by omega⟩
  simp only [defFunc_while, bind_apply,
    defVar_fails_clean tk { iTk := c, consumed := k } t ht hc, pure_apply, ↓reduceIte,
    Bool.false_eq_true]

theorem acc_defFunc_while_step {tk : List Token} {c c2 : Nat}
    (h : IsVarDecl tk c) (hw : Acc (defFunc_while tk) () (c + 5) c2) :
    Acc (defFunc_while tk) () c c2 := by
  obtain ⟨N2, hw⟩ := hw
  refine ⟨N2 + 1, fun n hn k => ?_⟩
  obtain ⟨m, rfl⟩ : ∃ m, n = m + 1 := ⟨n - 1, by omega⟩
  obtain ⟨k2, e2⟩ := hw m (by omega) (some (c + 4))
  refine ⟨k2, ?_⟩
  simp only [defFunc_while, bind_apply, defVar_ok tk c k h, e2, ↓reduceIte]

theorem acc_defFunc {tk : List Token} {c c1 c2 : Nat}
    (h0 : Next tk c (fun y => y = FUNCTION)) (h1 : Next tk (c + 1) (fun y => y = ID))
    (h2 : Next tk (c + 2) (fun y => y = LPAR)) (h3 : Next tk (c + 3) (fun y => y = RPAR))
    (h4 : Next tk (c + 4) (fun y => y = COLON))
    (h5 : Next tk (c + 5) (fun y => y = TYPE_INT ∨ y = TYPE_REAL ∨ y = TYPE_STR))
    (hv : Acc (defFunc_while tk) () (c + 6) c1) (hb : Acc (block tk) true c1 c2)
    (h6 : Next tk c2 (fun y => y = END)) : Acc (defFunc tk) true c (c2 + 1) := by
  obtain ⟨t0, ht0, hc0⟩ := h0
  obtain ⟨t1, ht1, hc1⟩ := h1
  obtain ⟨t2, ht2, hc2⟩ := h2
  obtain ⟨t3, ht3, hc3⟩ := h3
  obtain ⟨t4, ht4, hc4⟩ := h4
  obtain ⟨t5, ht5, hc5⟩ := h5
  obtain ⟨t6, ht6, hc6⟩ := h6
  obtain ⟨N1, hv⟩ := hv
  obtain ⟨N2, hb⟩ := hb
  refine ⟨N1 + N2, fun n hn k => ⟨some c2, ?_⟩⟩
  have ep : funcParams tk n { iTk := c + 3, consumed := some (c + 2) }
      = .ok false { iTk := c + 3, consumed := some (c + 2) } := by
    simp only [funcParams, bind_apply,
      funcParam_fails_clean tk { iTk := c + 3, consumed := some (c + 2) } t3 ht3 (by simp [hc3]),
      pure_apply, ↓reduceIte, Bool.false_eq_true]
  have eb := baseType_ok tk { iTk := c + 5, consumed := some (c + 4) } t5 ht5 hc5
  obtain ⟨k1, e1⟩ := hv n (by omega) (some (c + 5))
  obtain ⟨k2, e2⟩ := hb n (by omega) k1
  simp only [defFunc, bind_apply, consume, ht0, hc0, ht1, hc1, ht2, hc2, ep, ht3, hc3, ht4, hc4,
    eb, e1, e2, ht6, hc6, pure_apply, ↓reduceIte, Nat.add_assoc, Nat.reduceAdd]

theorem acc_defFunc_params {tk : List Token} {c c0 c1 c2 : Nat}
    (h0 : Next tk c (fun y => y = FUNCTION)) (h1 : Next tk (c + 1) (fun y => y = ID))
    (h2 : Next tk (c + 2) (fun y => y = LPAR)) (hp : Acc (funcParams tk) true (c + 3) c0)
    (h3 : Next tk c0 (fun y => y = RPAR))
    (h4 : Next tk (c0 + 1) (fun y => y = COLON))
    (h5 : Next tk (c0 + 2) (fun y => y = TYPE_INT ∨ y = TYPE_REAL ∨ y = TYPE_STR))
    (hv : Acc (defFunc_while tk) () (c0 + 3) c1) (hb : Acc (block tk) true c1 c2)
    (h6 : Next tk c2 (fun y => y = END)) : Acc (defFunc tk) true c (c2 + 1) := by
  obtain ⟨t0, ht0, hc0⟩ := h0
  obtain ⟨t1, ht1, hc1⟩ := h1
  obtain ⟨t2, ht2, hc2⟩ := h2
  obtain ⟨t3, ht3, hc3⟩ := h3
  obtain ⟨t4, ht4, hc4⟩ := h4
  obtain ⟨t5, ht5, hc5⟩ := h5
  obtain ⟨t6, ht6, hc6⟩ := h6
  obtain ⟨N0, hp⟩ := hp
  obtain ⟨N1, hv⟩ := hv
  obtain ⟨N2, hb⟩ := hb
  refine ⟨N0 + N1 + N2, fun n hn k => ⟨some c2, ?_⟩⟩
  obtain ⟨k0, ep⟩ := hp n (by omega) (some (c + 2))
  have eb := baseType_ok tk { iTk := c0 + 2, consumed := some (c0 + 1) } t5 ht5 hc5
  obtain ⟨k1, e1⟩ := hv n (by omega) (some (c0 + 2))
  obtain ⟨k2, e2⟩ := hb n (by omega) k1
  simp only [defFunc, bind_apply, consume, ht0, hc0, ht1, hc1, ht2, hc2, ep, ht3, hc3, ht4, hc4,
    eb, e1, e2, ht6, hc6, pure_apply, ↓reduceIte, Nat.add_assoc, Nat.reduceAdd]

theorem acc_program_for_stop {tk : List Token} {c : Nat}
    (h : Next tk c (fun y => y = FINISH)) : Acc (program_for tk) () c c := by
  obtain ⟨t, ht, hc⟩ := h
  refine ⟨11, fun n hn k => ⟨k, ?_⟩⟩
  obtain ⟨m, rfl⟩ : ∃ m, n = m + 11 := ⟨n - 11, by omega⟩
  exact program_for_at_finish tk m _ t ht hc

theorem acc_program_for_defVar {tk : List Token} {c c2 : Nat}
    (h : IsVarDecl tk c) (hw : Acc (program_for tk) () (c + 5) c2) :
    Acc (program_for tk) () c c2 := by
  obtain ⟨N2, hw⟩ := hw
  refine ⟨N2 + 1, fun n hn k => ?_⟩
  obtain ⟨m, rfl⟩ : ∃ m, n = m + 1 := ⟨n - 1, by omega⟩
  obtain ⟨k2, e2⟩ := hw m (by omega) (some (c + 4))
  exact ⟨k2, by rw [program_for_defVar tk m _ _ (defVar_ok tk c k h), e2]⟩

theorem acc_program_for_defFunc {tk : List Token} {c c1 c2 : Nat}
    (h : Next tk c (fun y => y = FUNCTION)) (hf : Acc (defFunc tk) true c c1)
    (hw : Acc (program_for tk) () c1 c2) : Acc (program_for tk) () c c2 := by
  obtain ⟨t, ht, hc⟩ := h
  obtain ⟨N1, hf⟩ := hf
  obtain ⟨N2, hw⟩ := hw
  refine ⟨N1 + N2 + 1, fun n hn k => ?_⟩
  obtain ⟨m, rfl⟩ : ∃ m, n = m + 1 := ⟨n - 1, by omega⟩
  obtain ⟨k1, e1⟩ := hf m (by omega) k
  obtain ⟨k2, e2⟩ := hw m (by omega) k1
  refine ⟨k2, ?_⟩
  rw [program_for, bind_apply,
    defVar_fails_clean tk { iTk := c, consumed := k } t ht (by simp [hc])]
  simp only [bind_apply, e1, e2, ↓reduceIte, Bool.false_eq_true]

theorem acc_program_for_block {tk : List Token} {c c1 c2 : Nat}
    (h : Next tk c (fun y => y ≠ VAR ∧ y ≠ FUNCTION)) (hb : Acc (block tk) true c c1)
    (hw : Acc (program_for tk) () c1 c2) : Acc (program_for tk) () c c2 := by
  obtain ⟨t, ht, hc1, hc2⟩ := h
  obtain ⟨N1, hb⟩ := hb
  obtain ⟨N2, hw⟩ := hw
  refine ⟨N1 + N2 + 1, fun n hn k => ?_⟩
  obtain ⟨m, rfl⟩ : ∃ m, n = m + 1 := ⟨n - 1, by omega⟩
  obtain ⟨k1, e1⟩ := hb m (by omega) k
  obtain ⟨k2, e2⟩ := hw m (by omega) k1
  refine ⟨k2, ?_⟩
  rw [program_for, bind_apply, defVar_fails_clean tk { iTk := c, consumed := k } t ht hc1]
  simp only [bind_apply, defFunc_fails_clean tk m { iTk := c, consumed := k } t ht hc2, e1, e2, ↓reduceIte,
    Bool.false_eq_true]

/-! ## Completeness on programs without the empty statement -/

theorem Next.mono {tk : List Token} {c : Nat} {P Q : Code → Prop} (h : Next tk c P)
    (hpq : ∀ y, P y → Q y) : Next tk c Q := by
  obtain ⟨t, ht, hp⟩ := h
  exact ⟨t, ht, hpq _ hp⟩

theorem ne_of_mem {P : Code → Prop} {y x : Code} (hy : P y) (hx : ¬ P x) : y ≠ x :=
  fun e => hx (e ▸ hy)

theorem isVarDecl_of_next {tk : List Token} {c : Nat}
    (h0 : Next tk c (fun y => y = VAR)) (h1 : Next tk (c + 1) (fun y => y = ID))
    (h2 : Next tk (c + 2) (fun y => y = COLON))
    (h3 : Next tk (c + 3) (fun y => y = TYPE_INT ∨ y = TYPE_REAL ∨ y = TYPE_STR))
    (h4 : Next tk (c + 4) (fun y => y = SEMICOLON)) : IsVarDecl tk c := by
  obtain ⟨t0, ht0, hc0⟩ := h0
  obtain ⟨t1, ht1, hc1⟩ := h1
  obtain ⟨t2, ht2, hc2⟩ := h2
  obtain ⟨t3, ht3, hc3⟩ := h3
  obtain ⟨t4, ht4, hc4⟩ := h4
  exact ⟨t0, t1, t2, t3, t4, ht0, hc0, ht1, hc1, ht2, hc2, ht3, hc3, ht4, hc4⟩

theorem IsVarDecl.next {tk : List Token} {c : Nat} (h : IsVarDecl tk c) :
    Next tk c (fun y => y = VAR) := by
  obtain ⟨t0, _, _, _, _, ht0, hc0, _⟩ := h
  exact ⟨t0, ht0, hc0⟩

/-- The parser accepts what the grammar without the empty statement derives. -/
theorem goal_of_derives (tk : List Token) {N : NT} {ts : List Code}
    (h : DerivesNoEmpty N ts) : ∀ c c1, Span tk c ts c1 → Goal tk N c c1 := by
  induction h with
  | program_end =>
    intro c c1 hm
    obtain ⟨hF, rfl⟩ := hm
    exact ⟨c, rfl, hF, acc_program_for_stop hF,
      c, acc_block_while_stop (hF.mono fun y hy => hy ▸ (by decide)), acc_program_for_stop hF⟩
  | program_defVar ha hb iha ihb =>
    intro c c1 hm
    obtain ⟨m, h1, h2⟩ := (span_append tk _ _ c c1).1 hm
    obtain ⟨rfl, hd⟩ := iha c m h1
    obtain ⟨e, rfl, hF, hp, cr, hbw, hp2⟩ := ihb _ _ h2
    have hp' := acc_program_for_defVar hd hp
    exact ⟨e, rfl, hF, hp', c,
      acc_block_while_stop (hd.next.mono fun y hy => hy ▸ (by decide)), hp'⟩
  | program_defFunc ha hb iha ihb =>
    intro c c1 hm
    obtain ⟨m, h1, h2⟩ := (span_append tk _ _ c c1).1 hm
    obtain ⟨rest, rfl⟩ := ha.shape
    have hfn : Next tk c (fun y => y = FUNCTION) := h1.1
    have hf : Acc (defFunc tk) true c m := iha c m h1
    obtain ⟨e, rfl, hF, hp, cr, hbw, hp2⟩ := ihb _ _ h2
    have hp' := acc_program_for_defFunc hfn hf hp
    exact ⟨e, rfl, hF, hp', c,
      acc_block_while_stop (hfn.mono fun y hy => hy ▸ (by decide)), hp'⟩
  | program_block ha hb iha ihb =>
    intro c c1 hm
    obtain ⟨m, h1, h2⟩ := (span_append tk _ _ c c1).1 hm
    obtain ⟨x, rest, rfl, hx⟩ := ha.shape
    have hx0 : Next tk c (fun y => y = x) := h1.1
    obtain ⟨e, rfl, hF, hp, cr, hbw, hp2⟩ := ihb _ _ h2
    obtain ⟨hbw', hblock⟩ := iha c m h1 cr hbw
    have hp' := acc_program_for_block
      (hx0.mono fun y hy => hy ▸ ⟨ne_of_mem hx (by decide), ne_of_mem hx (by decide)⟩)
      hblock hp2
    exact ⟨e, rfl, hF, hp', cr, hbw', hp2⟩
  | defVar ht ih =>
    intro c c1 hm
    try simp only [List.append_assoc, List.cons_append, List.nil_append] at hm
    simp only [span_append, Span, Nat.add_assoc, Nat.reduceAdd] at hm
    obtain ⟨h0, h1, h2, m, ht', h4, rfl⟩ := hm
    obtain ⟨rfl, h3⟩ := ih _ _ ht'
    exact ⟨rfl, isVarDecl_of_next h0 h1 h2 h3 h4⟩
  | baseType_int =>
    intro c c1 hm
    obtain ⟨h0, rfl⟩ := hm
    exact ⟨rfl, h0.mono fun y hy => Or.inl hy⟩
  | baseType_real =>
    intro c c1 hm
    obtain ⟨h0, rfl⟩ := hm
    exact ⟨rfl, h0.mono fun y hy => Or.inr (Or.inl hy)⟩
  | baseType_str =>
    intro c c1 hm
    obtain ⟨h0, rfl⟩ := hm
    exact ⟨rfl, h0.mono fun y hy => Or.inr (Or.inr hy)⟩
  | defFunc ht hv hb iht ihv ihb =>
    intro c c1 hm
    try simp only [List.append_assoc, List.cons_append, List.nil_append] at hm
    simp only [span_append, Span, Nat.add_assoc, Nat.reduceAdd] at hm
    obtain ⟨h0, h1, h2, h3, h4, m1, ht', m2, hv', m3, hb', h6, rfl⟩ := hm
    obtain ⟨rfl, h5⟩ := iht _ _ ht'
    obtain ⟨x, rest, rfl, hx⟩ := hb.shape
    have hx0 : Next tk m2 (fun y => y = x) := hb'.1
    have hdv := ihv _ _ hv' (hx0.mono fun y hy => hy ▸ ne_of_mem hx (by decide))
    have hblock := (ihb _ _ hb' m3
      (acc_block_while_stop (h6.mono fun y hy => hy ▸ (by decide)))).2
    exact acc_defFunc h0 h1 h2 h3 h4 h5 hdv hblock h6
  | defFunc_params hp ht hv hb ihp iht ihv ihb =>
    intro c c1 hm
    try simp only [List.append_assoc, List.cons_append, List.nil_append] at hm
    simp only [span_append, Span, Nat.add_assoc, Nat.reduceAdd] at hm
    obtain ⟨h0, h1, h2, m0, hp', h3, h4, m1, ht', m2, hv', m3, hb', h6, rfl⟩ := hm
    obtain ⟨rfl, h5⟩ := iht _ _ ht'
    obtain ⟨x, rest, rfl, hx⟩ := hb.shape
    have hx0 : Next tk m2 (fun y => y = x) := hb'.1
    have hdv := ihv _ _ hv' (hx0.mono fun y hy => hy ▸ ne_of_mem hx (by decide))
    have hblock := (ihb _ _ hb' m3
      (acc_block_while_stop (h6.mono fun y hy => hy ▸ (by decide)))).2
    obtain ⟨p0, p1, p2, pw⟩ := ihp _ _ hp' (h3.mono fun y hy => hy ▸ (by decide))
    exact acc_defFunc_params h0 h1 h2 (acc_funcParams p0 p1 p2 pw) h3 h4 h5 hdv hblock h6
  | defVars_nil =>
    intro c c1 hm
    obtain rfl : c1 = c := hm
    exact fun hn => acc_defFunc_while_stop hn
  | defVars_cons ha hb iha ihb =>
    intro c c1 hm
    obtain ⟨m, h1, h2⟩ := (span_append tk _ _ c c1).1 hm
    obtain ⟨rfl, hd⟩ := iha c m h1
    exact fun hn => acc_defFunc_while_step hd (ihb _ _ h2 hn)
  | funcParams_one ha ih =>
    intro c c1 hm
    obtain ⟨rfl, p0, p1, p2⟩ := ih c c1 hm
    exact fun hn => ⟨p0, p1, p2, acc_funcParams_while_stop hn⟩
  | funcParams_more ha hb iha ihb =>
    intro c c1 hm
    try simp only [List.append_assoc, List.cons_append, List.nil_append] at hm
    simp only [span_append, Span, Nat.add_assoc, Nat.reduceAdd] at hm
    obtain ⟨m, ha', hc, hb'⟩ := hm
    obtain ⟨rfl, p0, p1, p2⟩ := iha _ _ ha'
    intro hn
    obtain ⟨q0, q1, q2, qw⟩ := ihb _ _ hb' hn
    simp only [Nat.add_assoc, Nat.reduceAdd] at q0 q1 q2 qw
    exact ⟨p0, p1, p2, acc_funcParams_while_step hc q0 q1 q2 qw⟩
  | funcParam ht ih =>
    intro c c1 hm
    try simp only [List.append_assoc, List.cons_append, List.nil_append] at hm
    simp only [span_append, Span, Nat.add_assoc, Nat.reduceAdd] at hm
    obtain ⟨h0, h1, ht'⟩ := hm
    obtain ⟨rfl, h2⟩ := ih _ _ ht'
    exact ⟨rfl, h0, h1, h2⟩
  | block_one ha ih =>
    intro c c1 hm cr hw
    have hi : Acc (instr tk) true c c1 := ih c c1 hm
    exact ⟨acc_block_while_step hi hw, acc_block hi hw⟩
  | block_more ha hb iha ihb =>
    intro c c1 hm cr hw
    obtain ⟨m, h1, h2⟩ := (span_append tk _ _ c c1).1 hm
    have hi : Acc (instr tk) true c m := iha c m h1
    have hw' := (ihb _ _ h2 cr hw).1
    exact ⟨acc_block_while_step hi hw', acc_block hi hw'⟩
  | instr_expr he ih =>
    intro c c1 hm
    try simp only [List.append_assoc, List.cons_append, List.nil_append] at hm
    simp only [span_append, Span, Nat.add_assoc, Nat.reduceAdd] at hm
    obtain ⟨m, he', hs, rfl⟩ := hm
    exact acc_instr_expr (ih _ _ he' (hs.mono fun y hy => hy ▸ (by decide))) hs
  | instr_if he hb ihe ihb =>
    intro c c1 hm
    try simp only [List.append_assoc, List.cons_append, List.nil_append] at hm
    simp only [span_append, Span, Nat.add_assoc, Nat.reduceAdd] at hm
    obtain ⟨h0, h1, m, he', h2, m2, hb', h3, rfl⟩ := hm
    have hE := ihe _ _ he' (h2.mono fun y hy => hy ▸ (by decide))
    have hB := (ihb _ _ hb' m2
      (acc_block_while_stop (h3.mono fun y hy => hy ▸ (by decide)))).2
    exact acc_instr_if h0 h1 hE h2 hB h3
  | instr_if_else he hb hc ihe ihb ihc =>
    intro c c1 hm
    try simp only [List.append_assoc, List.cons_append, List.nil_append] at hm
    simp only [span_append, Span, Nat.add_assoc, Nat.reduceAdd] at hm
    obtain ⟨h0, h1, m, he', h2, m2, hb', h3, m3, hc', h4, rfl⟩ := hm
    have hE := ihe _ _ he' (h2.mono fun y hy => hy ▸ (by decide))
    have hB := (ihb _ _ hb' m2
      (acc_block_while_stop (h3.mono fun y hy => hy ▸ (by decide)))).2
    have hC := (ihc _ _ hc' m3
      (acc_block_while_stop (h4.mono fun y hy => hy ▸ (by decide)))).2
    exact acc_instr_if_else h0 h1 hE h2 hB h3 hC h4
  | instr_return he ih =>
    intro c c1 hm
    try simp only [List.append_assoc, List.cons_append, List.nil_append] at hm
    simp only [span_append, Span, Nat.add_assoc, Nat.reduceAdd] at hm
    obtain ⟨h0, m, he', hs, rfl⟩ := hm
    exact acc_instr_return h0 (ih _ _ he' (hs.mono fun y hy => hy ▸ (by decide))) hs
  | instr_while he hb ihe ihb =>
    intro c c1 hm
    try simp only [List.append_assoc, List.cons_append, List.nil_append] at hm
    simp only [span_append, Span, Nat.add_assoc, Nat.reduceAdd] at hm
    obtain ⟨h0, h1, m, he', h2, m2, hb', h3, rfl⟩ := hm
    have hE := ihe _ _ he' (h2.mono fun y hy => hy ▸ (by decide))
    have hB := (ihb _ _ hb' m2
      (acc_block_while_stop (h3.mono fun y hy => hy ▸ (by decide)))).2
    exact acc_instr_while h0 h1 hE h2 hB h3
  | expr he ih =>
    intro c c1 hm hf
    obtain ⟨m, h1, h2⟩ := ih c c1 hm hf
    exact acc_expr (acc_exprLogic h1 h2)
  | exprLogic_one ha ih =>
    intro c c1 hm hf
    exact ⟨c1, ih c c1 hm (hf.mono fun y hy => Or.inl hy),
      acc_exprLogic_while_stop
        (hf.mono fun y hy => ⟨ne_of_mem hy (by decide), ne_of_mem hy (by decide)⟩)⟩
  | exprLogic_and ha hb iha ihb =>
    intro c c1 hm hf
    try simp only [List.append_assoc, List.cons_append, List.nil_append] at hm
    simp only [span_append, Span, Nat.add_assoc, Nat.reduceAdd] at hm
    obtain ⟨m, ha', hop, hb'⟩ := hm
    obtain ⟨m', h1, h2⟩ := ihb _ _ hb' hf
    exact ⟨m, iha _ _ ha' (hop.mono fun y hy => hy ▸ (by decide)),
      acc_exprLogic_while_step (hop.mono fun y hy => Or.inl hy) h1 h2⟩
  | exprLogic_or ha hb iha ihb =>
    intro c c1 hm hf
    try simp only [List.append_assoc, List.cons_append, List.nil_append] at hm
    simp only [span_append, Span, Nat.add_assoc, Nat.reduceAdd] at hm
    obtain ⟨m, ha', hop, hb'⟩ := hm
    obtain ⟨m', h1, h2⟩ := ihb _ _ hb' hf
    exact ⟨m, iha _ _ ha' (hop.mono fun y hy => hy ▸ (by decide)),
      acc_exprLogic_while_step (hop.mono fun y hy => Or.inr hy) h1 h2⟩
  | exprAssign_comp ha ih =>
    intro c c1 hm hf
    have hC : Acc (exprComp tk) true c c1 := ih c c1 hm hf
    obtain ⟨x, rest, rfl, hx, hna⟩ := ha.shape
    have hx0 : Next tk c (fun y => y = x) := hm.1
    by_cases hid : x = ID
    · subst hid
      refine acc_exprAssign_id hx0 ?_ hC
      cases rest with
      | nil =>
        obtain rfl : c1 = c + 1 := hm.2
        exact hf.mono fun y hy => ne_of_mem hy (by decide)
      | cons z rest =>
        have hz : Next tk (c + 1) (fun y => y = z) := hm.2.1
        exact hz.mono fun y hy => hy ▸ fun hza => hna rest (by rw [hza])
    · exact acc_exprAssign_plain (hx0.mono fun y hy => hy ▸ hid) hC
  | exprAssign_assign ha ih =>
    intro c c1 hm hf
    try simp only [List.append_assoc, List.cons_append, List.nil_append] at hm
    simp only [span_append, Span, Nat.add_assoc, Nat.reduceAdd] at hm
    obtain ⟨h0, h1, ha'⟩ := hm
    exact acc_exprAssign_assign h0 h1 (ih _ _ ha' hf)
  | exprComp_one ha ih =>
    intro c c1 hm hf
    obtain ⟨m, h1, h2⟩ := ih c c1 hm (hf.mono fun y hy => Or.inl hy)
    exact acc_exprComp_one (acc_exprAdd h1 h2)
      (hf.mono fun y hy => ⟨ne_of_mem hy (by decide), ne_of_mem hy (by decide)⟩)
  | exprComp_less ha hb iha ihb =>
    intro c c1 hm hf
    try simp only [List.append_assoc, List.cons_append, List.nil_append] at hm
    simp only [span_append, Span, Nat.add_assoc, Nat.reduceAdd] at hm
    obtain ⟨m, ha', hop, hb'⟩ := hm
    obtain ⟨ma, a1, a2⟩ := iha _ _ ha' (hop.mono fun y hy => hy ▸ (by decide))
    obtain ⟨mb, b1, b2⟩ := ihb _ _ hb' (hf.mono fun y hy => Or.inl hy)
    exact acc_exprComp_op (acc_exprAdd a1 a2) (hop.mono fun y hy => Or.inl hy)
      (acc_exprAdd b1 b2)
  | exprComp_equal ha hb iha ihb =>
    intro c c1 hm hf
    try simp only [List.append_assoc, List.cons_append, List.nil_append] at hm
    simp only [span_append, Span, Nat.add_assoc, Nat.reduceAdd] at hm
    obtain ⟨m, ha', hop, hb'⟩ := hm
    obtain ⟨ma, a1, a2⟩ := iha _ _ ha' (hop.mono fun y hy => hy ▸ (by decide))
    obtain ⟨mb, b1, b2⟩ := ihb _ _ hb' (hf.mono fun y hy => Or.inl hy)
    exact acc_exprComp_op (acc_exprAdd a1 a2) (hop.mono fun y hy => Or.inr hy)
      (acc_exprAdd b1 b2)
  | exprAdd_one ha ih =>
    intro c c1 hm hf
    obtain ⟨m, h1, h2⟩ := ih c c1 hm (hf.mono fun y hy => Or.inl hy)
    exact ⟨c1, acc_exprMul h1 h2, acc_exprAdd_while_stop
      (hf.mono fun y hy => ⟨ne_of_mem hy (by decide), ne_of_mem hy (by decide)⟩)⟩
  | exprAdd_add ha hb iha ihb =>
    intro c c1 hm hf
    try simp only [List.append_assoc, List.cons_append, List.nil_append] at hm
    simp only [span_append, Span, Nat.add_assoc, Nat.reduceAdd] at hm
    obtain ⟨m, ha', hop, hb'⟩ := hm
    obtain ⟨ma, a1, a2⟩ := iha _ _ ha' (hop.mono fun y hy => hy ▸ (by decide))
    obtain ⟨mb, b1, b2⟩ := ihb _ _ hb' hf
    exact ⟨m, acc_exprMul a1 a2, acc_exprAdd_while_step (hop.mono fun y hy => Or.inl hy) b1 b2⟩
  | exprAdd_sub ha hb iha ihb =>
    intro c c1 hm hf
    try simp only [List.append_assoc, List.cons_append, List.nil_append] at hm
    simp only [span_append, Span, Nat.add_assoc, Nat.reduceAdd] at hm
    obtain ⟨m, ha', hop, hb'⟩ := hm
    obtain ⟨ma, a1, a2⟩ := iha _ _ ha' (hop.mono fun y hy => hy ▸ (by decide))
    obtain ⟨mb, b1, b2⟩ := ihb _ _ hb' hf
    exact ⟨m, acc_exprMul a1 a2, acc_exprAdd_while_step (hop.mono fun y hy => Or.inr hy) b1 b2⟩
  | exprMul_one ha ih =>
    intro c c1 hm hf
    exact ⟨c1, ih c c1 hm (hf.mono fun y hy => Or.inl hy), acc_exprMul_while_stop
      (hf.mono fun y hy => ⟨ne_of_mem hy (by decide), ne_of_mem hy (by decide)⟩)⟩
  | exprMul_mul ha hb iha ihb =>
    intro c c1 hm hf
    try simp only [List.append_assoc, List.cons_append, List.nil_append] at hm
    simp only [span_append, Span, Nat.add_assoc, Nat.reduceAdd] at hm
    obtain ⟨m, ha', hop, hb'⟩ := hm
    obtain ⟨mb, b1, b2⟩ := ihb _ _ hb' hf
    exact ⟨m, iha _ _ ha' (hop.mono fun y hy => hy ▸ (by decide)),
      acc_exprMul_while_step (hop.mono fun y hy => Or.inl hy) b1 b2⟩
  | exprMul_div ha hb iha ihb =>
    intro c c1 hm hf
    try simp only [List.append_assoc, List.cons_append, List.nil_append] at hm
    simp only [span_append, Span, Nat.add_assoc, Nat.reduceAdd] at hm
    obtain ⟨m, ha', hop, hb'⟩ := hm
    obtain ⟨mb, b1, b2⟩ := ihb _ _ hb' hf
    exact ⟨m, iha _ _ ha' (hop.mono fun y hy => hy ▸ (by decide)),
      acc_exprMul_while_step (hop.mono fun y hy => Or.inr hy) b1 b2⟩
  | exprPrefix_factor ha ih =>
    intro c c1 hm hf
    have hF : Acc (factor tk) true c c1 := ih c c1 hm hf
    obtain ⟨x, rest, rfl, hx, _⟩ := ha.shape
    have hx0 : Next tk c (fun y => y = x) := hm.1
    exact acc_exprPrefix_factor
      (hx0.mono fun y hy => hy ▸ ⟨ne_of_mem hx (by decide), ne_of_mem hx (by decide)⟩) hF
  | exprPrefix_sub ha ih =>
    intro c c1 hm hf
    obtain ⟨h0, ha'⟩ := hm
    exact acc_exprPrefix_op (h0.mono fun y hy => Or.inl hy) (ih _ _ ha' hf)
  | exprPrefix_not ha ih =>
    intro c c1 hm hf
    obtain ⟨h0, ha'⟩ := hm
    exact acc_exprPrefix_op (h0.mono fun y hy => Or.inr hy) (ih _ _ ha' hf)
  | factor_int =>
    intro c c1 hm hf
    obtain ⟨h0, rfl⟩ := hm
    exact acc_factor_literal (h0.mono fun y hy => Or.inl hy)
  | factor_real =>
    intro c c1 hm hf
    obtain ⟨h0, rfl⟩ := hm
    exact acc_factor_literal (h0.mono fun y hy => Or.inr (Or.inl hy))
  | factor_string =>
    intro c c1 hm hf
    obtain ⟨h0, rfl⟩ := hm
    exact acc_factor_literal (h0.mono fun y hy => Or.inr (Or.inr hy))
  | factor_paren he ih =>
    intro c c1 hm hf
    try simp only [List.append_assoc, List.cons_append, List.nil_append] at hm
    simp only [span_append, Span, Nat.add_assoc, Nat.reduceAdd] at hm
    obtain ⟨h0, m, he', h1, rfl⟩ := hm
    exact acc_factor_paren h0 (ih _ _ he' (h1.mono fun y hy => hy ▸ (by decide))) h1
  | factor_id =>
    intro c c1 hm hf
    obtain ⟨h0, rfl⟩ := hm
    exact acc_factor_id h0 (hf.mono fun y hy => ne_of_mem hy (by decide))
  | factor_call0 =>
    intro c c1 hm hf
    simp only [Span, Nat.add_assoc, Nat.reduceAdd] at hm
    obtain ⟨h0, h1, h2, rfl⟩ := hm
    exact acc_factor_call0 h0 h1 h2
  | factor_call ha ih =>
    intro c c1 hm hf
    try simp only [List.append_assoc, List.cons_append, List.nil_append] at hm
    simp only [span_append, Span, Nat.add_assoc, Nat.reduceAdd] at hm
    obtain ⟨h0, h1, m, ha', h2, rfl⟩ := hm
    obtain ⟨m', e1, e2⟩ := ih _ _ ha' h2
    exact acc_factor_call h0 h1 e1 e2 h2
  | args_one he ih =>
    intro c c1 hm hf
    exact ⟨c1, ih c c1 hm (hf.mono fun y hy => hy ▸ (by decide)),
      acc_factor_while_stop (hf.mono fun y hy => hy ▸ (by decide))⟩
  | args_more he ha ihe iha =>
    intro c c1 hm hf
    try simp only [List.append_assoc, List.cons_append, List.nil_append] at hm
    simp only [span_append, Span, Nat.add_assoc, Nat.reduceAdd] at hm
    obtain ⟨m, he', hop, ha'⟩ := hm
    obtain ⟨m', e1, e2⟩ := iha _ _ ha' hf
    exact ⟨m, ihe _ _ he' (hop.mono fun y hy => hy ▸ (by decide)),
      acc_factor_while_step hop e1 e2⟩

theorem parse_of_derives (tk : List Token)
    (h : DerivesNoEmpty .program (tk.map Token.code))
    (fuel : Nat) (hf : 12 * tk.length ≤ fuel) (s : PState) :
    parse tk fuel s = .ok () { iTk := tk.length, consumed := some (tk.length - 1) } := by
  have hsp : Span tk 0 (tk.map Token.code) tk.length := by
    simpa using span_map tk []
  obtain ⟨e, he, hF, ⟨N, hp⟩, _⟩ := goal_of_derives tk h 0 tk.length hsp
  obtain ⟨t, ht, hc⟩ := hF
  have hw : EndsWithFinish tk e := ⟨he, t, ht, hc⟩
  obtain ⟨k1, hk⟩ := hp (max N fuel) (le_max_left _ _) s.consumed
  have hbig := parse_accept tk (max N fuel) s _ t hk ht hc
  rcases parse_indep tk fuel (max N fuel) (le_max_right _ _) s s with h1 | h1
  · have h2 := parse_total hw fuel s hf
    unfold wp at h2
    rw [h1] at h2
    exact h2.elim
  · rw [← h1, hbig, he]
    rfl

theorem DerivesNoEmpty.expr_of_factor {e : List Code} (h : DerivesNoEmpty .factor e) :
    DerivesNoEmpty .expr e :=
  .expr (.exprLogic_one (.exprAssign_comp (.exprComp_one (.exprAdd_one (.exprMul_one
    (.exprPrefix_factor h))))))

theorem DerivesNoEmpty.comp_of_factor {e : List Code} (h : DerivesNoEmpty .factor e) :
    DerivesNoEmpty .exprComp e :=
  .exprComp_one (.exprAdd_one (.exprMul_one (.exprPrefix_factor h)))

theorem functionExample_derives : DerivesNoEmpty .program functionExample :=
  @DerivesNoEmpty.program_defFunc
    [FUNCTION, ID, LPAR, ID, COLON, TYPE_INT, RPAR, COLON, TYPE_INT, RETURN, ID, SEMICOLON, END]
    [FINISH]
    (@DerivesNoEmpty.defFunc_params [ID, COLON, TYPE_INT] [TYPE_INT] [] [RETURN, ID, SEMICOLON]
      (.funcParams_one (@DerivesNoEmpty.funcParam [TYPE_INT] .baseType_int))
      .baseType_int .defVars_nil
      (.block_one (@DerivesNoEmpty.instr_return [ID] (.expr_of_factor .factor_id))))
    .program_end

theorem ifExample_derives : DerivesNoEmpty .program ifExample :=
  @DerivesNoEmpty.program_block [IF, LPAR, ID, RPAR, ID, ASSIGN, INT, SEMICOLON, END] [FINISH]
    (.block_one (@DerivesNoEmpty.instr_if [ID] [ID, ASSIGN, INT, SEMICOLON]
      (.expr_of_factor .factor_id)
      (.block_one (@DerivesNoEmpty.instr_expr [ID, ASSIGN, INT]
        (.expr (.exprLogic_one (@DerivesNoEmpty.exprAssign_assign [INT]
          (.comp_of_factor .factor_int))))))))
    .program_end

/-! ## More fuel, same result -/

theorem Lock.more_fuel {α : Type} {m m' : Parser α} (h : Lock none none m m') (s : PState)
    (r : Res α) (hr : m s = r) (hne : r ≠ .timeout) : m' s = r := by
  rcases h.eq_or_timeout s with h1 | h1
  · exact absurd (hr.symm.trans h1) hne
  · rw [h1, hr]

theorem block_more_fuel (tk : List Token) (n m : Nat) (hm : n ≤ m) (s : PState) (r : Res Bool)
    (h : block tk n s = r) (hr : r ≠ .timeout) : block tk m s = r :=
  ((rules_lock none none tk n m hm).1).more_fuel s r h hr

theorem expr_le_fuel (tk : List Token) (n m : Nat) (hm : n ≤ m) (s : PState) (r : Res Bool)
    (h : expr tk n s = r) (hr : r ≠ .timeout) : expr tk m s = r :=
  ((rules_lock none none tk n m hm).2.2.2.1).more_fuel s r h hr

theorem block_any_fuel (tk : List Token) (s : PState) (t : Token)
    (h : tk[s.iTk]? = some t) (hn : ¬ InstrStart t.code) (n : Nat) :
    block tk n s = .timeout ∨ block tk n s = .ok false s := by
  have h10 := block_fails_clean tk 0 s t h hn
  rcases Nat.le_total n 10 with hle | hle
  · rcases ((rules_lock none none tk n (0 + 10) hle).1).eq_or_timeout s with h1 | h1
    · exact Or.inl h1
    · exact Or.inr (by rw [← h1, h10])
  · exact Or.inr (block_more_fuel tk (0 + 10) n hle s _ h10 (by simp))

theorem main_with_path (env : Env) (argc : Int) (argv : List String) (buf : String)
    (tokens : List Token) (ha : 1 ≤ argc) (hl : env.loadFile argv[1]? = .ok buf)
    (ht : env.tokenize buf = .ok tokens) : main env argc argv = .returned EXIT_SUCCESS tokens := by
  simp only [main, not_lt.mpr ha, ↓reduceIte, hl, ht]

/-! ## The claims -/

/-- C1, evaluated at the failing input.  The sequence `; FINISH` is derivable from
`program` (a block of one empty statement, by `instr ::= expr? ';'`), yet `parse`
ends with the diagnostic `syntax error` on it, with any fuel that does not run
out and from any initial state: `instr` consumes `;` only after an expression. -/
theorem completeness_fails_on_empty_statement :
    Derives .program [SEMICOLON, FINISH] ∧
    parse (onLine1 [SEMICOLON, FINISH]) 12 PState.init = .fatal 1 "syntax error" ∧
    (∀ (fuel : Nat) (s : PState),
      parse (onLine1 [SEMICOLON, FINISH]) fuel s = .timeout ∨
      parse (onLine1 [SEMICOLON, FINISH]) fuel s = .fatal 1 "syntax error") :=
  ⟨Derives.program_block (Derives.block_one Derives.instr_empty) Derives.program_end,
    by decide,
    parse_any_fuel _ 12 PState.init _ (by decide) (by simp)⟩

/-- C2, evaluated at the failing input.  The sequence `if FINISH` is not derivable
from `program` (what precedes the end marker in a program ends with `;` or
`end`), yet `parse` returns normally on it with the cursor at `2`: `instr`
consumes `if`, finds no `(`, and returns false without a diagnostic and without
restoring the cursor, so `program` finds the end marker next. -/
theorem soundness_fails_on_dangling_if :
    ¬ Derives .program [IF, FINISH] ∧
    parse (onLine1 [IF, FINISH]) 12 PState.init = .ok () { iTk := 2, consumed := some 1 } ∧
    (∀ (fuel : Nat) (s : PState),
      parse (onLine1 [IF, FINISH]) fuel s = .timeout ∨
      parse (onLine1 [IF, FINISH]) fuel s = .ok () { iTk := 2, consumed := some 1 }) :=
  ⟨not_derives_of_last [IF] (by simp) (by simp [EndsStatement]),
    by decide,
    parse_any_fuel _ 12 PState.init _ (by decide) (by simp)⟩

/-- C3, evaluated at failing inputs.  On `var x : FINISH` (no base type after
`var ID :`), on `function f ( ) : FINISH` (no base type after the `:` of a function),
on `if FINISH` and on `while FINISH` (no `(` after the keyword) `parse` returns
normally instead of ending with a diagnostic; `function` without an identifier
does end with one. -/
theorem missing_mandatory_token_accepted :
    parse (onLine1 [VAR, ID, COLON, FINISH]) 12 PState.init
      = .ok () { iTk := 4, consumed := some 3 } ∧
    parse (onLine1 [FUNCTION, ID, LPAR, RPAR, COLON, FINISH]) 12 PState.init
      = .ok () { iTk := 6, consumed := some 5 } ∧
    parse (onLine1 [IF, FINISH]) 12 PState.init = .ok () { iTk := 2, consumed := some 1 } ∧
    parse (onLine1 [WHILE, FINISH]) 12 PState.init = .ok () { iTk := 2, consumed := some 1 } ∧
    parse (onLine1 [FUNCTION, FINISH]) 12 PState.init = .fatal 1 "Missing function identifier" ∧
    (∀ (fuel : Nat) (s : PState),
      parse (onLine1 [VAR, ID, COLON, FINISH]) fuel s = .timeout ∨
      parse (onLine1 [VAR, ID, COLON, FINISH]) fuel s
        = .ok () { iTk := 4, consumed := some 3 }) :=
  ⟨by decide, by decide, by decide, by decide, by decide,
    parse_any_fuel _ 12 PState.init _ (by decide) (by simp)⟩

/-- C4, evaluated at failing inputs.  Started at cursor `0`, each of these rules
returns false without a diagnostic and leaves the cursor advanced: `defVar` on
`var x : ;` (cursor `3`), `defFunc` on `function f ( ) : ;` (cursor `5`), `factor`
on `( )` (cursor `1`), and `exprPrefix`, `exprMul`, `exprAdd`, `exprComp`,
`exprAssign`, `exprLogic`, `expr`, `instr` and `block` on `- ;` (cursor `1`). -/
theorem failed_rule_moves_cursor :
    defVar (onLine1 [VAR, ID, COLON, SEMICOLON, FINISH]) PState.init
      = .ok false { iTk := 3, consumed := some 2 } ∧
    defFunc (onLine1 [FUNCTION, ID, LPAR, RPAR, COLON, SEMICOLON, FINISH]) 12 PState.init
      = .ok false { iTk := 5, consumed := some 4 } ∧
    factor (onLine1 [LPAR, RPAR, FINISH]) 12 PState.init
      = .ok false { iTk := 1, consumed := some 0 } ∧
    exprPrefix (onLine1 [SUB, SEMICOLON, FINISH]) 12 PState.init
      = .ok false { iTk := 1, consumed := some 0 } ∧
    exprMul (onLine1 [SUB, SEMICOLON, FINISH]) 12 PState.init
      = .ok false { iTk := 1, consumed := some 0 } ∧
    exprAdd (onLine1 [SUB, SEMICOLON, FINISH]) 12 PState.init
      = .ok false { iTk := 1, consumed := some 0 } ∧
    exprComp (onLine1 [SUB, SEMICOLON, FINISH]) 12 PState.init
      = .ok false { iTk := 1, consumed := some 0 } ∧
    exprAssign (onLine1 [SUB, SEMICOLON, FINISH]) 12 PState.init
      = .ok false { iTk := 1, consumed := some 0 } ∧
    exprLogic (onLine1 [SUB, SEMICOLON, FINISH]) 12 PState.init
      = .ok false { iTk := 1, consumed := some 0 } ∧
    expr (onLine1 [SUB, SEMICOLON, FINISH]) 12 PState.init
      = .ok false { iTk := 1, consumed := some 0 } ∧
    instr (onLine1 [SUB, SEMICOLON, FINISH]) 12 PState.init
      = .ok false { iTk := 1, consumed := some 0 } ∧
    block (onLine1 [SUB, SEMICOLON, FINISH]) 12 PState.init
      = .ok false { iTk := 1, consumed := some 0 } :=
  ⟨by decide, by decide, by decide, by decide, by decide, by decide, by decide, by decide,
    by decide, by decide, by decide, by decide⟩

/-- C5: the contract of `consume(code)`.  At an in-bounds cursor, when the category
of the token at the cursor is `code`, `consume` returns true, the cursor is one
more and `consumed` is the index of the token that was at the old cursor;
otherwise it returns false and the state, cursor and `consumed`, is the one it
was called in.  The token sequence is a parameter that no result carries, so it
is the same after the call. -/
theorem consume_contract (tk : List Token) (code : Code) (s : PState)
    (h : s.iTk < tk.length) :
    (tk[s.iTk].code = code →
      consume tk code s = .ok true { iTk := s.iTk + 1, consumed := some s.iTk }) ∧
    (tk[s.iTk].code ≠ code → consume tk code s = .ok false s) := by
  simp only [consume, List.getElem?_eq_getElem h]
  constructor
  · intro hc; simp [hc]
  · intro hc; simp [hc]

theorem consume_contract_witness :
    consume (onLine1 [VAR, FINISH]) VAR PState.init
      = .ok true { iTk := 1, consumed := some 0 } ∧
    consume (onLine1 [VAR, FINISH]) ID PState.init = .ok false PState.init :=
  ⟨(consume_contract (onLine1 [VAR, FINISH]) VAR PState.init (by decide)).1 (by decide),
    (consume_contract (onLine1 [VAR, FINISH]) ID PState.init (by decide)).2 (by decide)⟩

/-- C6: comparisons do not chain.  On a sequence that starts with
`operand op1 operand op2`, the operands being `ID`, `INT`, `REAL` or `STRING` tokens
and `op1`, `op2` being `LESS` or `EQUAL`, and goes on with three more tokens (the
third operand, `;` and the end marker of the claim, whatever they are),
`exprComp` started at cursor `0` returns true with the cursor at `3`, and `parse`
ends with a diagnostic (`syntax error`, on the line of the first token) instead
of accepting, with any fuel from `5` and from `11` on. -/
theorem comparisons_do_not_chain (a op1 b op2 c semi fin : Token)
    (ha : a.code = ID ∨ a.code = INT ∨ a.code = REAL ∨ a.code = STRING)
    (hb : b.code = ID ∨ b.code = INT ∨ b.code = REAL ∨ b.code = STRING)
    (h1 : op1.code = LESS ∨ op1.code = EQUAL) (h2 : op2.code = LESS ∨ op2.code = EQUAL)
    (fuel : Nat) (k : Option Nat) (s : PState) :
    exprComp [a, op1, b, op2, c, semi, fin] (fuel + 5) { iTk := 0, consumed := k }
      = .ok true { iTk := 3, consumed := some 2 } ∧
    parse [a, op1, b, op2, c, semi, fin] (fuel + 11) s = .fatal a.line "syntax error" :=
  ⟨exprComp_no_chain a op1 b op2 c [semi, fin] ha hb h1 h2 fuel k,
    parse_no_chain a op1 b op2 c semi fin ha hb h1 h2 fuel s⟩

theorem comparisons_do_not_chain_witness :
    exprComp (onLine1 [ID, LESS, ID, LESS, ID, SEMICOLON, FINISH]) 5 PState.init
      = .ok true { iTk := 3, consumed := some 2 } ∧
    parse (onLine1 [ID, LESS, ID, LESS, ID, SEMICOLON, FINISH]) 11 PState.init
      = .fatal 1 "syntax error" :=
  comparisons_do_not_chain ⟨ID, 1⟩ ⟨LESS, 1⟩ ⟨ID, 1⟩ ⟨LESS, 1⟩ ⟨ID, 1⟩ ⟨SEMICOLON, 1⟩
    ⟨FINISH, 1⟩ (Or.inl rfl) (Or.inl rfl) (Or.inl rfl) (Or.inl rfl) 0 none PState.init

/-- C7: termination with two outcomes.  On a sequence that ends with `FINISH`,
`parse` run with fuel `12 * length` or more returns (Accept) or ends with a
diagnostic (Fatal): it neither runs out of fuel nor reads out of bounds; more
fuel gives the same result; and `program` never returns false. -/
theorem parse_terminates (tk : List Token) (last : Nat) (hw : EndsWithFinish tk last) :
    (∀ (fuel : Nat) (s : PState), 12 * tk.length ≤ fuel →
      (∃ s1, parse tk fuel s = .ok () s1) ∨
      (∃ line msg, parse tk fuel s = .fatal line msg)) ∧
    (∀ (fuel more : Nat) (s : PState), 12 * tk.length ≤ fuel →
      parse tk (fuel + more) s = parse tk fuel s) ∧
    (∀ (fuel : Nat) (s s1 : PState), program tk fuel s ≠ .ok false s1) := by
  have key : ∀ (fuel : Nat) (s : PState), 12 * tk.length ≤ fuel →
      (∃ s1, parse tk fuel s = .ok () s1) ∨
      (∃ line msg, parse tk fuel s = .fatal line msg) := by
    intro fuel s hf
    have h := parse_total hw fuel s hf
    unfold wp at h
    cases hp : parse tk fuel s with
    | ok a s1 => exact Or.inl ⟨s1, rfl⟩
    | fatal l e => exact Or.inr ⟨l, e, rfl⟩
    | oob => simp [hp] at h
    | timeout => simp [hp] at h
  refine ⟨key, ?_, program_never_false tk⟩
  intro fuel more s hf
  rcases parse_indep tk fuel (fuel + more) (by omega) s s with h | h
  · rcases key fuel s hf with ⟨s1, h1⟩ | ⟨l, e, h1⟩ <;> simp [h1] at h
  · exact h

theorem parse_terminates_witness :
    (∃ s1, parse (onLine1 [VAR, ID, COLON, TYPE_INT, SEMICOLON, FINISH]) 72 PState.init
        = .ok () s1) ∨
    (∃ line msg, parse (onLine1 [VAR, ID, COLON, TYPE_INT, SEMICOLON, FINISH]) 72 PState.init
        = .fatal line msg) :=
  (parse_terminates (onLine1 [VAR, ID, COLON, TYPE_INT, SEMICOLON, FINISH]) 5
    ⟨rfl, _, rfl, rfl⟩).1 72 PState.init (by decide)

/-- C8: the cursor range.  On a sequence whose last token, at index `last`, is its
only `FINISH`: every rule started with the cursor at most `last` never reads
`tokens[iTk]` outside the sequence and, when it returns, leaves the cursor
between its entry value and `last`, so it has not consumed the end marker (this
holds for `consume` of any category but `FINISH`, and for every grammar rule,
with any fuel); `tkerr` called there reads a token of the sequence; and when
`parse` returns, the cursor is the length of the sequence and `consumed` is the
index of the end marker. -/
theorem cursor_range_invariant (tk : List Token) (last : Nat) (hw : EndsWithFinish tk last)
    (honly : ∀ i t, tk[i]? = some t → t.code = FINISH → i = last) :
    (∀ (fuel : Nat) (s : PState), s.iTk ≤ last →
      (∀ c, c ≠ FINISH → StaysInRange last s (consume tk c s)) ∧
      (∀ msg, ∃ line, (tkerr tk msg s : Res Bool) = .fatal line msg) ∧
      StaysInRange last s (baseType tk s) ∧
      StaysInRange last s (defVar tk s) ∧
      StaysInRange last s (funcParam tk s) ∧
      StaysInRange last s (block tk fuel s) ∧
      StaysInRange last s (instr tk fuel s) ∧
      StaysInRange last s (expr tk fuel s) ∧
      StaysInRange last s (exprLogic tk fuel s) ∧
      StaysInRange last s (exprAssign tk fuel s) ∧
      StaysInRange last s (exprComp tk fuel s) ∧
      StaysInRange last s (exprAdd tk fuel s) ∧
      StaysInRange last s (exprMul tk fuel s) ∧
      StaysInRange last s ( exprPrefix tk fuel s) ∧
      StaysInRange last s (factor tk fuel s) ∧
      StaysInRange last s (funcParams tk fuel s) ∧
      StaysInRange last s (defFunc tk fuel s)) ∧
    (∀ (fuel : Nat) (s : PState),
      match parse tk fuel s with
      | .ok _ s1 => s1.iTk = tk.length ∧ s1.consumed = some last
      | .fatal _ _ => True
      | .oob => False
      | .timeout => True) := by
  refine ⟨fun fuel s hs => ⟨?_, ?_, stays_of_total (baseType_total hw) s hs,
      stays_of_total (defVar_total hw) s hs, stays_of_total (funcParam_total hw) s hs,
      RuleB.stays (block tk) (fun n m h => (rules_lock none none tk n m h).1)
        (fun n => (rules_total hw n).1) fuel s hs,
      RuleB.stays (instr tk) (fun n m h => (rules_lock none none tk n m h).2.2.1)
        (fun n => (rules_total hw n).2.2.1) fuel s hs,
      RuleB.stays (expr tk) (fun n m h => (rules_lock none none tk n m h).2.2.2.1)
        (fun n => (rules_total hw n).2.2.2.1) fuel s hs,
      RuleB.stays (exprLogic tk) (fun n m h => (rules_lock none none tk n m h).2.2.2.2.1)
        (fun n => (rules_total hw n).2.2.2.2.1) fuel s hs,
      RuleB.stays (exprAssign tk)
        (fun n m h => (rules_lock none none tk n m h).2.2.2.2.2.2.1)
        (fun n => (rules_total hw n).2.2.2.2.2.2.1) fuel s hs,
      RuleB.stays (exprComp tk)
        (fun n m h => (rules_lock none none tk n m h).2.2.2.2.2.2.2.1)
        (fun n => (rules_total hw n).2.2.2.2.2.2.2.1) fuel s hs,
      RuleB.stays (exprAdd tk)
        (fun n m h => (rules_lock none none tk n m h).2.2.2.2.2.2.2.2.1)
        (fun n => (rules_total hw n).2.2.2.2.2.2.2.2.1) fuel s hs,
      RuleB.stays (exprMul tk)
        (fun n m h => (rules_lock none none tk n m h).2.2.2.2.2.2.2.2.2.2.1)
        (fun n => (rules_total hw n).2.2.2.2.2.2.2.2.2.2.1) fuel s hs,
      RuleB.stays ( exprPrefix tk)
        (fun n m h => (rules_lock none none tk n m h).2.2.2.2.2.2.2.2.2.2.2.2.1)
        (fun n => (rules_total hw n).2.2.2.2.2.2.2.2.2.2.2.2.1) fuel s hs,
      RuleB.stays (factor tk)
        (fun n m h => (rules_lock none none tk n m h).2.2.2.2.2.2.2.2.2.2.2.2.2.1)
        (fun n => (rules_total hw n).2.2.2.2.2.2.2.2.2.2.2.2.2.1) fuel s hs,
      RuleB.stays (funcParams tk) (fun n m h => funcParams_lock none none tk n m h)
        (fun n => funcParams_total hw n) fuel s hs,
      RuleB.stays (defFunc tk) (fun n m h => defFunc_lock none none tk n m h)
        (fun n => defFunc_total hw n) fuel s hs⟩,
    parse_accept_state hw honly⟩
  · intro c hc
    exact stays_of_total (fun Q s hs ht hf => wp_consume hw c Q s hs ht hf hc) s hs
  · intro msg
    have hlt : s.iTk < tk.length := by have := hw.1; omega
    exact ⟨tk[s.iTk].line, by simp [tkerr, List.getElem?_eq_getElem hlt]⟩

theorem cursor_range_invariant_witness :
    StaysInRange 5 PState.init
      (instr (onLine1 [VAR, ID, COLON, TYPE_INT, SEMICOLON, FINISH]) 20 PState.init) :=
  ((cursor_range_invariant (onLine1 [VAR, ID, COLON, TYPE_INT, SEMICOLON, FINISH]) 5
    ⟨rfl, _, rfl, rfl⟩
    (by
      intro i t h hc
      rcases i with _ | _ | _ | _ | _ | _ | i
      all_goals first
        | rfl
        | (simp only [onLine1, List.map, List.getElem?_cons_zero, List.getElem?_cons_succ,
            List.getElem?_nil, Option.some.injEq, reduceCtorEq] at h <;>
           (subst h; simp at hc)))).1 20 PState.init (by decide)).2.2.2.2.2.2.1

/-- C9: determinism of `parse`.  The result of `parse`, the final state on Accept and
the line and message on Fatal, is the same from any two initial states of the
globals `iTk` and `consumed`, so a second run over the same sequence reproduces
the first; and it is the same with any larger fuel unless the smaller fuel ran
out. -/
theorem parse_deterministic (tk : List Token) :
    (∀ (fuel : Nat) (s s' : PState), parse tk fuel s = parse tk fuel s') ∧
    (∀ (fuel more : Nat) (s s' : PState),
      parse tk fuel s = .timeout ∨ parse tk (fuel + more) s' = parse tk fuel s) :=
  ⟨parse_same_fuel tk, fun n d s s' => parse_indep tk n (n + d) (by omega) s s'⟩

/-- C10: a missing `:` in a variable declaration.  When the tokens at the cursor are
`VAR`, `ID` and a token of any category but `COLON`, `defVar` ends with the
diagnostic `Missing ':' in variable declaration` on the line of that third token;
and `parse` on the tokens of `var x int ;` followed by the end marker ends with
that diagnostic on the line of the `int` token, from any state and with any
fuel but `0`. -/
theorem defVar_missing_colon :
    (∀ (tk : List Token) (s : PState) (t0 t1 t2 : Token),
      tk[s.iTk]? = some t0 → t0.code = VAR →
      tk[s.iTk + 1]? = some t1 → t1.code = ID →
      tk[s.iTk + 2]? = some t2 → t2.code ≠ COLON →
      defVar tk s = .fatal t2.line "Missing ':' in variable declaration") ∧
    (∀ (l0 l1 l2 l3 l4 : Int) (fuel : Nat) (s : PState),
      parse [⟨VAR, l0⟩, ⟨ID, l1⟩, ⟨TYPE_INT, l2⟩, ⟨SEMICOLON, l3⟩, ⟨FINISH, l4⟩] (fuel + 1) s
        = .fatal l2 "Missing ':' in variable declaration") := by
  constructor
  · intro tk s t0 t1 t2 h0 c0 h1 c1 h2 c2
    simp [defVar, bind_apply, consume, tkerr, h0, c0, h1, c1, h2, c2]
  · intro l0 l1 l2 l3 l4 fuel s
    simp [parse, program, program_for, bind_apply, setITk, defVar, consume, tkerr]

theorem defVar_missing_colon_witness :
    defVar (onLine1 [VAR, ID, TYPE_INT, SEMICOLON, FINISH]) PState.init
      = .fatal 1 "Missing ':' in variable declaration" :=
  defVar_missing_colon.1 (onLine1 [VAR, ID, TYPE_INT, SEMICOLON, FINISH]) PState.init
    ⟨VAR, 1⟩ ⟨ID, 1⟩ ⟨TYPE_INT, 1⟩ rfl rfl rfl rfl rfl (by decide)

/-- C11: a `while` loop without its `end`.  When the tokens at `c` and `c + 1` are
`WHILE` and `LPAR`, `expr` returns true from there leaving the cursor at a `RPAR`,
`block` returns true after it leaving the cursor at `p`, and the token at `p` is
not `END`, then `instr` started at `c`, with any fuel above those of the two
calls, ends with the diagnostic `Missing 'end' after 'while' loop` on the line of
the token at `p`.  In particular `parse` ends so on the tokens of
`while ( x ) x = 1 ;` and the end marker, on the line of the end marker. -/
theorem while_missing_end (tk : List Token) (c : Nat) (k : Option Nat) (ne nb : Nat)
    (t0 t1 t2 t3 : Token) (s1 s2 : PState)
    (h0 : tk[c]? = some t0) (c0 : t0.code = WHILE)
    (h1 : tk[c + 1]? = some t1) (c1 : t1.code = LPAR)
    (he : expr tk ne { iTk := c + 2, consumed := some (c + 1) } = .ok true s1)
    (h2 : tk[s1.iTk]? = some t2) (c2 : t2.code = RPAR)
    (hb : block tk nb { iTk := s1.iTk + 1, consumed := some s1.iTk } = .ok true s2)
    (h3 : tk[s2.iTk]? = some t3) (c3 : t3.code ≠ END) :
    (∀ n, ne ≤ n → nb ≤ n →
      instr tk (n + 1) { iTk := c, consumed := k }
        = .fatal t3.line "Missing 'end' after 'while' loop") ∧
    (∀ (l0 l1 l2 l3 l4 l5 l6 l7 l8 : Int) (n : Nat) (s : PState),
      parse [⟨WHILE, l0⟩, ⟨LPAR, l1⟩, ⟨ID, l2⟩, ⟨RPAR, l3⟩, ⟨ID, l4⟩, ⟨ASSIGN, l5⟩, ⟨INT, l6⟩,
        ⟨SEMICOLON, l7⟩, ⟨FINISH, l8⟩] (n + 14) s
        = .fatal l8 "Missing 'end' after 'while' loop") :=
  ⟨fun n hne hnb =>
    instr_while_missing_end tk n c k t0 t1 t2 t3 s1 s2 h0 c0 h1 c1
      (expr_le_fuel tk ne n hne _ _ he (by simp)) h2 c2
      (block_more_fuel tk nb n hnb _ _ hb (by simp)) h3 c3,
   parse_while_missing_end⟩

theorem while_missing_end_witness :
    instr (onLine1 whileExample) 13 PState.init
      = .fatal 1 "Missing 'end' after 'while' loop" :=
  (while_missing_end (onLine1 whileExample) 0 none 8 11
    ⟨WHILE, 1⟩ ⟨LPAR, 1⟩ ⟨RPAR, 1⟩ ⟨FINISH, 1⟩
    { iTk := 3, consumed := some 2 } { iTk := 8, consumed := some 7 }
    rfl rfl rfl rfl (by decide) rfl rfl (by decide) rfl (by decide)).1 12 (by decide) (by decide)

/-- C12: programs of declarations only.  When the tokens are `n` variable
declarations `VAR ID COLON t SEMICOLON`, with `t` one of the three base types,
at the indices `0`, `5`, ... and the token at index `5 * n` is `FINISH`, `parse`
run with fuel `n + 11` or more returns with the cursor at `5 * n + 1` and no
diagnostic.  With `n = 0` this is the sequence of the end marker alone. -/
theorem declarations_accepted (tk : List Token) (n : Nat) (fin : Token)
    (hd : ∀ i, i < n → IsVarDecl tk (5 * i))
    (hf : tk[5 * n]? = some fin) (hc : fin.code = FINISH) (fuel : Nat) (s : PState) :
    parse tk (fuel + n + 11) s = .ok () { iTk := 5 * n + 1, consumed := some (5 * n) } := by
  obtain ⟨k', hk⟩ := program_for_decls tk fin hc n 0 s.consumed
    (fun i hi => by simpa using hd i hi) (by simpa using hf) fuel
  have := parse_accept tk _ s _ fin hk (by simpa using hf) hc
  simpa using this

theorem declarations_accepted_witness :
    parse (onLine1 [VAR, ID, COLON, TYPE_INT, SEMICOLON, FINISH]) 12 PState.init
      = .ok () { iTk := 6, consumed := some 5 } :=
  declarations_accepted (onLine1 [VAR, ID, COLON, TYPE_INT, SEMICOLON, FINISH]) 1 ⟨FINISH, 1⟩
    (fun i hi => by
      obtain rfl : i = 0 := by omega
      exact ⟨⟨VAR, 1⟩, ⟨ID, 1⟩, ⟨COLON, 1⟩, ⟨TYPE_INT, 1⟩, ⟨SEMICOLON, 1⟩,
        rfl, rfl, rfl, rfl, rfl, rfl, rfl, Or.inl rfl, rfl, rfl⟩)
    rfl rfl 0 PState.init

/-- C13: completeness on programs without the empty statement.  When the
categories of a token sequence are derived from `program` in the grammar of
section 4.2 without using the production `instr ::= ';'` (such a derivation is
in particular one of the full grammar), `parse` run with fuel `12 * length` or
more returns with the cursor at the length of the sequence, without a
diagnostic. -/
theorem completeness_without_empty_statement (tk : List Token)
    (h : DerivesNoEmpty .program (tk.map Token.code)) :
    Derives .program (tk.map Token.code) ∧
    ∀ (fuel : Nat) (s : PState), 12 * tk.length ≤ fuel →
      parse tk fuel s = .ok () { iTk := tk.length, consumed := some (tk.length - 1) } :=
  ⟨h.derives, fun fuel s hf => parse_of_derives tk h fuel hf s⟩

theorem completeness_without_empty_statement_witness :
    parse (onLine1 functionExample) 168 PState.init = .ok () { iTk := 14, consumed := some 13 } ∧
    parse (onLine1 ifExample) 120 PState.init = .ok () { iTk := 10, consumed := some 9 } :=
  ⟨(completeness_without_empty_statement (onLine1 functionExample)
      functionExample_derives).2 168 PState.init (by decide),
   (completeness_without_empty_statement (onLine1 ifExample)
      ifExample_derives).2 120 PState.init (by decide)⟩

/-- C14 as stated fails on the driver.  With a loader and a lexer that give the
tokens `VAR FINISH` of `var`, which are not derivable from `program` and on which
`parse` ends with a diagnostic, `main` returns `EXIT_SUCCESS`: it shows the
tokens and never calls `parse`. -/
theorem main_returns_success_on_invalid_program :
    main exampleEnv 2 ["quick", "prog.q"] = .returned 0 (onLine1 [VAR, FINISH]) ∧
    ¬ Derives .program [VAR, FINISH] ∧
    (∀ (fuel : Nat) (s : PState),
      parse (onLine1 [VAR, FINISH]) fuel s = .timeout ∨
      parse (onLine1 [VAR, FINISH]) fuel s = .fatal 1 "Missing identifier in variable declaration") :=
  ⟨by decide,
    not_derives_of_last [VAR] (by simp) (by simp [EndsStatement]),
    parse_any_fuel _ 12 PState.init _ (by decide) (by simp)⟩

/-- C14, amended: the driver shows the tokens and stops there.  When `main` is
given a path (`argc` at least `2`) and `loadFile` and `tokenize` return, `main`
returns `EXIT_SUCCESS`, which is `0`, after showing the token sequence, whatever
that sequence is: its result does not depend on what `parse` does on it. -/
theorem main_does_not_parse (env : Env) (argc : Int) (argv : List String) (buf : String)
    (tokens : List Token) (ha : 2 ≤ argc) (hl : env.loadFile argv[1]? = .ok buf)
    (ht : env.tokenize buf = .ok tokens) :
    main env argc argv = .returned 0 tokens :=
  main_with_path env argc argv buf tokens (by omega) hl ht

theorem main_does_not_parse_witness :
    main exampleEnv 2 ["quick", "prog.q"] = .returned 0 (onLine1 [VAR, FINISH]) :=
  main_does_not_parse exampleEnv 2 ["quick", "prog.q"] "var" (onLine1 [VAR, FINISH])
    (by decide) rfl rfl

/-- C15, evaluated at the failing input.  Invoked with the program name alone
(`argc = 1`), `main` does not take the branch `err("You must provide a path")`,
whose test is `argc < 1`: it calls `loadFile` on `argv[1]`, which is null, and
goes on from there; with a loader that returns, it returns `EXIT_SUCCESS`.  Only
an `argc` below `1` takes the branch. -/
theorem main_without_path_goes_on :
    (∀ env : Env, main env 1 ["quick"] =
      match env.loadFile none with
      | .error e => .aborted e
      | .ok buf =>
        match env.tokenize buf with
        | .error e => .aborted e
        | .ok tokens => .returned 0 tokens) ∧
    main exampleEnv 1 ["quick"] = .returned 0 (onLine1 [VAR, FINISH]) ∧
    (∀ env : Env, main env 0 [] = .aborted "You must provide a path") :=
  ⟨fun _ => rfl, by decide, fun _ => rfl⟩

/-- C16, evaluated at failing inputs.  With the cursor at a `;` (at `0` in `;`, at
`2` in `x ; ;`) `instr` returns false without moving the cursor, instead of
consuming the `;`, and `parse` ends with the diagnostic `syntax error` on
`; FINISH` instead of accepting it. -/
theorem instr_rejects_empty_statement :
    instr (onLine1 [SEMICOLON, FINISH]) 12 PState.init = .ok false PState.init ∧
    instr (onLine1 [ID, SEMICOLON, SEMICOLON, FINISH]) 12 { iTk := 2, consumed := some 1 }
      = .ok false { iTk := 2, consumed := some 1 } ∧
    parse (onLine1 [SEMICOLON, FINISH]) 12 PState.init = .fatal 1 "syntax error" ∧
    (∀ (fuel : Nat) (s : PState),
      parse (onLine1 [SEMICOLON, FINISH]) fuel s = .timeout ∨
      parse (onLine1 [SEMICOLON, FINISH]) fuel s = .fatal 1 "syntax error") :=
  ⟨by decide, by decide, by decide, parse_any_fuel _ 12 PState.init _ (by decide) (by simp)⟩

/-- C17, evaluated at the failing input.  On `- if ( x ) x ; end` the expression
attempt of `instr` returns false with the cursor at `1`, after the `-`; the
keyword alternatives then run from cursor `1`, match the `if` statement and make
`instr` return true with the cursor at `8`, whereas run alone from cursor `0`
they return false there. -/
theorem instr_retries_from_moved_cursor :
    expr (onLine1 retryExample) 12 PState.init = .ok false { iTk := 1, consumed := some 0 } ∧
    instr (onLine1 retryExample) 13 PState.init = .ok true { iTk := 8, consumed := some 7 } ∧
    instr_keywords (onLine1 retryExample) 12 PState.init = .ok false PState.init :=
  ⟨by decide, by decide, by decide⟩

/-- C18: leniency on a missing `;`.  When `expr` started at `c` returns true and the
token after the matched expression is not `;`, `instr` started there, with any
fuel above that of the call, returns false with the cursor back at `c` and no
diagnostic: `consume` of `;` fails, the cursor is restored, and none of the
keyword forms matches, because the token at `c` begins an expression and so is
none of `IF`, `RETURN`, `WHILE`. -/
theorem instr_lenient_without_semicolon (tk : List Token) (n : Nat) (s s1 : PState) (t : Token)
    (he : expr tk n s = .ok true s1) (ht : tk[s1.iTk]? = some t) (hc : t.code ≠ SEMICOLON) :
    (∃ t0, tk[s.iTk]? = some t0 ∧ ExprStart t0.code ∧
      t0.code ≠ IF ∧ t0.code ≠ RETURN ∧ t0.code ≠ WHILE) ∧
    ∀ m, instr tk (n + m + 1) s = .ok false { iTk := s.iTk, consumed := s1.consumed } := by
  obtain ⟨t0, h0, hs⟩ := expr_true_start tk n s s1 he
  have hk : t0.code ≠ IF ∧ t0.code ≠ RETURN ∧ t0.code ≠ WHILE := by
    refine ⟨?_, ?_, ?_⟩ <;> (intro e; rw [e] at hs; revert hs; decide)
  refine ⟨⟨t0, h0, hs, hk⟩, fun m => ?_⟩
  rw [instr_unfold, expr_more_fuel tk n m s _ he (by simp)]
  simp only [consume, ht, hc, ↓reduceIte]
  exact instr_keywords_fails tk (n + m) { iTk := s.iTk, consumed := s1.consumed } t0 h0
    hk.1 hk.2.1 hk.2.2

theorem instr_lenient_without_semicolon_witness :
    instr (onLine1 [ID, RPAR, FINISH]) 9 PState.init = .ok false { iTk := 0, consumed := some 0 } :=
  (instr_lenient_without_semicolon (onLine1 [ID, RPAR, FINISH]) 8 PState.init
    { iTk := 1, consumed := some 0 } ⟨RPAR, 1⟩ (by decide) rfl (by decide)).2 0

/-- C19: what `exprAssign` does, with the token at the cursor `c` in the sequence.
(i) When it is `ID` and the next token is `ASSIGN`, `exprAssign` is `exprComp`
started at `c + 2`, except that a false result of that `exprComp` becomes the
diagnostic `Invalid expression after '='`; so `exprAssign` does not return false.
(ii) When it is not `ID`, `exprAssign` is `exprComp` started at `c`; when it is
`ID` and the next token is not `ASSIGN`, `exprAssign` is `exprComp` started at
`c` after the `ID` was consumed and the cursor restored, which has the same return
value, final cursor and diagnostic as `exprComp` started at `c`. -/
theorem exprAssign_characterisation (tk : List Token) (n c : Nat) (k : Option Nat) (t : Token)
    (h : tk[c]? = some t) :
    (∀ t1, t.code = ID → tk[c + 1]? = some t1 → t1.code = ASSIGN →
      exprAssign tk (n + 1) { iTk := c, consumed := k } =
        (match exprComp tk n { iTk := c + 2, consumed := some (c + 1) } with
          | .ok true s => .ok true s
          | .ok false s => tkerr tk "Invalid expression after '='" s
          | .fatal l e => .fatal l e
          | .oob => .oob
          | .timeout => .timeout) ∧
      ∀ s, exprAssign tk (n + 1) { iTk := c, consumed := k } ≠ .ok false s) ∧
    (t.code ≠ ID →
      exprAssign tk (n + 1) { iTk := c, consumed := k }
        = exprComp tk n { iTk := c, consumed := k }) ∧
    (∀ t1, t.code = ID → tk[c + 1]? = some t1 → t1.code ≠ ASSIGN →
      exprAssign tk (n + 1) { iTk := c, consumed := k }
        = exprComp tk n { iTk := c, consumed := some c } ∧
      SameOutcome (exprAssign tk (n + 1) { iTk := c, consumed := k })
        (exprComp tk n { iTk := c, consumed := k })) := by
  refine ⟨fun t1 hc h1 hc1 => ?_, fun hc => exprAssign_not_id tk n _ t h hc,
    fun t1 hc h1 hc1 => ?_⟩
  · have e := exprAssign_assign tk n c k t t1 h hc h1 hc1
    refine ⟨e, fun s => ?_⟩
    rw [e]
    cases exprComp tk n { iTk := c + 2, consumed := some (c + 1) } with
    | ok b s2 =>
      cases b with
      | true => simp
      | false =>
        simp only [tkerr]
        cases tk[s2.iTk]? <;> simp
    | fatal l e => simp
    | oob => simp
    | timeout => simp
  · have e := exprAssign_id_other tk n c k t t1 h hc h1 hc1
    refine ⟨e, ?_⟩
    rw [e]
    exact exprComp_sameOutcome tk n c (some c) k

theorem exprAssign_characterisation_witness :
    exprAssign (onLine1 [ID, ASSIGN, SEMICOLON, FINISH]) 6 PState.init =
      (match exprComp (onLine1 [ID, ASSIGN, SEMICOLON, FINISH]) 5
          { iTk := 0 + 2, consumed := some (0 + 1) } with
        | .ok true s => .ok true s
        | .ok false s => tkerr (onLine1 [ID, ASSIGN, SEMICOLON, FINISH])
            "Invalid expression after '='" s
        | .fatal l e => .fatal l e
        | .oob => .oob
        | .timeout => .timeout) :=
  ((exprAssign_characterisation (onLine1 [ID, ASSIGN, SEMICOLON, FINISH]) 5 0 none ⟨ID, 1⟩
    rfl).1 ⟨ASSIGN, 1⟩ rfl rfl rfl).1

/-- C20: the top-level alternatives at a token that does not begin them.  With the
cursor at a token of the sequence: if it is not `VAR`, `defVar` returns false; if
it is not `FUNCTION`, `defFunc` returns false, with any fuel; if it is none of
`ID`, `INT`, `REAL`, `STRING`, `LPAR`, `SUB`, `NOT`, `IF`, `RETURN`, `WHILE`,
`block` returns false with fuel `10` or more, and with less it runs out of fuel.
In each case the state, and so the cursor, is unchanged and there is no
diagnostic. -/
theorem alternatives_back_out (tk : List Token) (s : PState) (t : Token)
    (h : tk[s.iTk]? = some t) :
    (t.code ≠ VAR → defVar tk s = .ok false s) ∧
    (t.code ≠ FUNCTION → ∀ n, defFunc tk n s = .ok false s) ∧
    (¬ InstrStart t.code →
      (∀ n, block tk (n + 10) s = .ok false s) ∧
      (∀ n, block tk n s = .timeout ∨ block tk n s = .ok false s)) :=
  ⟨fun hc => defVar_fails_clean tk s t h hc,
    fun hc n => defFunc_fails_clean tk n s t h hc,
    fun hc => ⟨fun n => block_fails_clean tk n s t h hc, block_any_fuel tk s t h hc⟩⟩

theorem alternatives_back_out_witness :
    defVar (onLine1 [END, FINISH]) PState.init = .ok false PState.init ∧
    defFunc (onLine1 [END, FINISH]) 0 PState.init = .ok false PState.init ∧
    block (onLine1 [END, FINISH]) 10 PState.init = .ok false PState.init :=
  have w := alternatives_back_out (onLine1 [END, FINISH]) PState.init ⟨END, 1⟩ rfl
  ⟨w.1 (by decide), w.2.1 (by decide) 0, (w.2.2 (by decide)).1 0⟩

end QuickCompiler
